import Mathlib

/-!
# QuickStep (ODE `quickstep.cpp`): SOR-LCP solver and stepper

A shallow embedding of `SOR_LCP` and `dxQuickStepper` from
`src/ode/src/quickstep.cpp`, built with `REORDER_CONSTRAINTS` undefined (as
in the source, where the `#define` is commented out).

Modelling conventions.

* `dReal` is an arbitrary linearly ordered field `K` (exact arithmetic); the
  concrete evaluations are done at `K = ℚ`.
* A C array (`dReal *`, `int *`) is a total map from offsets to values
  (`Nat → K`, `Nat → Int`); the walking pointers of the source (`J_ptr`,
  `iMJ_ptr`, `fc_ptr`, `jb_ptr`) become explicit offsets.
* The bound arrays may hold `∓dInfinity`: `lo` has entries in `WithBot K`
  (`⊥` is `-dInfinity`) and `hi` has entries in `WithTop K` (`⊤` is
  `dInfinity`).
* A body number read from `jb` is an `int`; it indexes `body`, `invI` and
  `fc` through `Int.toNat` (the source requires the first body number of a
  row to be non-negative).
* Division is the division of the field, so `x / 0 = 0`, where the source
  produces an infinity or a NaN; a statement that depends on a quotient
  assumes that its divisor is not zero. What the source does at a zero
  divisor is evaluated on a second embedding of `SOR_LCP`, on values with
  infinities and NaN (`IEEE.dReal`, `IEEE.SOR_LCP`).

The definitions come first (primitives, `SOR_LCP`, `dxQuickStepper`, the
predicates used in the statements, the concrete systems), then the theorems.
-/

namespace QuickStep

set_option linter.unusedSectionVars false

variable {K : Type} [LinearOrderedField K]

/-! ## Primitives -/

/-- The `dSetZero (a, n)` call: the first `n` entries of `a` become zero. -/
def dSetZero (a : Nat → K) (n : Nat) : Nat → K :=
  fun i => if i < n then 0 else a i

/-- The six-term product sum `a[ab+0]*c[cb+0] + ... + a[ab+5]*c[cb+5]` that the
source writes out (or accumulates with `sum += ...`) for one body block. -/
def dot6 (a : Nat → K) (ab : Nat) (c : Nat → K) (cb : Nat) : K :=
  a (ab + 0) * c (cb + 0) + a (ab + 1) * c (cb + 1) + a (ab + 2) * c (cb + 2) +
    a (ab + 3) * c (cb + 3) + a (ab + 4) * c (cb + 4) + a (ab + 5) * c (cb + 5)

/-- Modelled from the spec: the macro `dMULTIPLY0_331 (A, B, C)` of `odemath.h`
(3×3 matrix times 3-vector, the matrix stored as three rows of four entries,
see `dMatrix3` in `common.h`); this is entry `r` of the product of the matrix
at `B + bb` with the vector at `C + cb`. -/
def dMULTIPLY0_331 (B : Nat → K) (bb : Nat) (C : Nat → K) (cb : Nat) (r : Nat) : K :=
  B (bb + 4 * r + 0) * C (cb + 0) + B (bb + 4 * r + 1) * C (cb + 1) +
    B (bb + 4 * r + 2) * C (cb + 2)

/-- The finite value of a lower bound that is not `-dInfinity`. -/
def finLo : WithBot K → K
  | none => 0
  | some x => x

/-- The finite value of an upper bound that is not `dInfinity`. -/
def finHi : WithTop K → K
  | none => 0
  | some x => x

/-! ## `SOR_LCP` -/

/-- The loop "precompute iMJ = inv(M)*J'" (lines 124-141). `iMJ0` is the
content of the freshly allocated block, which the loop leaves in place in
columns 6..11 of a row without second body. `invMass b` is
`body[b]->invMass`. -/
def computeIMJ (m : Nat) (J : Nat → K) (jb : Nat → Int) (invMass : Nat → K)
    (invI : Nat → K) (iMJ0 : Nat → K) : Nat → K :=
  fun idx =>
    let i := idx / 12
    let c := idx % 12
    let b1 := jb (i * 2)
    let b2 := jb (i * 2 + 1)
    if i < m then
      if c < 3 then invMass b1.toNat * J (i * 12 + c)
      else if c < 6 then dMULTIPLY0_331 invI (12 * b1.toNat) J (i * 12 + 3) (c - 3)
      else if 0 ≤ b2 then
        if c < 9 then invMass b2.toNat * J (i * 12 + c)
        else dMULTIPLY0_331 invI (12 * b2.toNat) J (i * 12 + 9) (c - 9)
      else iMJ0 idx
    else iMJ0 idx

/-- The value `sum` of the loop "precompute 1 / diagonals of A" for row `i`
(lines 148-152). -/
def diagSum (J iMJ : Nat → K) (jb : Nat → Int) (i : Nat) : K :=
  let sum := (0 : K) + dot6 iMJ (i * 12) J (i * 12)
  if 0 ≤ jb (i * 2 + 1) then sum + dot6 iMJ (i * 12 + 6) J (i * 12 + 6) else sum

/-- The array `Ad` after the loop "precompute 1 / diagonals of A":
`Ad[i] = sor_w / (sum + cfm[i])` (line 155). The quotient is the one of the
field: it is the value of the source where `sum + cfm[i]` is not zero; at a
zero divisor the source yields an infinity or a NaN, see `IEEE.computeAd`. -/
def computeAd (sor_w : K) (J iMJ : Nat → K) (jb : Nat → Int) (cfm : Nat → K) (i : Nat) : K :=
  sor_w / (diagSum J iMJ jb i + cfm i)

/-- The array `J` after "scale J and b by Ad": every entry of row `i < m` is
multiplied by `Ad[i]` (lines 159-164). -/
def scaleJ (m : Nat) (J Ad : Nat → K) : Nat → K :=
  fun idx => if idx / 12 < m then J idx * Ad (idx / 12) else J idx

/-- The array `b` after "scale J and b by Ad": `b[i] *= Ad[i]` (line 165). -/
def scaleB (m : Nat) (b Ad : Nat → K) : Nat → K :=
  fun i => if i < m then b i * Ad i else b i

/-- The array `Ad` after "scale Ad by CFM": `Ad[i] *= cfm[i]` (line 169). -/
def scaleAd (m : Nat) (Ad cfm : Nat → K) : Nat → K :=
  fun i => if i < m then Ad i * cfm i else Ad i

/-- The two loops that fill `order` (lines 176-178): `order[j++].index = i`
appends `i` to the written prefix of `order`; the returned list is that
prefix and its length is the final `j`. -/
def buildOrder (m : Nat) (findex : Nat → Int) : List Nat :=
  let o1 := (List.range m).foldl (fun o i => if findex i < 0 then o ++ [i] else o) []
  (List.range m).foldl (fun o i => if 0 ≤ findex i then o ++ [i] else o) o1

/-- The solver state carried through the sweeps: `lambda` and `fc`. -/
structure SORState (K : Type) where
  lambda : Nat → K
  fc : Nat → K

/-- The six statements `fc_ptr[j] += delta * iMJ_ptr[j]`, `j = 0..5`, with
`fc_ptr = fc + fb` and `iMJ_ptr + ib`. -/
def addDelta (fc : Nat → K) (fb : Nat) (delta : K) (iMJ : Nat → K) (ib : Nat) : Nat → K :=
  fun i => if fb ≤ i ∧ i < fb + 6 then fc i + delta * iMJ (ib + (i - fb)) else fc i

/-- The clamp of lines 264-275: returns the adjusted `delta` and the new
`lambda[index]`. -/
def clampLambda (lo : WithBot K) (hi : WithTop K) (lam delta : K) : K × K :=
  let new_lambda := lam + delta
  if (new_lambda : WithBot K) < lo then (finLo lo - lam, finLo lo)
  else if hi < (new_lambda : WithTop K) then (finHi hi - lam, finHi hi)
  else (delta, new_lambda)

/-- The `delta` of lines 245-259, before the clamp. `J`, `b` and `Ad` are the
arrays as they stand in the iteration, that is after the scaling loops. -/
def rowDelta (J b Ad : Nat → K) (jb : Nat → Int) (index : Nat) (s : SORState K) : K :=
  let b1 := jb (index * 2)
  let b2 := jb (index * 2 + 1)
  let delta := b index - s.lambda index * Ad index
  let delta := delta - dot6 s.fc (6 * b1.toNat) J (index * 12)
  if 0 ≤ b2 then delta - dot6 s.fc (6 * b2.toNat) J (index * 12 + 6) else delta

/-- The body of the inner loop for row `index` (lines 226-296). The block
under `if (findex[index] >= 0)` is empty in the source (its two statements are
commented out), so `lo` and `hi` are only read. -/
def rowUpdate (J iMJ b Ad : Nat → K) (jb : Nat → Int) (lo : Nat → WithBot K)
    (hi : Nat → WithTop K) (index : Nat) (s : SORState K) : SORState K :=
  let b1 := jb (index * 2)
  let b2 := jb (index * 2 + 1)
  let r := clampLambda (lo index) (hi index) (s.lambda index) (rowDelta J b Ad jb index s)
  let delta := r.1
  let lambda := Function.update s.lambda index r.2
  let fc := addDelta s.fc (6 * b1.toNat) delta iMJ (index * 12)
  let fc := if 0 ≤ b2 then addDelta fc (6 * b2.toNat) delta iMJ (index * 12 + 6) else fc
  { lambda := lambda, fc := fc }

/-- One iteration of the outer loop: `for (i=0; i<m; i++)` over
`index = order[i].index` (lines 220-297). The copy into `last_lambda` is a
dead store without `REORDER_CONSTRAINTS` and is left out. -/
def sweep (m : Nat) (order : List Nat) (J iMJ b Ad : Nat → K) (jb : Nat → Int)
    (lo : Nat → WithBot K) (hi : Nat → WithTop K) (s : SORState K) : SORState K :=
  (List.range m).foldl (fun s i => rowUpdate J iMJ b Ad jb lo hi (order.getD i 0) s) s

/-- The outer loop run `n` times. -/
def iterations (m : Nat) (order : List Nat) (J iMJ b Ad : Nat → K) (jb : Nat → Int)
    (lo : Nat → WithBot K) (hi : Nat → WithTop K) : Nat → SORState K → SORState K
  | 0, s => s
  | n + 1, s => iterations m order J iMJ b Ad jb lo hi n (sweep m order J iMJ b Ad jb lo hi s)

/-- The inputs of `SOR_LCP`. `invMass b` is `body[b]->invMass`; `sor_w` and
`num_iterations` are `qs->w` and `qs->num_iterations`; `lambda` and `fc` are
the caller's output buffers and `iMJ0` the content of the block allocated for
`iMJ`. -/
structure SORInput (K : Type) where
  m : Nat
  nb : Nat
  J : Nat → K
  jb : Nat → Int
  invMass : Nat → K
  invI : Nat → K
  lambda : Nat → K
  fc : Nat → K
  b : Nat → K
  lo : Nat → WithBot K
  hi : Nat → WithTop K
  cfm : Nat → K
  findex : Nat → Int
  num_iterations : Int
  sor_w : K
  iMJ0 : Nat → K

/-- The array `iMJ` of a call. -/
def SORInput.iMJ (p : SORInput K) : Nat → K :=
  computeIMJ p.m p.J p.jb p.invMass p.invI p.iMJ0

/-- The array `Ad` of a call before it is scaled by CFM. -/
def SORInput.Ad (p : SORInput K) : Nat → K :=
  computeAd p.sor_w p.J p.iMJ p.jb p.cfm

/-- The array `J` of a call as the iteration reads it. -/
def SORInput.Jscaled (p : SORInput K) : Nat → K := scaleJ p.m p.J p.Ad

/-- The array `b` of a call as the iteration reads it. -/
def SORInput.bscaled (p : SORInput K) : Nat → K := scaleB p.m p.b p.Ad

/-- The array `Ad` of a call as the iteration reads it. -/
def SORInput.Adscaled (p : SORInput K) : Nat → K := scaleAd p.m p.Ad p.cfm

/-- The array `order` of a call. -/
def SORInput.order (p : SORInput K) : List Nat := buildOrder p.m p.findex

/-- The state on entry to the outer loop: `dSetZero (lambda,m)` and
`dSetZero (fc,nb*6)` (lines 114-115). -/
def SORInput.init (p : SORInput K) : SORState K :=
  { lambda := dSetZero p.lambda p.m, fc := dSetZero p.fc (p.nb * 6) }

/-- One sweep of a call. -/
def SORInput.sweep (p : SORInput K) (s : SORState K) : SORState K :=
  QuickStep.sweep p.m p.order p.Jscaled p.iMJ p.bscaled p.Adscaled p.jb p.lo p.hi s

/-- The state of a call after `n` sweeps. -/
def SORInput.after (p : SORInput K) (n : Nat) : SORState K :=
  iterations p.m p.order p.Jscaled p.iMJ p.bscaled p.Adscaled p.jb p.lo p.hi n p.init

/-- The function `SOR_LCP` (lines 102-300): the returned `lambda` and `fc`.
The loop `for (iteration=0; iteration < num_iterations; iteration++)` runs
`num_iterations.toNat` times. -/
def SOR_LCP (p : SORInput K) : SORState K :=
  p.after p.num_iterations.toNat

/-! ## `dxQuickStepper` -/

/-- Modelled from the spec: the macro `dMULTIPLY0_333 (A, B, C)` of `odemath.h`,
the 3×3 product `A = B·C` on `dMatrix3` blocks (rows of four entries); this is
entry `idx = 4*i + j` of `A`. -/
def dMULTIPLY0_333 (B C : Nat → K) (idx : Nat) : K :=
  B (4 * (idx / 4) + 0) * C (0 + idx % 4) + B (4 * (idx / 4) + 1) * C (4 + idx % 4) +
    B (4 * (idx / 4) + 2) * C (8 + idx % 4)

/-- Modelled from the spec: the macro `dMULTIPLY2_333 (A, B, C)` of `odemath.h`,
the 3×3 product `A = B·Cᵀ` on `dMatrix3` blocks; this is entry `idx = 4*i + j`
of `A`. -/
def dMULTIPLY2_333 (B C : Nat → K) (idx : Nat) : K :=
  B (4 * (idx / 4) + 0) * C (4 * (idx % 4) + 0) + B (4 * (idx / 4) + 1) * C (4 * (idx % 4) + 1) +
    B (4 * (idx / 4) + 2) * C (4 * (idx % 4) + 2)

/-- Modelled from the spec: component `r` of the cross product `b × c` that
the macro `dCROSS (a, op, b, c)` of `odemath.h` combines into `a`. -/
def dCROSS (b c : Nat → K) (r : Nat) : K :=
  if r = 0 then b 1 * c 2 - b 2 * c 1
  else if r = 1 then b 2 * c 0 - b 0 * c 2
  else b 0 * c 1 - b 1 * c 0

/-- The fields of `dxBody` that the stepper reads or writes. `noGravity` is
the test `(flags & dxBodyNoGravity) != 0`; `mass` and `I` are `mass.mass` and
`mass.I`; matrices are `dMatrix3` blocks and vectors `dVector3` blocks. -/
structure dxBody (K : Type) where
  tag : Int
  noGravity : Bool
  mass : K
  I : Nat → K
  invMass : K
  invI : Nat → K
  R : Nat → K
  lvel : Nat → K
  avel : Nat → K
  facc : Nat → K
  tacc : Nat → K

/-- The `dxQuickStepParameters` of a world. -/
structure dxQuickStepParameters (K : Type) where
  num_iterations : Int
  w : K

/-- The fields of `dxWorld` that the stepper reads. -/
structure dxWorld (K : Type) where
  gravity : Nat → K
  global_erp : K
  global_cfm : K
  qs : dxQuickStepParameters K

/-- The answer of a joint to `getInfo1`. -/
structure Info1 where
  m : Int
  nub : Int

/-- The block `dxJoint::Info2` handed to `getInfo2`: `fps`, `erp`, and the
packed arrays as seen through the pointers `J1l`, `c`, `cfm`, `lo`, `hi`,
`findex`, that is from the first row of the joint on (`rowskip` is 12: entry
`c` of local row `r` is `J (r * 12 + c)`). -/
structure Info2 (K : Type) where
  fps : K
  erp : K
  J : Nat → K
  c : Nat → K
  cfm : Nat → K
  lo : Nat → WithBot K
  hi : Nat → WithTop K
  findex : Nat → Int

/-- A joint as the stepper uses it: the answers of its `vtable` callbacks
(`getInfo2` returns the block with what the joint wrote into it) and the bodies
`node[0].body`, `node[1].body` (`none` is the null pointer, `some a` the body
stored at place `a` of the body store). -/
structure dxJoint (K : Type) where
  getInfo1 : Info1
  getInfo2 : Info2 K → Info2 K
  node0 : Option Nat
  node1 : Option Nat

/-- The contents of the blocks the stepper allocates without initialising them:
`info`, and the `lambda`, `cforce` and `iMJ` blocks handed to or allocated by
`SOR_LCP`. -/
structure Scratch (K : Type) where
  info : Nat → Info1
  lambda : Nat → K
  cforce : Nat → K
  iMJ : Nat → K

/-- The loop `body[i]->tag = i` (line 312). The bodies of the array are
distinct objects: `body i` for `i < nb` is `*body[i]`, and the places from `nb`
on hold the bodies outside the array. -/
def setTags (nb : Nat) (body : Nat → dxBody K) : Nat → dxBody K :=
  fun i => if i < nb then { body i with tag := (i : Int) } else body i

/-- The global-frame inertia tensor `I` of one body (lines 328-329). -/
def globalI (bd : dxBody K) : Nat → K :=
  dMULTIPLY0_333 bd.R (dMULTIPLY2_333 bd.I bd.R)

/-- The block `invI + i*12` written for one body (lines 331-332). -/
def globalInvI (bd : dxBody K) : Nat → K :=
  dMULTIPLY0_333 bd.R (dMULTIPLY2_333 bd.invI bd.R)

/-- The array `invI` after the inertia loop (lines 325-336). -/
def computeInvI (body : Nat → dxBody K) : Nat → K :=
  fun idx => globalInvI (body (idx / 12)) (idx % 12)

/-- The rotational force of the inertia loop (lines 334-335):
`tacc -= avel × (I · avel)`. -/
def addRotationalForce (nb : Nat) (body : Nat → dxBody K) : Nat → dxBody K :=
  fun i =>
    if i < nb then
      let bd := body i
      let tmp := dMULTIPLY0_331 (globalI bd) 0 bd.avel 0
      { bd with tacc := fun r => if r < 3 then bd.tacc r - dCROSS bd.avel tmp r else bd.tacc r }
    else body i

/-- The gravity loop (lines 339-345). -/
def addGravity (nb : Nat) (gravity : Nat → K) (body : Nat → dxBody K) : Nat → dxBody K :=
  fun i =>
    if i < nb then
      let bd := body i
      if bd.noGravity = false then
        { bd with facc := fun r => if r < 3 then bd.facc r + bd.mass * gravity r else bd.facc r }
      else bd
    else body i

/-- The state of the `getInfo1` loop: the working array `joint`, the array
`info` and the destination index `i`. -/
structure Info1State (K : Type) where
  joint : Nat → dxJoint K
  info : Nat → Info1
  i : Nat

/-- One turn of the `getInfo1` loop for source index `j` (lines 353-358);
`none` is a failed `dIASSERT`. -/
def info1Step (st : Info1State K) (j : Nat) : Option (Info1State K) :=
  let info := Function.update st.info st.i (st.joint j).getInfo1
  if 0 ≤ (info st.i).m ∧ (info st.i).m ≤ 6 ∧ 0 ≤ (info st.i).nub ∧
      (info st.i).nub ≤ (info st.i).m then
    if 0 < (info st.i).m then
      some { joint := Function.update st.joint st.i (st.joint j), info := info, i := st.i + 1 }
    else some { st with info := info }
  else none

/-- The `getInfo1` loop (lines 351-360) over the copy of `_joint`; the final
`i` is the new `nj`. -/
def info1Pass (_joint : Nat → dxJoint K) (nj : Nat) (info0 : Nat → Info1) :
    Option (Info1State K) :=
  (List.range nj).foldl (fun st j => st.bind (fun s => info1Step s j))
    (some { joint := _joint, info := info0, i := 0 })

/-- The row offset loop (lines 363-368): the array `ofs` and the total `m`.
The assertion has passed, so every `info[i].m` is in `0..6` and is read as a
natural number. `ofs` starts as the map to 0. -/
def ofsPass (nj : Nat) (info : Nat → Info1) : (Nat → Nat) × Nat :=
  (List.range nj).foldl
    (fun (st : (Nat → Nat) × Nat) i => (Function.update st.1 i st.2, st.2 + (info i).m.toNat))
    (fun _ => 0, 0)

/-- The packed per-row arrays that `getInfo2` fills. -/
structure Packed (K : Type) where
  J : Nat → K
  c : Nat → K
  cfm : Nat → K
  lo : Nat → WithBot K
  hi : Nat → WithTop K
  findex : Nat → Int

/-- The packed arrays before the joints are queried (lines 380-384 and 401):
`c = 0`, `cfm = global_cfm`, `lo = -dInfinity`, `hi = dInfinity`,
`findex = -1`, `J = 0`. -/
def Packed.default (global_cfm : K) : Packed K :=
  { J := fun _ => 0, c := fun _ => 0, cfm := fun _ => global_cfm, lo := fun _ => ⊥,
    hi := fun _ => ⊤, findex := fun _ => -1 }

/-- The array `a` seen through the pointer `a + o`. -/
def viewFrom {α : Type} (a : Nat → α) (o : Nat) : Nat → α := fun r => a (o + r)

/-- The array `a` after the block seen through `a + o` became `v`. -/
def writeFrom {α : Type} (a : Nat → α) (o : Nat) (v : Nat → α) : Nat → α :=
  fun idx => if o ≤ idx then v (idx - o) else a idx

/-- One turn of the `getInfo2` loop for joint `i` (lines 407-420): the joint
writes through the pointers set to its first row, then its non-negative
`findex` entries are offset by `ofs[i]`. -/
def info2Step (fps erp : K) (joint : Nat → dxJoint K) (info : Nat → Info1) (ofs : Nat → Nat)
    (a : Packed K) (i : Nat) : Packed K :=
  let o := ofs i
  let Jinfo : Info2 K :=
    { fps := fps, erp := erp, J := viewFrom a.J (o * 12), c := viewFrom a.c o,
      cfm := viewFrom a.cfm o, lo := viewFrom a.lo o, hi := viewFrom a.hi o,
      findex := viewFrom a.findex o }
  let r := (joint i).getInfo2 Jinfo
  let findex := writeFrom a.findex o r.findex
  { J := writeFrom a.J (o * 12) r.J, c := writeFrom a.c o r.c, cfm := writeFrom a.cfm o r.cfm,
    lo := writeFrom a.lo o r.lo, hi := writeFrom a.hi o r.hi,
    findex := fun idx =>
      if o ≤ idx ∧ idx < o + (info i).m.toNat ∧ 0 ≤ findex idx then findex idx + (o : Int)
      else findex idx }

/-- The `getInfo2` loop (lines 406-421). -/
def info2Pass (fps erp global_cfm : K) (joint : Nat → dxJoint K) (nj : Nat) (info : Nat → Info1)
    (ofs : Nat → Nat) : Packed K :=
  (List.range nj).foldl (info2Step fps erp joint info ofs) (Packed.default global_cfm)

/-- The tag of the body a joint node points to, or -1 (lines 427-428). -/
def nodeTag (body : Nat → dxBody K) : Option Nat → Int
  | none => -1
  | some a => (body a).tag

/-- The loops that fill `jb` (lines 424-434): `jb_ptr[0] = b1; jb_ptr[1] = b2;
jb_ptr += 2` appends the two numbers to the written prefix of `jb`; the
returned list is that prefix, and its length is `jb_ptr - jb`. -/
def jbPass (body : Nat → dxBody K) (joint : Nat → dxJoint K) (nj : Nat) (info : Nat → Info1) :
    List Int :=
  (List.range nj).foldl
    (fun jb i =>
      let b1 := nodeTag body (joint i).node0
      let b2 := nodeTag body (joint i).node1
      (List.range (info i).m.toNat).foldl (fun jb _ => jb ++ [b1, b2]) jb)
    []

/-- The array `tmp1` (lines 441-446): `v/h + invM*fe`. -/
def computeTmp1 (body : Nat → dxBody K) (invI : Nat → K) (stepsize1 : K) : Nat → K :=
  fun idx =>
    let i := idx / 6
    let j := idx % 6
    if j < 3 then (body i).facc j * (body i).invMass + (body i).lvel j * stepsize1
    else dMULTIPLY0_331 invI (i * 12) (body i).tacc 0 (j - 3) + (body i).avel (j - 3) * stepsize1

/-- The array `rhs` after "put J*tmp1 into rhs" and "complete rhs"
(lines 449-465). -/
def computeRhs (J c : Nat → K) (jb : Nat → Int) (tmp1 : Nat → K) (stepsize1 : K) : Nat → K :=
  fun i =>
    let b1 := jb (i * 2)
    let b2 := jb (i * 2 + 1)
    let sum := (0 : K) + dot6 J (i * 12) tmp1 (b1.toNat * 6)
    let sum := if 0 ≤ b2 then sum + dot6 J (i * 12 + 6) tmp1 (b2.toNat * 6) else sum
    c i * stepsize1 - sum

/-- The array `cfm` after "scale CFM" (line 468). -/
def scaleCfm (m : Nat) (cfm : Nat → K) (stepsize1 : K) : Nat → K :=
  fun i => if i < m then cfm i * stepsize1 else cfm i

/-- What the stepper has computed when it reaches `if (m > 0)` (line 371):
the bodies after the tag, rotational-force and gravity loops, the array
`invI`, the working joint array with `info` and the new `nj`, and `ofs`
and `m`. -/
structure Assembly (K : Type) where
  body : Nat → dxBody K
  invI : Nat → K
  joint : Nat → dxJoint K
  info : Nat → Info1
  nj : Nat
  ofs : Nat → Nat
  m : Nat

/-- Lines 309-368 of `dxQuickStepper`; `none` is a failed `dIASSERT`. -/
def assemble (world : dxWorld K) (body : Nat → dxBody K) (nb : Nat) (_joint : Nat → dxJoint K)
    (nj : Nat) (scratch : Scratch K) : Option (Assembly K) :=
  let body := setTags nb body
  let invI := computeInvI body
  let body := addRotationalForce nb body
  let body := addGravity nb world.gravity body
  (info1Pass _joint nj scratch.info).map fun st =>
    let r := ofsPass st.i st.info
    { body := body, invI := invI, joint := st.joint, info := st.info, nj := st.i,
      ofs := r.1, m := r.2 }

/-- The packed arrays after the `getInfo2` loop, with `Jinfo.fps = stepsize1`
and `Jinfo.erp = world->global_erp`. -/
def Assembly.packed (a : Assembly K) (world : dxWorld K) (stepsize1 : K) : Packed K :=
  info2Pass stepsize1 world.global_erp world.global_cfm a.joint a.nj a.info a.ofs

/-- The array `jb`. -/
def Assembly.jb (a : Assembly K) : Nat → Int :=
  fun idx => (jbPass a.body a.joint a.nj a.info).getD idx 0

/-- The arguments of the call `SOR_LCP (m,nb,J,jb,body,invI,lambda,cforce,rhs,
lo,hi,cfm,findex,&world->qs)` (line 474). -/
def Assembly.sorInput (a : Assembly K) (world : dxWorld K) (nb : Nat) (stepsize1 : K)
    (scratch : Scratch K) : SORInput K :=
  let pk := a.packed world stepsize1
  let tmp1 := computeTmp1 a.body a.invI stepsize1
  { m := a.m, nb := nb, J := pk.J, jb := a.jb, invMass := fun b => (a.body b).invMass,
    invI := a.invI, lambda := scratch.lambda, fc := scratch.cforce,
    b := computeRhs pk.J pk.c a.jb tmp1 stepsize1, lo := pk.lo, hi := pk.hi,
    cfm := scaleCfm a.m pk.cfm stepsize1, findex := pk.findex,
    num_iterations := world.qs.num_iterations, sor_w := world.qs.w, iMJ0 := scratch.iMJ }

/-- The loop "add stepsize * cforce to the body velocity" (lines 482-485). -/
def addConstraintForce (nb : Nat) (stepsize : K) (cforce : Nat → K) (body : Nat → dxBody K) :
    Nat → dxBody K :=
  fun i =>
    if i < nb then
      let bd := body i
      { bd with
        lvel := fun j => if j < 3 then bd.lvel j + stepsize * cforce (i * 6 + j) else bd.lvel j
        avel := fun j =>
          if j < 3 then bd.avel j + stepsize * cforce (i * 6 + 3 + j) else bd.avel j }
    else body i

/-- The loop "add stepsize * invM * fe to the body velocity" (lines 524-529);
`dMULTIPLYADD0_331 (A, B, C)` is `A += B·C`. -/
def velocityUpdate (nb : Nat) (stepsize : K) (invI : Nat → K) (body : Nat → dxBody K) :
    Nat → dxBody K :=
  fun i =>
    if i < nb then
      let bd := body i
      let tacc : Nat → K := fun j => if j < 3 then bd.tacc j * stepsize else bd.tacc j
      { bd with
        lvel := fun j =>
          if j < 3 then bd.lvel j + stepsize * bd.invMass * bd.facc j else bd.lvel j
        tacc := tacc
        avel := fun j =>
          if j < 3 then bd.avel j + dMULTIPLY0_331 invI (i * 12) tacc 0 j else bd.avel j }
    else body i

/-- The multipliers `lambda` that `SOR_LCP` returns to the stepper, when
`m > 0`. -/
def stepperLambda (world : dxWorld K) (body : Nat → dxBody K) (nb : Nat)
    (_joint : Nat → dxJoint K) (nj : Nat) (stepsize : K) (scratch : Scratch K) :
    Option (Nat → K) :=
  (assemble world body nb _joint nj scratch).map fun a =>
    (SOR_LCP (a.sorInput world nb (1 / stepsize) scratch)).lambda

/-- Lines 309-529 of `dxQuickStepper`: the bodies as they are handed to the
body integrator `dxStepBody`. -/
def stepperVelocities (world : dxWorld K) (body : Nat → dxBody K) (nb : Nat)
    (_joint : Nat → dxJoint K) (nj : Nat) (stepsize : K) (scratch : Scratch K) :
    Option (Nat → dxBody K) :=
  let stepsize1 := 1 / stepsize
  (assemble world body nb _joint nj scratch).map fun a =>
    let body :=
      if 0 < a.m then
        addConstraintForce nb stepsize (SOR_LCP (a.sorInput world nb stepsize1 scratch)).fc a.body
      else a.body
    velocityUpdate nb stepsize a.invI body

/-- The function `dxQuickStepper` (lines 303-546). The body integrator
`dxStepBody` is not part of the file and is a parameter. -/
def dxQuickStepper (dxStepBody : dxBody K → K → dxBody K) (world : dxWorld K)
    (body : Nat → dxBody K) (nb : Nat) (_joint : Nat → dxJoint K) (nj : Nat) (stepsize : K)
    (scratch : Scratch K) : Option (Nat → dxBody K) :=
  (stepperVelocities world body nb _joint nj stepsize scratch).map fun body =>
    fun i =>
      if i < nb then
        let bd := dxStepBody (body i) stepsize
        { bd with facc := dSetZero bd.facc 3, tacc := dSetZero bd.tacc 3 }
      else body i

/-- The six velocity components of a body: `lvel` then `avel`. -/
def twist (bd : dxBody K) : Nat → K :=
  fun c => if c < 3 then bd.lvel c else bd.avel (c - 3)

/-! ## Auxiliary definitions for the statements -/

/-- The body of the inner loop of a call, for row `index`. -/
def SORInput.row (p : SORInput K) (index : Nat) (s : SORState K) : SORState K :=
  rowUpdate p.Jscaled p.iMJ p.bscaled p.Adscaled p.jb p.lo p.hi index s

/-- The relation `lo ≤ hi` between a lower and an upper bound, either of
which may be infinite. -/
def boundLE : WithBot K → WithTop K → Prop
  | some l, some u => l ≤ u
  | _, _ => True

instance boundLE_decidable (lo : WithBot K) (hi : WithTop K) : Decidable (boundLE lo hi) :=
  match lo, hi with
  | some l, some u => inferInstanceAs (Decidable (l ≤ u))
  | none, none => isTrue trivial
  | none, some _ => isTrue trivial
  | some _, none => isTrue trivial

/-- The accumulator invariant, with the sums written with `if`. -/
def AccInv (p : SORInput K) (s : SORState K) : Prop :=
  ∀ b, b < p.nb → ∀ j, j < 6 →
    s.fc (6 * b + j) =
      (∑ k ∈ Finset.range p.m, if p.jb (k * 2) = (b : Int) then
        s.lambda k * p.iMJ (k * 12 + j) else 0) +
      (∑ k ∈ Finset.range p.m, if p.jb (k * 2 + 1) = (b : Int) then
        s.lambda k * p.iMJ (k * 12 + 6 + j) else 0)

/-- The same call run with over-relaxation parameter `w`. -/
def SORInput.withW (p : SORInput K) (w : K) : SORInput K := { p with sor_w := w }

/-- The state of a one-row system in which the multiplier is `lam` and the
accumulator blocks of the row's bodies are `lam` times the `iMJ` row. -/
def SingleInv (p : SORInput K) (s : SORState K) (lam : K) : Prop :=
  s.lambda 0 = lam ∧
  (∀ t, t < 6 → s.fc (6 * (p.jb 0).toNat + t) = lam * p.iMJ t) ∧
  (0 ≤ p.jb 1 → ∀ t, t < 6 → s.fc (6 * (p.jb 1).toNat + t) = lam * p.iMJ (6 + t))

/-- The bodies of the single row are in the body array, and the second one,
when there is one, is not the first. -/
def SingleBodies (p : SORInput K) : Prop :=
  0 ≤ p.jb 0 ∧ p.jb 0 < (p.nb : Int) ∧ p.jb 1 < (p.nb : Int) ∧ p.jb 1 ≠ p.jb 0

/-- The assembly of a system of `nb` bodies with the single joint `_joint 0`,
as `assemble` returns it when that joint reports `m > 0`. -/
def oneJointAssembly (world : dxWorld K) (body : Nat → dxBody K) (nb : Nat)
    (_joint : Nat → dxJoint K) (scratch : Scratch K) : Assembly K :=
  { body := addGravity nb world.gravity (addRotationalForce nb (setTags nb body))
    invI := computeInvI (setTags nb body)
    joint := Function.update _joint 0 (_joint 0)
    info := Function.update scratch.info 0 (_joint 0).getInfo1
    nj := 1
    ofs := Function.update (fun _ => 0) 0 0
    m := 0 + (_joint 0).getInfo1.m.toNat }

/-- The block handed to the joint at row offset 0 when no joint has written
yet. -/
def firstInfo2 (world : dxWorld K) (fps : K) : Info2 K :=
  { fps := fps, erp := world.global_erp, J := fun _ => 0, c := fun _ => 0,
    cfm := fun _ => world.global_cfm, lo := fun _ => ⊥, hi := fun _ => ⊤,
    findex := fun _ => -1 }

/-! ## Concrete systems -/

/-- The identity as a `dMatrix3` block. -/
def identity3 : Nat → ℚ := fun idx => if idx = 0 ∨ idx = 5 ∨ idx = 10 then 1 else 0

/-- A body of mass 1 with identity inertia and rotation, linear velocity `lvel`,
no angular velocity and empty force accumulators. -/
def unitBody (lvel : Nat → ℚ) : dxBody ℚ :=
  { tag := 0, noGravity := false, mass := 1, I := identity3, invMass := 1, invI := identity3,
    R := identity3, lvel := lvel, avel := fun _ => 0, facc := fun _ => 0, tacc := fun _ => 0 }

/-- A world without gravity, with `global_cfm = 0`. -/
def plainWorld (num_iterations : Int) (w : ℚ) : dxWorld ℚ :=
  { gravity := fun _ => 0, global_erp := 1 / 5, global_cfm := 0,
    qs := { num_iterations := num_iterations, w := w } }

/-- Unallocated blocks filled with zeros. -/
def zeroScratch : Scratch ℚ :=
  { info := fun _ => ⟨0, 0⟩, lambda := fun _ => 0, cforce := fun _ => 0, iMJ := fun _ => 0 }

/-- Scenario S2: body 0 moves with `lvel = (1,0,0)`, body 1 is at rest. -/
def rodBody : Nat → dxBody ℚ :=
  fun i => unitBody (fun j => if i = 0 ∧ j = 0 then 1 else 0)

/-- Scenario S2: one joint between bodies 0 and 1 with the single row
`J = (1,0,0,0,0,0,-1,0,0,0,0,0)`, `c = 0`; it leaves `cfm`, `lo`, `hi` and
`findex` as it finds them. -/
def rodJoint : Nat → dxJoint ℚ :=
  fun _ =>
    { getInfo1 := ⟨1, 1⟩
      getInfo2 := fun blk =>
        { blk with
          J := fun idx => if idx = 0 then 1 else if idx = 6 then -1 else blk.J idx
          c := Function.update blk.c 0 0 }
      node0 := some 0
      node1 := some 1 }

/-- A joint on body 0 alone whose single row has a zero Jacobian and `c = 1`;
it leaves `J`, `cfm`, `lo`, `hi` and `findex` as it finds them. -/
def nullRowJoint : Nat → dxJoint ℚ :=
  fun _ =>
    { getInfo1 := ⟨1, 1⟩
      getInfo2 := fun blk => { blk with c := Function.update blk.c 0 1 }
      node0 := some 0
      node1 := none }

/-- Scenario S3: a ground contact on body 0 alone, with the single row
`J = (0,1,0,0,0,0)`, `c = 0`, `lo = 0`; it leaves `cfm`, `hi` and `findex` as
it finds them. -/
def contactJoint : Nat → dxJoint ℚ :=
  fun _ =>
    { getInfo1 := ⟨1, 0⟩
      getInfo2 := fun blk =>
        { blk with
          J := fun idx => if idx = 1 then 1 else blk.J idx
          c := Function.update blk.c 0 0
          lo := Function.update blk.lo 0 ((0 : ℚ) : WithBot ℚ) }
      node0 := some 0
      node1 := none }

/-- Scenario S3: one body of mass 1 falling with `lvel = (0,-1,0)`. -/
def fallingBody : Nat → dxBody ℚ :=
  fun _ => unitBody (fun j => if j = 1 then -1 else 0)

/-- A contact with friction on one unit-mass body: row 0 is the normal row
(`J = (0,1,0,0,0,0)`, `rhs = -1`, `lo = 0`, `hi = dInfinity`, `findex = -1`),
row 1 the friction row (`J = (1,0,0,0,0,0)`, `rhs = 10`, `hi = mu = 1/2`,
`lo = -1/2`, `findex = 0`); `w = 1`, `cfm = 0`, one iteration. -/
def frictionExample : SORInput ℚ where
  m := 2
  nb := 1
  J := fun i => if i = 1 then 1 else if i = 12 then 1 else 0
  jb := fun i => if i % 2 = 0 then 0 else -1
  invMass := fun _ => 1
  invI := fun _ => 0
  lambda := fun _ => 0
  fc := fun _ => 0
  b := fun i => if i = 0 then -1 else 10
  lo := fun i => if i = 0 then ((0 : ℚ) : WithBot ℚ) else ((-1 / 2 : ℚ) : WithBot ℚ)
  hi := fun i => if i = 0 then ⊤ else ((1 / 2 : ℚ) : WithTop ℚ)
  cfm := fun _ => 0
  findex := fun i => if i = 0 then -1 else 0
  num_iterations := 1
  sor_w := 1
  iMJ0 := fun _ => 0

/-- A direct call of `SOR_LCP` for the rod of scenario S2: one unbounded row
`J = (1,0,0,0,0,0,-1,0,0,0,0,0)` between bodies 0 and 1 of unit mass and
identity inverse inertia, `rhs = 1`, `cfm = 0`, `w = 1`, one iteration. -/
def rodSolverInput : SORInput ℚ where
  m := 1
  nb := 2
  J := fun idx => if idx = 0 then 1 else if idx = 6 then -1 else 0
  jb := fun i => if i % 2 = 0 then 0 else 1
  invMass := fun _ => 1
  invI := fun idx => identity3 (idx % 12)
  lambda := fun _ => 0
  fc := fun _ => 0
  b := fun _ => 1
  lo := fun _ => ⊥
  hi := fun _ => ⊤
  cfm := fun _ => 0
  findex := fun _ => -1
  num_iterations := 1
  sor_w := 1
  iMJ0 := fun _ => 0

/-- Scenario S1: a world with gravity `(0, -9.81, 0)`. -/
def fallWorld : dxWorld ℚ :=
  { gravity := fun j => if j = 1 then -981 / 100 else 0, global_erp := 1 / 5, global_cfm := 0,
    qs := { num_iterations := 20, w := 1 } }

/-- Scenario S1: one body of mass 1 with identity inertia, at rest, with empty
force and torque accumulators. -/
def restBody : Nat → dxBody ℚ := fun _ => unitBody (fun _ => 0)

/-- The condition of the `dIASSERT` in the `getInfo1` loop (line 354). -/
def Info1.inRange (x : Info1) : Prop :=
  0 ≤ x.m ∧ x.m ≤ 6 ∧ 0 ≤ x.nub ∧ x.nub ≤ x.m

instance Info1.inRange_decidable (x : Info1) : Decidable x.inRange :=
  inferInstanceAs (Decidable (0 ≤ x.m ∧ x.m ≤ 6 ∧ 0 ≤ x.nub ∧ x.nub ≤ x.m))

/-- The input joints that report `m > 0`, in their original order. -/
def survivors (_joint : Nat → dxJoint K) (nj : Nat) : List (dxJoint K) :=
  ((List.range nj).map _joint).filter (fun j => decide (0 < j.getInfo1.m))

/-- The `getInfo1` loop run over the first `n` input joints. -/
def info1Prefix (_joint : Nat → dxJoint K) (info0 : Nat → Info1) (n : Nat) :
    Option (Info1State K) :=
  (List.range n).foldl (fun st j => st.bind (fun s => info1Step s j))
    (some { joint := _joint, info := info0, i := 0 })

/-- The number of rows of the first `k` joints of the working array:
`info[0].m + ... + info[k-1].m`. -/
def rowsBefore (info : Nat → Info1) (k : Nat) : Nat :=
  ∑ i ∈ Finset.range k, (info i).m.toNat

/-- The place in the body array of the body a joint node points to, or -1 for
the null pointer. -/
def nodeIndex : Option Nat → Int
  | none => -1
  | some x => (x : Int)

/-- A joint that reports no rows but one unbounded variable: `m = 0`,
`nub = 1`. -/
def idleJoint : Nat → dxJoint ℚ :=
  fun _ =>
    { getInfo1 := ⟨0, 1⟩
      getInfo2 := fun blk => blk
      node0 := some 0
      node1 := none }

/-- Scenario S5: an inactive joint (`m = 0`, `nub = 0`) followed by the rod
joint of scenario S2. -/
def idleThenRod : Nat → dxJoint ℚ :=
  fun i =>
    if i = 0 then
      { getInfo1 := ⟨0, 0⟩, getInfo2 := fun blk => blk, node0 := some 0, node1 := none }
    else rodJoint 0

/-- The same call run on the Jacobian array `J2`. -/
def SORInput.withJ (p : SORInput K) (J2 : Nat → K) : SORInput K := { p with J := J2 }

/-- The `getInfo2` loop run over the first `n` joints of the working array. -/
def info2Prefix (fps erp global_cfm : K) (joint : Nat → dxJoint K) (info : Nat → Info1)
    (ofs : Nat → Nat) (n : Nat) : Packed K :=
  (List.range n).foldl (info2Step fps erp joint info ofs) (Packed.default global_cfm)

/-- The block `Jinfo` handed to joint `i` when the packed arrays are `a`
(lines 407-415). -/
def info2Block (fps erp : K) (ofs : Nat → Nat) (a : Packed K) (i : Nat) : Info2 K :=
  { fps := fps, erp := erp, J := viewFrom a.J (ofs i * 12), c := viewFrom a.c (ofs i),
    cfm := viewFrom a.cfm (ofs i), lo := viewFrom a.lo (ofs i), hi := viewFrom a.hi (ofs i),
    findex := viewFrom a.findex (ofs i) }

/-- The friction index that joint `k` of an assembly leaves in its local row
`j` when its `getInfo2` returns. -/
def Assembly.localFindex (a : Assembly K) (world : dxWorld K) (fps : K) (k j : Nat) : Int :=
  ((a.joint k).getInfo2
    (info2Block fps world.global_erp a.ofs
      (info2Prefix fps world.global_erp world.global_cfm a.joint a.info a.ofs k) k)).findex j

/-- A joint on body 0 with one row `J = (1,0,0,0,0,0)` that returns the
friction index 5, which is not one of its rows. -/
def wildFindexJoint : Nat → dxJoint ℚ :=
  fun _ =>
    { getInfo1 := ⟨1, 0⟩
      getInfo2 := fun blk =>
        { blk with
          J := fun idx => if idx = 0 then 1 else blk.J idx
          findex := Function.update blk.findex 0 5 }
      node0 := some 0
      node1 := none }

/-- The specification's diagonal entry, written from its words (section 4.2):
`A_dd[k] = Σ_j iMJ[k][j] · J[k][j]`, summing over columns 0..5, or 0..11 when
the row has a second body; `J` is the Jacobian passed in on entry. -/
def textbookAdd (p : SORInput K) (k : Nat) : K :=
  if 0 ≤ p.jb (k * 2 + 1) then ∑ j ∈ Finset.range 12, p.iMJ (k * 12 + j) * p.J (k * 12 + j)
  else ∑ j ∈ Finset.range 6, p.iMJ (k * 12 + j) * p.J (k * 12 + j)

/-- The specification's `A_d[k] = w / (A_dd[k] + cfm[k])`, with the `cfm`
passed in on entry. -/
def textbookAd (p : SORInput K) (k : Nat) : K :=
  p.sor_w / (textbookAdd p k + p.cfm k)

/-- The specification's product `J[k] · fc[body_pair(k)]` on the unscaled
Jacobian: the first six columns against the block of the first body, the last
six against the block of the second body when there is one. -/
def textbookJfc (p : SORInput K) (k : Nat) (fc : Nat → K) : K :=
  (∑ j ∈ Finset.range 6, p.J (k * 12 + j) * fc (6 * (p.jb (k * 2)).toNat + j)) +
    if 0 ≤ p.jb (k * 2 + 1) then
      ∑ j ∈ Finset.range 6, p.J (k * 12 + 6 + j) * fc (6 * (p.jb (k * 2 + 1)).toNat + j)
    else 0

/-- The unclamped step of the textbook projected-SOR update on the unscaled
system: `A_d[k] * (rhs[k] - cfm[k]*lambda[k] - J[k].fc)`. -/
def textbookDelta (p : SORInput K) (k : Nat) (s : SORState K) : K :=
  textbookAd p k * (p.b k - p.cfm k * s.lambda k - textbookJfc p k s.fc)

/-- One row of the textbook projected-SOR update (section 4.4, steps 2-5 of
the specification): the unclamped step, the clamp to `[lo[k], hi[k]]` with
`delta` adjusted to the actual change of `lambda[k]`, and
`fc[body1][0..6] += delta · iMJ[k][0..6]`, likewise with `iMJ[k][6..12]` for
the second body when present. -/
def textbookRow (p : SORInput K) (k : Nat) (s : SORState K) : SORState K :=
  let r := clampLambda (p.lo k) (p.hi k) (s.lambda k) (textbookDelta p k s)
  let b1 := 6 * (p.jb (k * 2)).toNat
  let b2 := 6 * (p.jb (k * 2 + 1)).toNat
  { lambda := fun i => if i = k then r.2 else s.lambda i
    fc := fun i =>
      s.fc i + (if b1 ≤ i ∧ i < b1 + 6 then r.1 * p.iMJ (k * 12 + (i - b1)) else 0) +
        (if 0 ≤ p.jb (k * 2 + 1) ∧ b2 ≤ i ∧ i < b2 + 6 then
          r.1 * p.iMJ (k * 12 + 6 + (i - b2)) else 0) }

/-- The textbook iteration: `n` sweeps over the rows in the order of the
`order` array, from `lambda = 0`, `fc = 0`. -/
def textbookAfter (p : SORInput K) : Nat → SORState K
  | 0 => p.init
  | n + 1 => p.order.foldl (fun s k => textbookRow p k s) (textbookAfter p n)

/-- The textbook projected-SOR solve with the iteration count of the call. -/
def textbookSOR (p : SORInput K) : SORState K :=
  textbookAfter p p.num_iterations.toNat

/-- The quadratic form `vᵀ·M·v` of the `dMatrix3` block of `M` that starts at
offset `o` (rows of four entries). -/
def quadForm3 (M : Nat → K) (o : Nat) (v : Nat → K) : K :=
  ∑ r ∈ Finset.range 3, ∑ c ∈ Finset.range 3, v r * M (o + 4 * r + c) * v c

/-- The `dMatrix3` block of `M` at offset `o` is positive-semidefinite. -/
def PosSemidef3 (M : Nat → K) (o : Nat) : Prop :=
  ∀ v : Nat → K, 0 ≤ quadForm3 M o v

/-- The `cfm` entry that joint `k` of an assembly leaves in its local row `j`
when its `getInfo2` returns. -/
def Assembly.localCfm (a : Assembly K) (world : dxWorld K) (fps : K) (k j : Nat) : K :=
  ((a.joint k).getInfo2
    (info2Block fps world.global_erp a.ofs
      (info2Prefix fps world.global_erp world.global_cfm a.joint a.info a.ofs k) k)).cfm j

/-- A ground contact with friction on body 0 alone: local row 0 is the normal
row (`J = (0,1,0,0,0,0)`, `lo = 0`), local row 1 the friction row
(`J = (1,0,0,0,0,0)`, `lo = -1/2`, `hi = 1/2`) with the local friction index 0;
the joint leaves `c` and `cfm` as it finds them. -/
def frictionJoint : Nat → dxJoint ℚ :=
  fun _ =>
    { getInfo1 := ⟨2, 0⟩
      getInfo2 := fun blk =>
        { blk with
          J := fun idx => if idx = 1 then 1 else if idx = 12 then 1 else blk.J idx
          lo := Function.update (Function.update blk.lo 0 ((0 : ℚ) : WithBot ℚ)) 1
            ((-1 / 2 : ℚ) : WithBot ℚ)
          hi := Function.update blk.hi 1 ((1 / 2 : ℚ) : WithTop ℚ)
          findex := Function.update blk.findex 1 0 }
      node0 := some 0
      node1 := none }

/-- The contact of scenario S3 followed by a contact with friction, both on
body 0. -/
def contactThenFriction : Nat → dxJoint ℚ :=
  fun i => if i = 0 then contactJoint 0 else frictionJoint 0

/-- The specification's `tmp1` block of one body, written from its words:
`tmp1 = [facc·inv_mass + lvel/h ; inv_I_global·tacc + avel/h]`, with
`inv_I_global` the inverse inertia of the body in the global frame. -/
def tmp1Block (bd : dxBody K) (h : K) (j : Nat) : K :=
  if j < 3 then bd.facc j * bd.invMass + bd.lvel j / h
  else (∑ c ∈ Finset.range 3, globalInvI bd (4 * (j - 3) + c) * bd.tacc c) + bd.avel (j - 3) / h

/-! ## `SOR_LCP` on floating-point values

The field `K` has no infinity and no NaN, and its `x / 0` is `0`. The
definitions below repeat `SOR_LCP` on values that carry the special values of
the C type behind `dReal` (`float` or `double`, see `common.h`), to evaluate
the source where the divisor of line 155 is zero. -/

/-- A value of the C type behind `dReal`: a finite number, `+inf`, `-inf` or
a NaN. Operations on finite numbers are exact (no rounding, no overflow) and
the two zeros are not told apart: a zero counts as `+0`. -/
inductive IEEE.dReal (K : Type) where
  | fin (x : K)
  | pinf
  | ninf
  | nan

/-- The sum `a + b` of IEEE 754: `inf + (-inf)` and every sum with a NaN are
NaN. -/
def IEEE.add : IEEE.dReal K → IEEE.dReal K → IEEE.dReal K
  | .fin x, .fin y => .fin (x + y)
  | .fin _, .pinf => .pinf
  | .fin _, .ninf => .ninf
  | .fin _, .nan => .nan
  | .pinf, .fin _ => .pinf
  | .pinf, .pinf => .pinf
  | .pinf, .ninf => .nan
  | .pinf, .nan => .nan
  | .ninf, .fin _ => .ninf
  | .ninf, .pinf => .nan
  | .ninf, .ninf => .ninf
  | .ninf, .nan => .nan
  | .nan, _ => .nan

/-- The negation `-a`. -/
def IEEE.neg : IEEE.dReal K → IEEE.dReal K
  | .fin x => .fin (-x)
  | .pinf => .ninf
  | .ninf => .pinf
  | .nan => .nan

/-- The difference `a - b`, which is `a + (-b)`. -/
def IEEE.sub (a b : IEEE.dReal K) : IEEE.dReal K := IEEE.add a (IEEE.neg b)

/-- The product `a * b` of IEEE 754: `0 * inf` and every product with a NaN
are NaN. -/
def IEEE.mul : IEEE.dReal K → IEEE.dReal K → IEEE.dReal K
  | .fin x, .fin y => .fin (x * y)
  | .fin x, .pinf => if x = 0 then .nan else if 0 < x then .pinf else .ninf
  | .fin x, .ninf => if x = 0 then .nan else if 0 < x then .ninf else .pinf
  | .fin _, .nan => .nan
  | .pinf, .fin y => if y = 0 then .nan else if 0 < y then .pinf else .ninf
  | .pinf, .pinf => .pinf
  | .pinf, .ninf => .ninf
  | .pinf, .nan => .nan
  | .ninf, .fin y => if y = 0 then .nan else if 0 < y then .ninf else .pinf
  | .ninf, .pinf => .ninf
  | .ninf, .ninf => .pinf
  | .ninf, .nan => .nan
  | .nan, _ => .nan

/-- The quotient `a / b` of IEEE 754: a nonzero finite number over zero is an
infinity, `0 / 0`, `inf / inf` and every quotient with a NaN are NaN. -/
def IEEE.div : IEEE.dReal K → IEEE.dReal K → IEEE.dReal K
  | .fin x, .fin y =>
    if y = 0 then (if x = 0 then .nan else if 0 < x then .pinf else .ninf) else .fin (x / y)
  | .fin _, .pinf => .fin 0
  | .fin _, .ninf => .fin 0
  | .fin _, .nan => .nan
  | .pinf, .fin y => if 0 ≤ y then .pinf else .ninf
  | .pinf, .pinf => .nan
  | .pinf, .ninf => .nan
  | .pinf, .nan => .nan
  | .ninf, .fin y => if 0 ≤ y then .ninf else .pinf
  | .ninf, .pinf => .nan
  | .ninf, .ninf => .nan
  | .ninf, .nan => .nan
  | .nan, _ => .nan

/-- The comparison `a < b` of IEEE 754: false whenever one side is a NaN. -/
def IEEE.lt : IEEE.dReal K → IEEE.dReal K → Bool
  | .fin x, .fin y => decide (x < y)
  | .fin _, .pinf => true
  | .fin _, .ninf => false
  | .fin _, .nan => false
  | .pinf, _ => false
  | .ninf, .fin _ => true
  | .ninf, .pinf => true
  | .ninf, .ninf => false
  | .ninf, .nan => false
  | .nan, _ => false

/-- The comparison `a <= b` of IEEE 754: false whenever one side is a NaN. -/
def IEEE.le : IEEE.dReal K → IEEE.dReal K → Bool
  | .fin x, .fin y => decide (x ≤ y)
  | .fin _, .pinf => true
  | .fin _, .ninf => false
  | .fin _, .nan => false
  | .pinf, .pinf => true
  | .pinf, .fin _ => false
  | .pinf, .ninf => false
  | .pinf, .nan => false
  | .ninf, .fin _ => true
  | .ninf, .pinf => true
  | .ninf, .ninf => true
  | .ninf, .nan => false
  | .nan, _ => false

/-- The call `dSetZero (a, n)`. -/
def IEEE.dSetZero (a : Nat → IEEE.dReal K) (n : Nat) : Nat → IEEE.dReal K :=
  fun i => if i < n then .fin 0 else a i

/-- The written-out sum `a[ab+0]*c[cb+0] + ... + a[ab+5]*c[cb+5]`
(lines 252-254 and 259-261). -/
def IEEE.dot6 (a : Nat → IEEE.dReal K) (ab : Nat) (c : Nat → IEEE.dReal K) (cb : Nat) :
    IEEE.dReal K :=
  IEEE.add (IEEE.add (IEEE.add (IEEE.add (IEEE.add
    (IEEE.mul (a (ab + 0)) (c (cb + 0))) (IEEE.mul (a (ab + 1)) (c (cb + 1))))
    (IEEE.mul (a (ab + 2)) (c (cb + 2)))) (IEEE.mul (a (ab + 3)) (c (cb + 3))))
    (IEEE.mul (a (ab + 4)) (c (cb + 4)))) (IEEE.mul (a (ab + 5)) (c (cb + 5)))

/-- The loop `for (j..) sum += a[ab+j] * c[cb+j]` over six entries, started at
`sum` (lines 149 and 151). -/
def IEEE.acc6 (sum : IEEE.dReal K) (a : Nat → IEEE.dReal K) (ab : Nat)
    (c : Nat → IEEE.dReal K) (cb : Nat) : IEEE.dReal K :=
  (List.range 6).foldl (fun s j => IEEE.add s (IEEE.mul (a (ab + j)) (c (cb + j)))) sum

/-- Modelled from the spec: the macro `dMULTIPLY0_331 (A, B, C)` of
`odemath.h`, entry `r` of the product of the matrix at `B + bb` with the
vector at `C + cb`. -/
def IEEE.dMULTIPLY0_331 (B : Nat → IEEE.dReal K) (bb : Nat) (C : Nat → IEEE.dReal K)
    (cb : Nat) (r : Nat) : IEEE.dReal K :=
  IEEE.add (IEEE.add (IEEE.mul (B (bb + 4 * r + 0)) (C (cb + 0)))
    (IEEE.mul (B (bb + 4 * r + 1)) (C (cb + 1)))) (IEEE.mul (B (bb + 4 * r + 2)) (C (cb + 2)))

/-- The loop "precompute iMJ = inv(M)*J'" (lines 124-141). -/
def IEEE.computeIMJ (m : Nat) (J : Nat → IEEE.dReal K) (jb : Nat → Int)
    (invMass : Nat → IEEE.dReal K) (invI : Nat → IEEE.dReal K) (iMJ0 : Nat → IEEE.dReal K) :
    Nat → IEEE.dReal K :=
  fun idx =>
    let i := idx / 12
    let c := idx % 12
    let b1 := jb (i * 2)
    let b2 := jb (i * 2 + 1)
    if i < m then
      if c < 3 then IEEE.mul (invMass b1.toNat) (J (i * 12 + c))
      else if c < 6 then IEEE.dMULTIPLY0_331 invI (12 * b1.toNat) J (i * 12 + 3) (c - 3)
      else if 0 ≤ b2 then
        if c < 9 then IEEE.mul (invMass b2.toNat) (J (i * 12 + c))
        else IEEE.dMULTIPLY0_331 invI (12 * b2.toNat) J (i * 12 + 9) (c - 9)
      else iMJ0 idx
    else iMJ0 idx

/-- The value `sum` of the loop "precompute 1 / diagonals of A" for row `i`
(lines 148-152). -/
def IEEE.diagSum (J iMJ : Nat → IEEE.dReal K) (jb : Nat → Int) (i : Nat) : IEEE.dReal K :=
  let sum := IEEE.acc6 (.fin 0) iMJ (i * 12) J (i * 12)
  if 0 ≤ jb (i * 2 + 1) then IEEE.acc6 sum iMJ (i * 12 + 6) J (i * 12 + 6) else sum

/-- The array `Ad` after the loop "precompute 1 / diagonals of A":
`Ad[i] = sor_w / (sum + cfm[i])` (line 155). -/
def IEEE.computeAd (sor_w : IEEE.dReal K) (J iMJ : Nat → IEEE.dReal K) (jb : Nat → Int)
    (cfm : Nat → IEEE.dReal K) (i : Nat) : IEEE.dReal K :=
  IEEE.div sor_w (IEEE.add (IEEE.diagSum J iMJ jb i) (cfm i))

/-- The array `J` after "scale J and b by Ad" (lines 159-164). -/
def IEEE.scaleJ (m : Nat) (J Ad : Nat → IEEE.dReal K) : Nat → IEEE.dReal K :=
  fun idx => if idx / 12 < m then IEEE.mul (J idx) (Ad (idx / 12)) else J idx

/-- The array `b` after "scale J and b by Ad" (line 165). -/
def IEEE.scaleB (m : Nat) (b Ad : Nat → IEEE.dReal K) : Nat → IEEE.dReal K :=
  fun i => if i < m then IEEE.mul (b i) (Ad i) else b i

/-- The array `Ad` after "scale Ad by CFM" (line 169). -/
def IEEE.scaleAd (m : Nat) (Ad cfm : Nat → IEEE.dReal K) : Nat → IEEE.dReal K :=
  fun i => if i < m then IEEE.mul (Ad i) (cfm i) else Ad i

/-- The solver state carried through the sweeps. -/
structure IEEE.SORState (K : Type) where
  lambda : Nat → IEEE.dReal K
  fc : Nat → IEEE.dReal K

/-- The six statements `fc_ptr[j] += delta * iMJ_ptr[j]` (lines 279-284 and
289-294). -/
def IEEE.addDelta (fc : Nat → IEEE.dReal K) (fb : Nat) (delta : IEEE.dReal K)
    (iMJ : Nat → IEEE.dReal K) (ib : Nat) : Nat → IEEE.dReal K :=
  fun i =>
    if fb ≤ i ∧ i < fb + 6 then IEEE.add (fc i) (IEEE.mul delta (iMJ (ib + (i - fb)))) else fc i

/-- The clamp of lines 264-275: the adjusted `delta` and the new
`lambda[index]`. Both tests are false when `new_lambda` is a NaN. -/
def IEEE.clampLambda (lo hi lam delta : IEEE.dReal K) : IEEE.dReal K × IEEE.dReal K :=
  let new_lambda := IEEE.add lam delta
  if IEEE.lt new_lambda lo = true then (IEEE.sub lo lam, lo)
  else if IEEE.lt hi new_lambda = true then (IEEE.sub hi lam, hi)
  else (delta, new_lambda)

/-- The `delta` of lines 245-259, before the clamp. -/
def IEEE.rowDelta (J b Ad : Nat → IEEE.dReal K) (jb : Nat → Int) (index : Nat)
    (s : IEEE.SORState K) : IEEE.dReal K :=
  let b1 := jb (index * 2)
  let b2 := jb (index * 2 + 1)
  let delta := IEEE.sub (b index) (IEEE.mul (s.lambda index) (Ad index))
  let delta := IEEE.sub delta (IEEE.dot6 s.fc (6 * b1.toNat) J (index * 12))
  if 0 ≤ b2 then IEEE.sub delta (IEEE.dot6 s.fc (6 * b2.toNat) J (index * 12 + 6)) else delta

/-- The body of the inner loop for row `index` (lines 226-296). -/
def IEEE.rowUpdate (J iMJ b Ad : Nat → IEEE.dReal K) (jb : Nat → Int)
    (lo hi : Nat → IEEE.dReal K) (index : Nat) (s : IEEE.SORState K) : IEEE.SORState K :=
  let b1 := jb (index * 2)
  let b2 := jb (index * 2 + 1)
  let r := IEEE.clampLambda (lo index) (hi index) (s.lambda index)
    (IEEE.rowDelta J b Ad jb index s)
  let delta := r.1
  let lambda := Function.update s.lambda index r.2
  let fc := IEEE.addDelta s.fc (6 * b1.toNat) delta iMJ (index * 12)
  let fc := if 0 ≤ b2 then IEEE.addDelta fc (6 * b2.toNat) delta iMJ (index * 12 + 6) else fc
  { lambda := lambda, fc := fc }

/-- One iteration of the outer loop (lines 220-297). -/
def IEEE.sweep (m : Nat) (order : List Nat) (J iMJ b Ad : Nat → IEEE.dReal K) (jb : Nat → Int)
    (lo hi : Nat → IEEE.dReal K) (s : IEEE.SORState K) : IEEE.SORState K :=
  (List.range m).foldl (fun s i => IEEE.rowUpdate J iMJ b Ad jb lo hi (order.getD i 0) s) s

/-- The outer loop run `n` times. -/
def IEEE.iterations (m : Nat) (order : List Nat) (J iMJ b Ad : Nat → IEEE.dReal K)
    (jb : Nat → Int) (lo hi : Nat → IEEE.dReal K) : Nat → IEEE.SORState K → IEEE.SORState K
  | 0, s => s
  | n + 1, s =>
    IEEE.iterations m order J iMJ b Ad jb lo hi n (IEEE.sweep m order J iMJ b Ad jb lo hi s)

/-- The inputs of `SOR_LCP`, as in `SORInput`. -/
structure IEEE.SORInput (K : Type) where
  m : Nat
  nb : Nat
  J : Nat → IEEE.dReal K
  jb : Nat → Int
  invMass : Nat → IEEE.dReal K
  invI : Nat → IEEE.dReal K
  lambda : Nat → IEEE.dReal K
  fc : Nat → IEEE.dReal K
  b : Nat → IEEE.dReal K
  lo : Nat → IEEE.dReal K
  hi : Nat → IEEE.dReal K
  cfm : Nat → IEEE.dReal K
  findex : Nat → Int
  num_iterations : Int
  sor_w : IEEE.dReal K
  iMJ0 : Nat → IEEE.dReal K

/-- The function `SOR_LCP` (lines 102-300) on floating-point values: the
returned `lambda` and `fc`. -/
def IEEE.SOR_LCP (p : IEEE.SORInput K) : IEEE.SORState K :=
  let iMJ := IEEE.computeIMJ p.m p.J p.jb p.invMass p.invI p.iMJ0
  let Ad := IEEE.computeAd p.sor_w p.J iMJ p.jb p.cfm
  let J := IEEE.scaleJ p.m p.J Ad
  let b := IEEE.scaleB p.m p.b Ad
  let Ad := IEEE.scaleAd p.m Ad p.cfm
  let order := buildOrder p.m p.findex
  IEEE.iterations p.m order J iMJ b Ad p.jb p.lo p.hi p.num_iterations.toNat
    { lambda := IEEE.dSetZero p.lambda p.m, fc := IEEE.dSetZero p.fc (p.nb * 6) }

/-- One row on one body of unit mass and identity inverse inertia with a zero
Jacobian: `J = 0`, `rhs = 1`, `cfm = 0`, `lo = 0`, `hi = 1`, `w = 1`, one
iteration. The divisor `sum + cfm[0]` of line 155 is zero. -/
def IEEE.zeroRow : IEEE.SORInput ℚ where
  m := 1
  nb := 1
  J := fun _ => .fin 0
  jb := fun i => if i % 2 = 0 then 0 else -1
  invMass := fun _ => .fin 1
  invI := fun idx => .fin (identity3 (idx % 12))
  lambda := fun _ => .fin 0
  fc := fun _ => .fin 0
  b := fun _ => .fin 1
  lo := fun _ => .fin 0
  hi := fun _ => .fin 1
  cfm := fun _ => .fin 0
  findex := fun _ => -1
  num_iterations := 1
  sor_w := .fin 1
  iMJ0 := fun _ => .fin 0

/-- The input `IEEE.zeroRow` with its values read in the field `ℚ`. -/
def zeroRowExample : SORInput ℚ where
  m := 1
  nb := 1
  J := fun _ => 0
  jb := fun i => if i % 2 = 0 then 0 else -1
  invMass := fun _ => 1
  invI := fun idx => identity3 (idx % 12)
  lambda := fun _ => 0
  fc := fun _ => 0
  b := fun _ => 1
  lo := fun _ => ((0 : ℚ) : WithBot ℚ)
  hi := fun _ => ((1 : ℚ) : WithTop ℚ)
  cfm := fun _ => 0
  findex := fun _ => -1
  num_iterations := 1
  sor_w := 1
  iMJ0 := fun _ => 0

/-! ## Theorems -/

theorem foldl_push_filter (p : Nat → Prop) [DecidablePred p] (L acc : List Nat) :
    L.foldl (fun o i => if p i then o ++ [i] else o) acc = acc ++ L.filter (fun i => decide (p i)) := by
  induction L generalizing acc with
  | nil => simp
  | cons a L ih =>
    simp only [List.foldl_cons, ih, List.filter_cons]
    by_cases h : p a <;> simp [h]

theorem buildOrder_eq (m : Nat) (findex : Nat → Int) :
    buildOrder m findex =
      (List.range m).filter (fun i => decide (findex i < 0)) ++
        (List.range m).filter (fun i => decide (0 ≤ findex i)) := by
  simp only [buildOrder, foldl_push_filter, List.nil_append]

theorem buildOrder_perm (m : Nat) (findex : Nat → Int) :
    (buildOrder m findex).Perm (List.range m) := by
  rw [buildOrder_eq]
  have h : (fun i => decide (0 ≤ findex i)) = fun i => !(decide (findex i < 0)) := by
    funext i
    by_cases hh : findex i < 0
    · simp [hh, not_le.mpr hh]
    · simp [hh, not_lt.mp hh]
  rw [h]
  exact List.filter_append_perm _ _

theorem length_buildOrder (m : Nat) (findex : Nat → Int) :
    (buildOrder m findex).length = m := by
  simpa using (buildOrder_perm m findex).length_eq

theorem mem_buildOrder (m : Nat) (findex : Nat → Int) (k : Nat) :
    k ∈ buildOrder m findex ↔ k < m := by
  simpa using (buildOrder_perm m findex).mem_iff (a := k)

theorem nodup_buildOrder (m : Nat) (findex : Nat → Int) :
    (buildOrder m findex).Nodup :=
  (buildOrder_perm m findex).nodup_iff.mpr (List.nodup_range m)

theorem foldl_range_getD {σ : Type} (f : Nat → σ → σ) (o : List Nat) (s : σ) :
    (List.range o.length).foldl (fun s i => f (o.getD i 0) s) s = o.foldl (fun s k => f k s) s := by
  have h : (List.range o.length).map (fun i => o.getD i 0) = o := by
    apply List.ext_getElem
    · simp
    · intro i h1 h2
      simp at h1
      simp [List.getElem?_eq_getElem h2]
  conv_rhs => rw [← h]
  rw [List.foldl_map]


theorem sweep_eq_foldl (p : SORInput K) (s : SORState K) :
    p.sweep s = p.order.foldl (fun s k => p.row k s) s := by
  have h := foldl_range_getD (fun k s => p.row k s) p.order s
  rw [SORInput.order, length_buildOrder] at h
  exact h

theorem after_succ (p : SORInput K) (n : Nat) :
    p.after (n + 1) = p.sweep (p.after n) := by
  have h : ∀ (n : Nat) (s : SORState K),
      iterations p.m p.order p.Jscaled p.iMJ p.bscaled p.Adscaled p.jb p.lo p.hi (n + 1) s =
        p.sweep (iterations p.m p.order p.Jscaled p.iMJ p.bscaled p.Adscaled p.jb p.lo p.hi n s) := by
    intro n
    induction n with
    | zero => intro s; rfl
    | succ n ih =>
      intro s
      rw [iterations, ih]
      rfl
  exact h n p.init

theorem row_lambda_of_ne (p : SORInput K) (k i : Nat) (s : SORState K) (h : i ≠ k) :
    (p.row k s).lambda i = s.lambda i := by
  simp [SORInput.row, rowUpdate, Function.update_noteq h]

theorem row_lambda_self (p : SORInput K) (k : Nat) (s : SORState K) :
    (p.row k s).lambda k =
      (clampLambda (p.lo k) (p.hi k) (s.lambda k)
        (rowDelta p.Jscaled p.bscaled p.Adscaled p.jb k s)).2 := by
  simp [SORInput.row, rowUpdate]

theorem foldl_row_lambda_of_not_mem (p : SORInput K) (L : List Nat) (i : Nat) (h : i ∉ L)
    (s : SORState K) : (L.foldl (fun s k => p.row k s) s).lambda i = s.lambda i := by
  induction L generalizing s with
  | nil => rfl
  | cons a L ih =>
    simp only [List.mem_cons, not_or] at h
    rw [List.foldl_cons, ih h.2, row_lambda_of_ne p a i s h.1]

theorem clampLambda_snd (lo : WithBot K) (hi : WithTop K) (lam delta : K) :
    (clampLambda lo hi lam delta).2 = lam + (clampLambda lo hi lam delta).1 := by
  unfold clampLambda
  dsimp only
  split_ifs <;> simp

theorem finLo_coe (l : K) : finLo (l : WithBot K) = l := rfl

theorem finHi_coe (u : K) : finHi (u : WithTop K) = u := rfl

theorem boundLE_coe_coe (l u : K) : boundLE (l : WithBot K) (u : WithTop K) ↔ l ≤ u := Iff.rfl

theorem clampLambda_bounds (lo : WithBot K) (hi : WithTop K) (lam delta : K)
    (h : boundLE lo hi) :
    lo ≤ ((clampLambda lo hi lam delta).2 : WithBot K) ∧
      ((clampLambda lo hi lam delta).2 : WithTop K) ≤ hi := by
  unfold clampLambda
  dsimp only
  generalize lam + delta = x
  by_cases h1 : (x : WithBot K) < lo
  · rw [if_pos h1]
    induction lo using WithBot.recBotCoe with
    | bot => exact absurd h1 (not_lt_bot)
    | coe l =>
      induction hi using WithTop.recTopCoe with
      | top => exact ⟨le_refl _, le_top⟩
      | coe u => exact ⟨le_refl _, WithTop.coe_le_coe.mpr ((boundLE_coe_coe l u).mp h)⟩
  · rw [if_neg h1]
    by_cases h2 : hi < (x : WithTop K)
    · rw [if_pos h2]
      induction hi using WithTop.recTopCoe with
      | top => exact absurd h2 (not_top_lt)
      | coe u =>
        refine ⟨?_, le_refl _⟩
        induction lo using WithBot.recBotCoe with
        | bot => exact bot_le
        | coe l => exact WithBot.coe_le_coe.mpr ((boundLE_coe_coe l u).mp h)
    · rw [if_neg h2]
      exact ⟨not_lt.mp h1, not_lt.mp h2⟩

theorem foldl_row_bounds (p : SORInput K) (hb : ∀ i, i < p.m → boundLE (p.lo i) (p.hi i))
    (L : List Nat) (hL : ∀ k ∈ L, k < p.m) (s : SORState K) (i : Nat)
    (hi : i ∈ L ∨ (p.lo i ≤ (s.lambda i : WithBot K) ∧ (s.lambda i : WithTop K) ≤ p.hi i)) :
    p.lo i ≤ ((L.foldl (fun s k => p.row k s) s).lambda i : WithBot K) ∧
      ((L.foldl (fun s k => p.row k s) s).lambda i : WithTop K) ≤ p.hi i := by
  induction L generalizing s with
  | nil => simpa using hi
  | cons a L ih =>
    rw [List.foldl_cons]
    apply ih (fun k hk => hL k (List.mem_cons_of_mem _ hk))
    by_cases hia : i = a
    · right
      subst hia
      rw [row_lambda_self]
      exact clampLambda_bounds _ _ _ _ (hb i (hL i (List.mem_cons_self _ _)))
    · rcases hi with hi | hi
      · left
        rcases List.mem_cons.mp hi with h | h
        · exact absurd h hia
        · exact h
      · right
        rw [row_lambda_of_ne p a i s hia]
        exact hi

/-- Claim C2, amended. In exact arithmetic, for every input of `SOR_LCP` whose
divisor `sum + cfm[i]` of line 155 is not zero on any row (so that `Ad[i]` is
a number), with `lo[i] ≤ hi[i]` on every row and `num_iterations ≥ 1`: after
every completed sweep (`n = 1 .. num_iterations`) and at return,
`lo[i] ≤ lambda[i] ≤ hi[i]` holds for every row `i < m`; the bound arrays are
never written by the loop, so they stand as passed in. -/
theorem C2_bounds_after_every_sweep (p : SORInput K)
    (_hdiv : ∀ i, i < p.m → diagSum p.J p.iMJ p.jb i + p.cfm i ≠ 0)
    (hb : ∀ i, i < p.m → boundLE (p.lo i) (p.hi i)) (hn : 1 ≤ p.num_iterations) :
    (∀ n, 1 ≤ n → n ≤ p.num_iterations.toNat → ∀ i, i < p.m →
      p.lo i ≤ (((p.after n).lambda i : K) : WithBot K) ∧
        (((p.after n).lambda i : K) : WithTop K) ≤ p.hi i) ∧
    (∀ i, i < p.m →
      p.lo i ≤ (((SOR_LCP p).lambda i : K) : WithBot K) ∧
        (((SOR_LCP p).lambda i : K) : WithTop K) ≤ p.hi i) := by
  have key : ∀ n, 1 ≤ n → ∀ i, i < p.m →
      p.lo i ≤ (((p.after n).lambda i : K) : WithBot K) ∧
        (((p.after n).lambda i : K) : WithTop K) ≤ p.hi i := by
    intro n hn1 i hi
    obtain ⟨n, rfl⟩ : ∃ n', n = n' + 1 := ⟨n - 1, by omega⟩
    rw [after_succ, sweep_eq_foldl]
    exact foldl_row_bounds p hb p.order (fun k hk => (mem_buildOrder _ _ k).mp hk) _ i
      (Or.inl ((mem_buildOrder _ _ i).mpr hi))
  refine ⟨fun n hn1 _ => key n hn1, ?_⟩
  intro i hi
  exact key _ (by omega) i hi

theorem after_eq_foldl_replicate (p : SORInput K) (n : Nat) :
    p.after n = ((List.replicate n p.order).flatten).foldl (fun s k => p.row k s) p.init := by
  induction n with
  | zero => rfl
  | succ n ih =>
    rw [after_succ, sweep_eq_foldl, ih, List.replicate_succ', List.flatten_append,
      List.foldl_append]
    simp

theorem pair_sublist_range (n k m : Nat) (hnk : n < k) (hkm : k < m) :
    List.Sublist [n, k] (List.range m) := by
  induction m with
  | zero => omega
  | succ m ih =>
    rw [List.range_succ]
    by_cases h : k < m
    · exact (ih h).trans (List.sublist_append_left _ _)
    · have hk : k = m := by omega
      subst hk
      have h1 : List.Sublist [n] (List.range k) :=
        List.singleton_sublist.mpr (List.mem_range.mpr hnk)
      exact h1.append (List.Sublist.refl [k])

theorem split_of_pair_sublist (a b : Nat) (l : List Nat) (h : List.Sublist [a, b] l) :
    ∃ l1 l2 l3, l = l1 ++ a :: (l2 ++ b :: l3) := by
  induction l with
  | nil => cases h
  | cons x l ih =>
    cases h with
    | cons _ h' =>
      obtain ⟨l1, l2, l3, e⟩ := ih h'
      exact ⟨x :: l1, l2, l3, by rw [e]; rfl⟩
    | cons₂ _ h' =>
      obtain ⟨l2, l3, e⟩ := List.append_of_mem (List.singleton_sublist.mp h')
      exact ⟨[], l2, l3, by rw [e]; rfl⟩

/-- Claim C4. For every `findex` array of length `m`, the order array built by
`SOR_LCP` has length `m` (the assertion `j == m`), is a permutation of
`0..m-1`, lists the rows with `findex < 0` in increasing index followed by the
rows with `findex >= 0` in increasing index, and every iteration sweeps this
same order: the state after `n` iterations is the row update folded over `n`
copies of the order. -/
theorem C4_fixed_order_is_partitioned_permutation (p : SORInput K) :
    p.order.length = p.m ∧
    p.order.Perm (List.range p.m) ∧
    p.order = (List.range p.m).filter (fun i => decide (p.findex i < 0)) ++
        (List.range p.m).filter (fun i => decide (0 ≤ p.findex i)) ∧
    p.order.Pairwise (fun a b => ¬ (0 ≤ p.findex a ∧ p.findex b < 0) ∧
        ((p.findex a < 0 ↔ p.findex b < 0) → a < b)) ∧
    (∀ n, p.after n =
        ((List.replicate n p.order).flatten).foldl (fun s k => p.row k s) p.init) ∧
    SOR_LCP p = ((List.replicate p.num_iterations.toNat p.order).flatten).foldl
        (fun s k => p.row k s) p.init := by
  refine ⟨length_buildOrder _ _, buildOrder_perm _ _, buildOrder_eq _ _, ?_,
    after_eq_foldl_replicate p, after_eq_foldl_replicate p _⟩
  rw [SORInput.order, buildOrder_eq, List.pairwise_append]
  have hlt : ∀ q : Nat → Bool, ((List.range p.m).filter q).Pairwise (fun a b => a < b) :=
    fun q => List.Pairwise.filter q (List.pairwise_lt_range p.m)
  refine ⟨?_, ?_, ?_⟩
  · refine List.Pairwise.imp_of_mem ?_ (hlt _)
    intro a b ha hb hab
    have ha2 : p.findex a < 0 := by simpa using (List.mem_filter.mp ha).2
    exact ⟨fun h => absurd h.1 (not_le.mpr ha2), fun _ => hab⟩
  · refine List.Pairwise.imp_of_mem ?_ (hlt _)
    intro a b ha hb hab
    have hb2 : 0 ≤ p.findex b := by simpa using (List.mem_filter.mp hb).2
    exact ⟨fun h => absurd h.2 (not_lt.mpr hb2), fun _ => hab⟩
  · intro a ha b hb
    have ha2 : p.findex a < 0 := by simpa using (List.mem_filter.mp ha).2
    have hb2 : 0 ≤ p.findex b := by simpa using (List.mem_filter.mp hb).2
    refine ⟨fun h => absurd h.1 (not_le.mpr ha2), fun h => ?_⟩
    exact absurd (h.mp ha2) (not_lt.mpr hb2)

/-- Claim C5. For every row `k < m` with `0 <= findex[k] < k`, the sweep order
(which lists every row once and is the same in every sweep) has the governing
row `findex[k]` at an earlier position than row `k`. -/
theorem C5_governing_row_visited_first (p : SORInput K) (k : Nat) (hk : k < p.m)
    (h0 : 0 ≤ p.findex k) (h1 : p.findex k < k) :
    p.order.Nodup ∧
    ∃ l1 l2 l3, p.order = l1 ++ (p.findex k).toNat :: (l2 ++ k :: l3) := by
  refine ⟨nodup_buildOrder _ _, ?_⟩
  apply split_of_pair_sublist
  rw [SORInput.order, buildOrder_eq]
  have hn : (p.findex k).toNat < k := by omega
  have hkB : k ∈ (List.range p.m).filter (fun i => decide (0 ≤ p.findex i)) := by
    simp [List.mem_filter, hk, h0]
  by_cases hg : p.findex (p.findex k).toNat < 0
  · have hnA : (p.findex k).toNat ∈
        (List.range p.m).filter (fun i => decide (p.findex i < 0)) := by
      simp only [List.mem_filter, List.mem_range, decide_eq_true_eq]
      exact ⟨by omega, hg⟩
    exact (List.singleton_sublist.mpr hnA).append (List.singleton_sublist.mpr hkB)
  · have hs := (pair_sublist_range (p.findex k).toNat k p.m hn hk).filter
      (fun i => decide (0 ≤ p.findex i))
    have he : List.filter (fun i => decide (0 ≤ p.findex i)) [(p.findex k).toNat, k] =
        [(p.findex k).toNat, k] := by
      simp [List.filter_cons, h0, not_lt.mp hg]
    rw [he] at hs
    exact hs.trans (List.sublist_append_right _ _)

theorem addDelta_apply_block (fc : Nat → K) (bn : Nat) (delta : K) (iMJ : Nat → K) (ib b j : Nat)
    (hj : j < 6) :
    addDelta fc (6 * bn) delta iMJ ib (6 * b + j) =
      fc (6 * b + j) + (if bn = b then delta * iMJ (ib + j) else 0) := by
  unfold addDelta
  by_cases h : bn = b
  · subst h
    have h1 : 6 * bn ≤ 6 * bn + j ∧ 6 * bn + j < 6 * bn + 6 := by omega
    have h2 : 6 * bn + j - 6 * bn = j := by omega
    rw [if_pos h1, if_pos rfl, h2]
  · have h1 : ¬ (6 * bn ≤ 6 * b + j ∧ 6 * b + j < 6 * bn + 6) := by omega
    rw [if_neg h1, if_neg h, add_zero]

theorem row_fc_block (p : SORInput K) (k : Nat) (s : SORState K) (b j : Nat) (hj : j < 6)
    (h0 : 0 ≤ p.jb (k * 2)) :
    (p.row k s).fc (6 * b + j) = s.fc (6 * b + j) +
      (if p.jb (k * 2) = (b : Int) then
        ((p.row k s).lambda k - s.lambda k) * p.iMJ (k * 12 + j) else 0) +
      (if p.jb (k * 2 + 1) = (b : Int) then
        ((p.row k s).lambda k - s.lambda k) * p.iMJ (k * 12 + 6 + j) else 0) := by
  have hd : (p.row k s).lambda k - s.lambda k =
      (clampLambda (p.lo k) (p.hi k) (s.lambda k)
        (rowDelta p.Jscaled p.bscaled p.Adscaled p.jb k s)).1 := by
    rw [row_lambda_self, clampLambda_snd]; ring
  rw [hd]
  have e1 : ((p.jb (k * 2)).toNat = b) ↔ p.jb (k * 2) = (b : Int) := by omega
  simp only [SORInput.row, rowUpdate]
  by_cases h2 : 0 ≤ p.jb (k * 2 + 1)
  · have e2 : ((p.jb (k * 2 + 1)).toNat = b) ↔ p.jb (k * 2 + 1) = (b : Int) := by omega
    rw [if_pos h2, addDelta_apply_block _ _ _ _ _ _ _ hj, addDelta_apply_block _ _ _ _ _ _ _ hj]
    simp only [e1, e2, add_assoc]
  · have e2 : ¬ p.jb (k * 2 + 1) = (b : Int) := by omega
    rw [if_neg h2, addDelta_apply_block _ _ _ _ _ _ _ hj]
    simp only [e1, if_neg e2, add_zero]

theorem sum_update_term (m k : Nat) (hk : k < m) (c : Nat → Prop) [DecidablePred c]
    (lam a : Nat → K) (v : K) :
    (∑ i ∈ Finset.range m, if c i then Function.update lam k v i * a i else 0) =
      (∑ i ∈ Finset.range m, if c i then lam i * a i else 0) +
        (if c k then (v - lam k) * a k else 0) := by
  have h : ∀ i ∈ Finset.range m,
      (if c i then Function.update lam k v i * a i else 0) =
        (if c i then lam i * a i else 0) +
          (if i = k then (if c k then (v - lam k) * a k else 0) else 0) := by
    intro i _
    by_cases hik : i = k
    · subst hik
      by_cases hc : c i
      · simp only [if_pos hc, Function.update_same, if_true]; ring
      · simp only [if_neg hc, if_true, add_zero]
    · simp only [Function.update_noteq hik, if_neg hik, add_zero]
  rw [Finset.sum_congr rfl h, Finset.sum_add_distrib, Finset.sum_ite_eq' (Finset.range m) k]
  simp [hk]

theorem accInv_init (p : SORInput K) : AccInv p p.init := by
  intro b hb j hj
  have h1 : 6 * b + j < p.nb * 6 := by omega
  have h2 : ∀ k ∈ Finset.range p.m, dSetZero p.lambda p.m k = 0 := by
    intro k hk
    simp [dSetZero, Finset.mem_range.mp hk]
  simp only [SORInput.init, dSetZero, if_pos h1]
  rw [Finset.sum_eq_zero, Finset.sum_eq_zero, add_zero]
  · intro k hk
    have := h2 k hk
    simp only [dSetZero] at this
    simp [this]
  · intro k hk
    have := h2 k hk
    simp only [dSetZero] at this
    simp [this]

theorem accInv_row (p : SORInput K) (k : Nat) (hk : k < p.m) (h0 : 0 ≤ p.jb (k * 2))
    (s : SORState K) (h : AccInv p s) : AccInv p (p.row k s) := by
  intro b hb j hj
  have hl : (p.row k s).lambda = Function.update s.lambda k ((p.row k s).lambda k) := by
    funext i
    by_cases hik : i = k
    · subst hik; simp
    · rw [row_lambda_of_ne p k i s hik, Function.update_noteq hik]
  rw [row_fc_block p k s b j hj h0, h b hb j hj]
  conv_rhs => rw [hl]
  rw [sum_update_term p.m k hk (fun i => p.jb (i * 2) = (b : Int)),
    sum_update_term p.m k hk (fun i => p.jb (i * 2 + 1) = (b : Int))]
  ring

theorem accInv_foldl (p : SORInput K) (L : List Nat) (hL : ∀ k ∈ L, k < p.m)
    (h0 : ∀ k, k < p.m → 0 ≤ p.jb (k * 2)) (s : SORState K) (h : AccInv p s) :
    AccInv p (L.foldl (fun s k => p.row k s) s) := by
  induction L generalizing s with
  | nil => exact h
  | cons a L ih =>
    rw [List.foldl_cons]
    have ha : a < p.m := hL a (List.mem_cons_self _ _)
    exact ih (fun k hk => hL k (List.mem_cons_of_mem _ hk)) _ (accInv_row p a ha (h0 a ha) s h)

theorem accInv_after (p : SORInput K) (h0 : ∀ k, k < p.m → 0 ≤ p.jb (k * 2)) (n : Nat) :
    AccInv p (p.after n) := by
  induction n with
  | zero => exact accInv_init p
  | succ n ih =>
    rw [after_succ, sweep_eq_foldl]
    exact accInv_foldl p p.order (fun k hk => (mem_buildOrder _ _ k).mp hk) h0 _ ih

theorem sum_ite_eq_sum_filter (m : Nat) (c : Nat → Prop) [DecidablePred c] (f : Nat → K) :
    (∑ k ∈ Finset.range m, if c k then f k else 0) = ∑ k ∈ (Finset.range m).filter c, f k :=
  (Finset.sum_filter c f).symm

theorem acc_formula (p : SORInput K) (h0 : ∀ k, k < p.m → 0 ≤ p.jb (2 * k)) (n : Nat)
    (b j : Nat) (hb : b < p.nb) (hj : j < 6) :
    (p.after n).fc (6 * b + j) =
      (∑ k ∈ (Finset.range p.m).filter (fun k => p.jb (2 * k) = (b : Int)),
        (p.after n).lambda k * p.iMJ (12 * k + j)) +
      (∑ k ∈ (Finset.range p.m).filter (fun k => p.jb (2 * k + 1) = (b : Int)),
        (p.after n).lambda k * p.iMJ (12 * k + 6 + j)) := by
  have h := accInv_after p (fun k hk => by rw [mul_comm]; exact h0 k hk) n b hb j hj
  rw [h, sum_ite_eq_sum_filter, sum_ite_eq_sum_filter]
  simp only [mul_comm _ 2, mul_comm _ 12]

theorem row_fc_lockstep (p : SORInput K) (k : Nat) (s : SORState K) :
    (p.row k s).fc =
      (if 0 ≤ p.jb (2 * k + 1) then
        addDelta (addDelta s.fc (6 * (p.jb (2 * k)).toNat) ((p.row k s).lambda k - s.lambda k)
          p.iMJ (12 * k)) (6 * (p.jb (2 * k + 1)).toNat)
          ((p.row k s).lambda k - s.lambda k) p.iMJ (12 * k + 6)
      else
        addDelta s.fc (6 * (p.jb (2 * k)).toNat) ((p.row k s).lambda k - s.lambda k)
          p.iMJ (12 * k)) := by
  have hd : (p.row k s).lambda k - s.lambda k =
      (clampLambda (p.lo k) (p.hi k) (s.lambda k)
        (rowDelta p.Jscaled p.bscaled p.Adscaled p.jb k s)).1 := by
    rw [row_lambda_self, clampLambda_snd]; ring
  rw [hd]
  simp only [SORInput.row, rowUpdate, mul_comm 2 k, mul_comm 12 k]

/-- Claim C3. In exact arithmetic, when the first body number of every row is
non-negative (the source indexes `body` with it), at every sweep boundary of
`SOR_LCP` (after `n = 0, 1, 2, ...` sweeps, and at return) every body `b < nb`
and component `j < 6` has `fc[b][j]` equal to the sum over rows `k` with
`jb[2k] = b` of `lambda[k]*iMJ[k][j]` plus the sum over rows `k` with
`jb[2k+1] = b` of `lambda[k]*iMJ[k][6+j]`; and every row update adds into `fc`
exactly `delta = new lambda[k] - old lambda[k]` times the `iMJ` row. -/
theorem C3_accumulator_is_iMJ_times_lambda (p : SORInput K)
    (h0 : ∀ k, k < p.m → 0 ≤ p.jb (2 * k)) :
    (∀ n b j, b < p.nb → j < 6 →
      (p.after n).fc (6 * b + j) =
        (∑ k ∈ (Finset.range p.m).filter (fun k => p.jb (2 * k) = (b : Int)),
          (p.after n).lambda k * p.iMJ (12 * k + j)) +
        (∑ k ∈ (Finset.range p.m).filter (fun k => p.jb (2 * k + 1) = (b : Int)),
          (p.after n).lambda k * p.iMJ (12 * k + 6 + j))) ∧
    (∀ b j, b < p.nb → j < 6 →
      (SOR_LCP p).fc (6 * b + j) =
        (∑ k ∈ (Finset.range p.m).filter (fun k => p.jb (2 * k) = (b : Int)),
          (SOR_LCP p).lambda k * p.iMJ (12 * k + j)) +
        (∑ k ∈ (Finset.range p.m).filter (fun k => p.jb (2 * k + 1) = (b : Int)),
          (SOR_LCP p).lambda k * p.iMJ (12 * k + 6 + j))) ∧
    (∀ (s : SORState K) (k : Nat),
      (p.row k s).fc =
        (if 0 ≤ p.jb (2 * k + 1) then
          addDelta (addDelta s.fc (6 * (p.jb (2 * k)).toNat)
            ((p.row k s).lambda k - s.lambda k) p.iMJ (12 * k))
            (6 * (p.jb (2 * k + 1)).toNat)
            ((p.row k s).lambda k - s.lambda k) p.iMJ (12 * k + 6)
        else
          addDelta s.fc (6 * (p.jb (2 * k)).toNat) ((p.row k s).lambda k - s.lambda k)
            p.iMJ (12 * k))) :=
  ⟨fun n b j hb hj => acc_formula p h0 n b j hb hj,
    fun b j hb hj => acc_formula p h0 _ b j hb hj,
    fun s k => row_fc_lockstep p k s⟩

theorem addDelta_zero (fc : Nat → K) (fb : Nat) (iMJ : Nat → K) (ib : Nat) :
    addDelta fc fb 0 iMJ ib = fc := by
  funext i
  simp [addDelta]

theorem row_eq_self_iff (p : SORInput K) (k : Nat) (s : SORState K) :
    p.row k s = s ↔ (p.row k s).lambda k = s.lambda k := by
  constructor
  · intro h; rw [h]
  · intro h
    have hl : (p.row k s).lambda = s.lambda := by
      funext i
      by_cases hik : i = k
      · subst hik; exact h
      · exact row_lambda_of_ne p k i s hik
    have hf : (p.row k s).fc = s.fc := by
      rw [row_fc_lockstep, h, sub_self]
      simp only [addDelta_zero, ite_self]
    cases s with
    | mk l f =>
      cases hr : p.row k ⟨l, f⟩ with
      | mk l2 f2 =>
        rw [hr] at hl hf
        simp only at hl hf
        rw [hl, hf]

theorem foldl_row_fixed_iff (p : SORInput K) (L : List Nat) (hL : L.Nodup) (s : SORState K) :
    L.foldl (fun s k => p.row k s) s = s ↔ ∀ k ∈ L, p.row k s = s := by
  induction L with
  | nil => simp
  | cons a L ih =>
    have hnd := List.nodup_cons.mp hL
    rw [List.foldl_cons]
    constructor
    · intro h
      have ha : p.row a s = s := by
        rw [row_eq_self_iff]
        have h2 := congrArg (fun t => t.lambda a) h
        simp only at h2
        rw [foldl_row_lambda_of_not_mem p L a hnd.1] at h2
        exact h2
      rw [ha] at h
      intro k hk
      rcases List.mem_cons.mp hk with rfl | hk
      · exact ha
      · exact (ih hnd.2).mp h k hk
    · intro h
      rw [h a (List.mem_cons_self _ _)]
      exact (ih hnd.2).mpr (fun k hk => h k (List.mem_cons_of_mem _ hk))

theorem sweep_fixed_iff (p : SORInput K) (s : SORState K) :
    p.sweep s = s ↔ ∀ k, k < p.m → p.row k s = s := by
  rw [sweep_eq_foldl, foldl_row_fixed_iff p p.order (nodup_buildOrder _ _)]
  constructor
  · intro h k hk
    exact h k ((mem_buildOrder _ _ k).mpr hk)
  · intro h k hk
    exact h k ((mem_buildOrder _ _ k).mp hk)

theorem dot6_scaleJ (m : Nat) (fc J Ad : Nat → K) (fb k c : Nat) (hk : k < m) (hc : c + 5 < 12) :
    dot6 fc fb (scaleJ m J Ad) (k * 12 + c) = dot6 fc fb J (k * 12 + c) * Ad k := by
  have h : ∀ t, t < 6 → scaleJ m J Ad (k * 12 + c + t) = J (k * 12 + c + t) * Ad k := by
    intro t ht
    have e : (k * 12 + c + t) / 12 = k := by omega
    simp only [scaleJ, e, if_pos hk]
  simp only [dot6]
  rw [h 0 (by omega), h 1 (by omega), h 2 (by omega), h 3 (by omega), h 4 (by omega),
    h 5 (by omega)]
  ring

/-- The residual `b[k] - lambda[k]*cfm[k] - J[k].fc` on the arrays passed in. -/
theorem rowDelta_scaled (p : SORInput K) (k : Nat) (hk : k < p.m) (s : SORState K) :
    rowDelta p.Jscaled p.bscaled p.Adscaled p.jb k s =
      p.Ad k * rowDelta p.J p.b p.cfm p.jb k s := by
  have h1 := dot6_scaleJ p.m s.fc p.J p.Ad (6 * (p.jb (k * 2)).toNat) k 0 hk (by omega)
  have h2 := dot6_scaleJ p.m s.fc p.J p.Ad (6 * (p.jb (k * 2 + 1)).toNat) k 6 hk (by omega)
  rw [add_zero] at h1
  simp only [rowDelta, SORInput.Jscaled, SORInput.bscaled, SORInput.Adscaled, scaleB, scaleAd,
    if_pos hk, h1, h2]
  split_ifs <;> ring

theorem clampLambda_fixed_scale (lo : WithBot K) (hi : WithTop K) (lam d w : K) (hw : 0 < w)
    (hb : boundLE lo hi) :
    (clampLambda lo hi lam (w * d)).2 = lam ↔ (clampLambda lo hi lam d).2 = lam := by
  have key : ∀ v : K, 0 < v → d ≠ 0 → ((clampLambda lo hi lam (v * d)).2 = lam ↔
      ((d < 0 ∧ lo = (lam : WithBot K)) ∨ (0 < d ∧ hi = (lam : WithTop K)))) := by
    intro v hv hd0
    unfold clampLambda
    dsimp only
    rcases lt_trichotomy d 0 with hd | hd | hd
    · have hx : lam + v * d < lam := by nlinarith
      induction lo using WithBot.recBotCoe with
      | bot =>
        have hn : ¬ ((lam + v * d : K) : WithBot K) < ⊥ := not_lt_bot
        rw [if_neg hn]
        induction hi using WithTop.recTopCoe with
        | top =>
          rw [if_neg not_top_lt]
          simp [hd.ne, hd, hd.le.not_lt, hv.ne.symm, WithBot.bot_ne_coe]
        | coe u =>
          by_cases h2 : (u : WithTop K) < ((lam + v * d : K) : WithTop K)
          · rw [if_pos h2]
            have h2' : u < lam + v * d := WithTop.coe_lt_coe.mp h2
            have : u ≠ lam := by intro e; rw [e] at h2'; exact lt_asymm h2' hx
            simp [finHi_coe, hd.ne, hd, hd.le.not_lt, this, WithBot.bot_ne_coe]
          · rw [if_neg h2]
            simp [hd.ne, hd, hd.le.not_lt, hv.ne.symm, WithBot.bot_ne_coe]
      | coe l =>
        by_cases h1 : ((lam + v * d : K) : WithBot K) < (l : WithBot K)
        · rw [if_pos h1]
          simp [finLo_coe, hd.ne, hd, hd.le.not_lt, WithBot.coe_eq_coe]
        · rw [if_neg h1]
          have h1' : l ≤ lam + v * d := not_lt.mp (fun h => h1 (WithBot.coe_lt_coe.mpr h))
          have hl : l ≠ lam := by intro e; rw [e] at h1'; exact absurd hx (not_lt.mpr h1')
          induction hi using WithTop.recTopCoe with
          | top =>
            rw [if_neg not_top_lt]
            simp [hd.ne, hd, hd.le.not_lt, hv.ne.symm, WithBot.coe_eq_coe, hl]
          | coe u =>
            by_cases h2 : (u : WithTop K) < ((lam + v * d : K) : WithTop K)
            · rw [if_pos h2]
              have h2' : u < lam + v * d := WithTop.coe_lt_coe.mp h2
              have : u ≠ lam := by intro e; rw [e] at h2'; exact lt_asymm h2' hx
              simp [finHi_coe, hd.ne, hd, hd.le.not_lt, this, WithBot.coe_eq_coe, hl]
            · rw [if_neg h2]
              simp [hd.ne, hd, hd.le.not_lt, hv.ne.symm, WithBot.coe_eq_coe, hl]
    · exact absurd hd hd0
    · have hx : lam < lam + v * d := by nlinarith
      induction lo using WithBot.recBotCoe with
      | bot =>
        have hn : ¬ ((lam + v * d : K) : WithBot K) < ⊥ := not_lt_bot
        rw [if_neg hn]
        induction hi using WithTop.recTopCoe with
        | top =>
          rw [if_neg not_top_lt]
          simp [hd.ne.symm, hd, hd.le.not_lt, hv.ne.symm, WithTop.top_ne_coe]
        | coe u =>
          by_cases h2 : (u : WithTop K) < ((lam + v * d : K) : WithTop K)
          · rw [if_pos h2]
            simp [finHi_coe, hd.ne.symm, hd, hd.le.not_lt, WithTop.coe_eq_coe]
          · rw [if_neg h2]
            have h2' : lam + v * d ≤ u := not_lt.mp (fun h => h2 (WithTop.coe_lt_coe.mpr h))
            have hu : u ≠ lam := by intro e; rw [e] at h2'; exact absurd hx (not_lt.mpr h2')
            simp [hd.ne.symm, hd, hd.le.not_lt, hv.ne.symm, WithTop.coe_eq_coe, hu]
      | coe l =>
        induction hi using WithTop.recTopCoe with
        | top =>
          by_cases h1 : ((lam + v * d : K) : WithBot K) < (l : WithBot K)
          · rw [if_pos h1]
            have h1' : lam + v * d < l := WithBot.coe_lt_coe.mp h1
            have hl : l ≠ lam := by intro e; rw [e] at h1'; exact lt_asymm h1' hx
            simp [finLo_coe, hd.ne.symm, hd, hd.le.not_lt, hl, WithTop.top_ne_coe]
          · rw [if_neg h1, if_neg not_top_lt]
            simp [hd.ne.symm, hd, hd.le.not_lt, hv.ne.symm, WithTop.top_ne_coe]
        | coe u =>
          have hlu : l ≤ u := (boundLE_coe_coe l u).mp hb
          by_cases h1 : ((lam + v * d : K) : WithBot K) < (l : WithBot K)
          · rw [if_pos h1]
            have h1' : lam + v * d < l := WithBot.coe_lt_coe.mp h1
            have hl : l ≠ lam := by intro e; rw [e] at h1'; exact lt_asymm h1' hx
            have hu : u ≠ lam := by
              intro e; rw [e] at hlu
              exact absurd (lt_of_lt_of_le h1' hlu) (lt_asymm hx)
            simp [finLo_coe, hd.ne.symm, hd, hd.le.not_lt, hl, WithTop.coe_eq_coe, hu]
          · rw [if_neg h1]
            by_cases h2 : (u : WithTop K) < ((lam + v * d : K) : WithTop K)
            · rw [if_pos h2]
              simp [finHi_coe, hd.ne.symm, hd, hd.le.not_lt, WithTop.coe_eq_coe]
            · rw [if_neg h2]
              have h2' : lam + v * d ≤ u := not_lt.mp (fun h => h2 (WithTop.coe_lt_coe.mpr h))
              have hu : u ≠ lam := by intro e; rw [e] at h2'; exact absurd hx (not_lt.mpr h2')
              simp [hd.ne.symm, hd, hd.le.not_lt, hv.ne.symm, WithTop.coe_eq_coe, hu]
  by_cases hd0 : d = 0
  · rw [hd0, mul_zero]
  · rw [key w hw hd0]
    have := key 1 one_pos hd0
    rw [one_mul] at this
    rw [this]

theorem Ad_withW (p : SORInput K) (w : K) (k : Nat) :
    (p.withW w).Ad k = w * (p.withW 1).Ad k := by
  simp only [SORInput.Ad, computeAd, SORInput.iMJ, SORInput.withW]
  ring

theorem row_fixed_with_w (p : SORInput K) (w : K) (hw : 0 < w) (k : Nat) (hk : k < p.m)
    (hb : boundLE (p.lo k) (p.hi k)) (s : SORState K) :
    (p.withW w).row k s = s ↔ (p.withW 1).row k s = s := by
  have e1 := rowDelta_scaled (p.withW w) k hk s
  have e2 := rowDelta_scaled (p.withW 1) k hk s
  rw [row_eq_self_iff, row_eq_self_iff, row_lambda_self, row_lambda_self, e1, e2,
    Ad_withW p w k, mul_assoc]
  exact clampLambda_fixed_scale (p.lo k) (p.hi k) (s.lambda k) _ w hw hb

/-- Claim C6. For fixed `J`, `rhs`, `cfm`, `jb`, body data and bounds with
`lo[i] <= hi[i]` and `A_dd[i] + cfm[i] > 0` on every row, and every `w` in
`(1, 2)`: a state `(lambda, fc)` is left unchanged by one full sweep of the
row update run with over-relaxation `w` if and only if it is left unchanged by
one full sweep run with `w = 1`. -/
theorem C6_fixed_points_independent_of_w (p : SORInput K) (w : K) (hw1 : 1 < w) (_hw2 : w < 2)
    (hb : ∀ i, i < p.m → boundLE (p.lo i) (p.hi i))
    (_hA : ∀ i, i < p.m → 0 < diagSum p.J p.iMJ p.jb i + p.cfm i) (s : SORState K) :
    (p.withW w).sweep s = s ↔ (p.withW 1).sweep s = s := by
  rw [sweep_fixed_iff, sweep_fixed_iff]
  show (∀ k, k < p.m → _) ↔ (∀ k, k < p.m → _)
  have hw : 0 < w := lt_trans one_pos hw1
  constructor
  · intro h k hk
    exact (row_fixed_with_w p w hw k hk (hb k hk) s).mp (h k hk)
  · intro h k hk
    exact (row_fixed_with_w p w hw k hk (hb k hk) s).mpr (h k hk)

theorem clampLambda_unbounded (lam delta : K) :
    clampLambda (⊥ : WithBot K) (⊤ : WithTop K) lam delta = (delta, lam + delta) := by
  unfold clampLambda
  dsimp only
  rw [if_neg not_lt_bot, if_neg not_top_lt]

theorem order_of_m_eq_one (p : SORInput K) (hm : p.m = 1) : p.order = [0] := by
  have h := buildOrder_perm p.m p.findex
  have hr : List.range 1 = [0] := rfl
  rw [hm, hr] at h
  have e : p.order = buildOrder 1 p.findex := by rw [SORInput.order, hm]
  rw [e]
  exact List.perm_singleton.mp h

theorem dot6_zero_left (fc J : Nat → K) (fb jb : Nat) (h : ∀ t, t < 6 → fc (fb + t) = 0) :
    dot6 fc fb J jb = 0 := by
  simp only [dot6]
  rw [h 0 (by omega), h 1 (by omega), h 2 (by omega), h 3 (by omega), h 4 (by omega),
    h 5 (by omega)]
  ring

theorem init_fc_block (p : SORInput K) (b t : Nat) (hb : b < p.nb) (ht : t < 6) :
    p.init.fc (6 * b + t) = 0 := by
  have h : 6 * b + t < p.nb * 6 := by omega
  simp only [SORInput.init, dSetZero, if_pos h]

theorem init_lambda (p : SORInput K) (k : Nat) (hk : k < p.m) : p.init.lambda k = 0 := by
  simp only [SORInput.init, dSetZero, if_pos hk]

/-- The unclamped delta of a row at the start of the first sweep, when its
bodies are in the body array. -/
theorem rowDelta_init (p : SORInput K) (k : Nat) (hk : k < p.m)
    (h1 : (p.jb (k * 2)).toNat < p.nb) (h2 : (p.jb (k * 2 + 1)).toNat < p.nb) :
    rowDelta p.Jscaled p.bscaled p.Adscaled p.jb k p.init = p.b k * p.Ad k := by
  have e1 := dot6_zero_left p.init.fc p.Jscaled (6 * (p.jb (k * 2)).toNat) (k * 12)
    (fun t ht => init_fc_block p _ t h1 ht)
  have e2 := dot6_zero_left p.init.fc p.Jscaled (6 * (p.jb (k * 2 + 1)).toNat) (k * 12 + 6)
    (fun t ht => init_fc_block p _ t h2 ht)
  simp only [rowDelta, e1, e2, init_lambda p k hk, SORInput.bscaled, scaleB, if_pos hk]
  split_ifs <;> ring

theorem diagSum_eq_sum (J iMJ : Nat → K) (jb : Nat → Int) :
    diagSum J iMJ jb 0 =
      if 0 ≤ jb 1 then ∑ j ∈ Finset.range 12, iMJ j * J j
      else ∑ j ∈ Finset.range 6, iMJ j * J j := by
  simp only [diagSum, dot6, Finset.sum_range_succ, Finset.sum_range_zero]
  split_ifs <;> ring

/-- Claim C7. For `m = 1`, `w = 1`, `num_iterations = 1`, `lo = -infinity`,
`hi = +infinity`, `cfm = 0`, the row's bodies in the body array, and
`A = sum_j iMJ[0][j]*J[0][j]` (over columns 0..5, and 6..11 when the row has a
second body) nonzero, `SOR_LCP` returns `lambda[0] = rhs[0] / A`, with `rhs`
and `J` the values passed in. -/
theorem C7_single_unbounded_row (p : SORInput K) (hm : p.m = 1) (hw : p.sor_w = 1)
    (hn : p.num_iterations = 1) (hlo : p.lo 0 = ⊥) (hhi : p.hi 0 = ⊤) (hcfm : p.cfm 0 = 0)
    (hb1 : (p.jb 0).toNat < p.nb) (hb2 : (p.jb 1).toNat < p.nb)
    (_hA : (if 0 ≤ p.jb 1 then ∑ j ∈ Finset.range 12, p.iMJ j * p.J j
      else ∑ j ∈ Finset.range 6, p.iMJ j * p.J j) ≠ 0) :
    (SOR_LCP p).lambda 0 =
      p.b 0 / (if 0 ≤ p.jb 1 then ∑ j ∈ Finset.range 12, p.iMJ j * p.J j
        else ∑ j ∈ Finset.range 6, p.iMJ j * p.J j) := by
  have h0 : 0 < p.m := by omega
  have hs : SOR_LCP p = p.row 0 p.init := by
    simp only [SOR_LCP, hn]
    show p.after (0 + 1) = _
    rw [after_succ, sweep_eq_foldl, order_of_m_eq_one p hm]
    rfl
  rw [hs, row_lambda_self, hlo, hhi, clampLambda_unbounded,
    rowDelta_init p 0 h0 (by simpa using hb1) (by simpa using hb2), init_lambda p 0 h0]
  simp only [SORInput.Ad, computeAd, hw, hcfm, add_zero, diagSum_eq_sum, zero_add]
  ring

theorem clampLambda_coe_coe (l u lam d : K) :
    clampLambda (l : WithBot K) (u : WithTop K) lam d =
      if lam + d < l then (l - lam, l) else if u < lam + d then (u - lam, u)
      else (d, lam + d) := by
  unfold clampLambda
  simp only [WithBot.coe_lt_coe, WithTop.coe_lt_coe, finLo_coe, finHi_coe]

theorem clampLambda_coe_top (l lam d : K) :
    clampLambda (l : WithBot K) (⊤ : WithTop K) lam d =
      if lam + d < l then (l - lam, l) else (d, lam + d) := by
  unfold clampLambda
  simp only [WithBot.coe_lt_coe, finLo_coe, not_top_lt, if_false]

theorem frictionExample_Ad (k : Nat) (hk : k < 2) : frictionExample.Ad k = 1 := by
  have h : k = 0 ∨ k = 1 := by omega
  rcases h with rfl | rfl <;>
    norm_num [SORInput.Ad, computeAd, diagSum, dot6, SORInput.iMJ, computeIMJ, dMULTIPLY0_331,
      frictionExample]

theorem frictionExample_row0 : frictionExample.row 0 frictionExample.init = frictionExample.init := by
  rw [row_eq_self_iff, row_lambda_self,
    rowDelta_init frictionExample 0 (by decide) (by decide) (by decide),
    frictionExample_Ad 0 (by decide), init_lambda frictionExample 0 (by decide)]
  have hl : frictionExample.lo 0 = ((0 : ℚ) : WithBot ℚ) := rfl
  have hh : frictionExample.hi 0 = ⊤ := rfl
  have hb : frictionExample.b 0 = -1 := rfl
  rw [hl, hh, hb, clampLambda_coe_top]
  norm_num

theorem frictionExample_lambda :
    (SOR_LCP frictionExample).lambda 0 = 0 ∧ (SOR_LCP frictionExample).lambda 1 = 1 / 2 := by
  have ho : frictionExample.order = [0, 1] := by decide
  have hs : SOR_LCP frictionExample =
      frictionExample.row 1 (frictionExample.row 0 frictionExample.init) := by
    show frictionExample.after (0 + 1) = _
    rw [after_succ, sweep_eq_foldl, ho]
    rfl
  rw [hs, frictionExample_row0]
  constructor
  · rw [row_lambda_of_ne _ _ _ _ (by decide)]
    exact init_lambda frictionExample 0 (by decide)
  · rw [row_lambda_self, rowDelta_init frictionExample 1 (by decide) (by decide) (by decide),
      frictionExample_Ad 1 (by decide), init_lambda frictionExample 1 (by decide)]
    have hl : frictionExample.lo 1 = ((-1 / 2 : ℚ) : WithBot ℚ) := rfl
    have hh : frictionExample.hi 1 = ((1 / 2 : ℚ) : WithTop ℚ) := rfl
    have hb : frictionExample.b 1 = 10 := rfl
    rw [hl, hh, hb, clampLambda_coe_coe]
    norm_num

/-- Claim C1, the code at a failing input. On `frictionExample` the friction
row 1 has `findex = 0` and `hicopy = mu = 1/2`, and the normal row ends the
single sweep with `lambda[0] = 0`; the bound of row 1 is not re-derived, the
sweep clamps against the entry value `hi[1] = 1/2`, and `SOR_LCP` returns
`lambda[1] = 1/2`, so `|lambda[1]| <= mu * lambda[0]` fails. -/
theorem C1_friction_bounds_not_rederived :
    frictionExample.findex 1 = 0 ∧ frictionExample.hi 1 = ((1 / 2 : ℚ) : WithTop ℚ) ∧
    frictionExample.findex 0 < 0 ∧ frictionExample.lo 0 = ((0 : ℚ) : WithBot ℚ) ∧
    (SOR_LCP frictionExample).lambda 0 = 0 ∧ (SOR_LCP frictionExample).lambda 1 = 1 / 2 ∧
    ¬ (|(SOR_LCP frictionExample).lambda 1| ≤ 1 / 2 * (SOR_LCP frictionExample).lambda 0) := by
  obtain ⟨h0, h1⟩ := frictionExample_lambda
  refine ⟨by decide, rfl, by decide, rfl, h0, h1, ?_⟩
  rw [h0, h1]
  norm_num

theorem frictionExample_bounds_ordered :
    ∀ i, i < frictionExample.m → boundLE (frictionExample.lo i) (frictionExample.hi i) := by
  intro i hi
  have h : i = 0 ∨ i = 1 := by
    have : i < 2 := hi
    omega
  rcases h with rfl | rfl
  · trivial
  · show (-1 / 2 : ℚ) ≤ 1 / 2
    norm_num

theorem frictionExample_first_body :
    ∀ k, k < frictionExample.m → 0 ≤ frictionExample.jb (2 * k) := by
  intro k _
  have h : (2 * k) % 2 = 0 := by omega
  simp [frictionExample, h]

theorem frictionExample_diag (k : Nat) (hk : k < 2) :
    diagSum frictionExample.J frictionExample.iMJ frictionExample.jb k = 1 := by
  have h : k = 0 ∨ k = 1 := by omega
  rcases h with rfl | rfl <;>
    norm_num [diagSum, dot6, SORInput.iMJ, computeIMJ, dMULTIPLY0_331, frictionExample]

/-- Witness for C2 on `frictionExample`, whose two divisors are 1: the
friction row ends inside its bounds. -/
theorem C2_bounds_after_every_sweep_witness :
    (∀ i, i < frictionExample.m →
      diagSum frictionExample.J frictionExample.iMJ frictionExample.jb i +
        frictionExample.cfm i ≠ 0) ∧
    (∀ i, i < frictionExample.m → boundLE (frictionExample.lo i) (frictionExample.hi i)) ∧
    1 ≤ frictionExample.num_iterations ∧
    frictionExample.lo 1 ≤ (((SOR_LCP frictionExample).lambda 1 : ℚ) : WithBot ℚ) ∧
    (((SOR_LCP frictionExample).lambda 1 : ℚ) : WithTop ℚ) ≤ frictionExample.hi 1 :=
  have hdiv : ∀ i, i < frictionExample.m →
      diagSum frictionExample.J frictionExample.iMJ frictionExample.jb i +
        frictionExample.cfm i ≠ 0 := by
    intro i hi
    rw [frictionExample_diag i hi]
    norm_num [frictionExample]
  ⟨hdiv, frictionExample_bounds_ordered, by decide,
    (C2_bounds_after_every_sweep frictionExample hdiv frictionExample_bounds_ordered
      (by decide)).2 1 (by decide)⟩

/-- Witness for C3 on `frictionExample`: the accumulator of body 0 at
return. -/
theorem C3_accumulator_is_iMJ_times_lambda_witness :
    (∀ k, k < frictionExample.m → 0 ≤ frictionExample.jb (2 * k)) ∧
    (SOR_LCP frictionExample).fc (6 * 0 + 0) =
      (∑ k ∈ (Finset.range frictionExample.m).filter
          (fun k => frictionExample.jb (2 * k) = ((0 : Nat) : Int)),
        (SOR_LCP frictionExample).lambda k * frictionExample.iMJ (12 * k + 0)) +
      (∑ k ∈ (Finset.range frictionExample.m).filter
          (fun k => frictionExample.jb (2 * k + 1) = ((0 : Nat) : Int)),
        (SOR_LCP frictionExample).lambda k * frictionExample.iMJ (12 * k + 6 + 0)) :=
  ⟨frictionExample_first_body,
    (C3_accumulator_is_iMJ_times_lambda frictionExample frictionExample_first_body).2.1 0 0
      (by decide) (by decide)⟩

/-- Witness for C5 on `frictionExample`: row 1 has `findex = 0`. -/
theorem C5_governing_row_visited_first_witness :
    1 < frictionExample.m ∧ 0 ≤ frictionExample.findex 1 ∧
    frictionExample.findex 1 < ((1 : Nat) : Int) ∧
    frictionExample.order.Nodup ∧
    ∃ l1 l2 l3, frictionExample.order =
      l1 ++ (frictionExample.findex 1).toNat :: (l2 ++ 1 :: l3) :=
  ⟨by decide, by decide, by decide,
    C5_governing_row_visited_first frictionExample 1 (by decide) (by decide) (by decide)⟩

/-- Witness for C6 on `frictionExample` with `w = 3/2` at the entry state. -/
theorem C6_fixed_points_independent_of_w_witness :
    (1 : ℚ) < 3 / 2 ∧ (3 / 2 : ℚ) < 2 ∧
    (∀ i, i < frictionExample.m → boundLE (frictionExample.lo i) (frictionExample.hi i)) ∧
    (∀ i, i < frictionExample.m →
      0 < diagSum frictionExample.J frictionExample.iMJ frictionExample.jb i +
        frictionExample.cfm i) ∧
    ((frictionExample.withW (3 / 2)).sweep frictionExample.init = frictionExample.init ↔
      (frictionExample.withW 1).sweep frictionExample.init = frictionExample.init) :=
  ⟨by norm_num, by norm_num, frictionExample_bounds_ordered,
    fun i hi => by
      rw [frictionExample_diag i hi]
      show (0 : ℚ) < 1 + 0
      norm_num,
    C6_fixed_points_independent_of_w frictionExample (3 / 2) (by norm_num) (by norm_num)
      frictionExample_bounds_ordered
      (fun i hi => by
        rw [frictionExample_diag i hi]
        show (0 : ℚ) < 1 + 0
        norm_num)
      frictionExample.init⟩

theorem singleInv_init (p : SORInput K) (hm : p.m = 1) (hb : SingleBodies p) :
    SingleInv p p.init 0 := by
  refine ⟨init_lambda p 0 (by omega), ?_, ?_⟩
  · intro t ht
    rw [init_fc_block p _ t (by have := hb.1; have := hb.2.1; omega) ht, zero_mul]
  · intro _ t ht
    rw [init_fc_block p _ t (by have := hb.2.2.1; have := hb.1; have := hb.2.1; omega) ht,
      zero_mul]

theorem dot6_smul_left (fc iMJ J : Nat → K) (fb ib jo : Nat) (lam : K)
    (h : ∀ t, t < 6 → fc (fb + t) = lam * iMJ (ib + t)) :
    dot6 fc fb J jo = lam * dot6 iMJ ib J jo := by
  simp only [dot6]
  rw [h 0 (by omega), h 1 (by omega), h 2 (by omega), h 3 (by omega), h 4 (by omega),
    h 5 (by omega)]
  ring

theorem rowDelta_single (p : SORInput K) (s : SORState K) (lam : K) (h : SingleInv p s lam) :
    rowDelta p.J p.b p.cfm p.jb 0 s =
      p.b 0 - lam * p.cfm 0 - lam * diagSum p.J p.iMJ p.jb 0 := by
  obtain ⟨h1, h2, h3⟩ := h
  have e1 : dot6 s.fc (6 * (p.jb 0).toNat) p.J 0 = lam * dot6 p.iMJ 0 p.J 0 :=
    dot6_smul_left s.fc p.iMJ p.J _ 0 0 lam (fun t ht => by rw [h2 t ht, zero_add])
  simp only [rowDelta, diagSum, zero_mul, zero_add, h1, e1]
  by_cases hb2 : 0 ≤ p.jb 1
  · have e2 : dot6 s.fc (6 * (p.jb 1).toNat) p.J 6 = lam * dot6 p.iMJ 6 p.J 6 :=
      dot6_smul_left s.fc p.iMJ p.J _ 6 6 lam (fun t ht => h3 hb2 t ht)
    rw [if_pos hb2, if_pos hb2, e2]
    ring
  · rw [if_neg hb2, if_neg hb2]

/-- The multiplier of a one-row system after one more row update. -/
theorem singleInv_row (p : SORInput K) (hm : p.m = 1) (hb : SingleBodies p) (s : SORState K)
    (lam : K) (h : SingleInv p s lam) :
    SingleInv p (p.row 0 s)
      (clampLambda (p.lo 0) (p.hi 0) lam
        (p.Ad 0 * (p.b 0 - lam * p.cfm 0 - lam * diagSum p.J p.iMJ p.jb 0))).2 := by
  have h0 : 0 < p.m := by omega
  have hl : (p.row 0 s).lambda 0 =
      (clampLambda (p.lo 0) (p.hi 0) lam
        (p.Ad 0 * (p.b 0 - lam * p.cfm 0 - lam * diagSum p.J p.iMJ p.jb 0))).2 := by
    rw [row_lambda_self, rowDelta_scaled p 0 h0, rowDelta_single p s lam h, h.1]
  obtain ⟨hb0, hb1, hb2, hne⟩ := hb
  have hfc : ∀ b t, t < 6 → (p.row 0 s).fc (6 * b + t) = s.fc (6 * b + t) +
      (if p.jb 0 = (b : Int) then ((p.row 0 s).lambda 0 - s.lambda 0) * p.iMJ t else 0) +
      (if p.jb 1 = (b : Int) then ((p.row 0 s).lambda 0 - s.lambda 0) * p.iMJ (6 + t)
        else 0) := by
    intro b t ht
    have := row_fc_block p 0 s b t ht (by simpa using hb0)
    simpa using this
  refine ⟨hl, ?_, ?_⟩
  · intro t ht
    have e1 : p.jb 0 = (((p.jb 0).toNat : Nat) : Int) := by omega
    have e2 : ¬ p.jb 1 = (((p.jb 0).toNat : Nat) : Int) := by omega
    rw [hfc _ t ht, if_pos e1, if_neg e2, h.2.1 t ht, ← hl, h.1]
    ring
  · intro hb2' t ht
    have e1 : ¬ p.jb 0 = (((p.jb 1).toNat : Nat) : Int) := by omega
    have e2 : p.jb 1 = (((p.jb 1).toNat : Nat) : Int) := by omega
    rw [hfc _ t ht, if_neg e1, if_pos e2, h.2.2 hb2' t ht, ← hl, h.1]
    ring

theorem after_one_row (p : SORInput K) (hm : p.m = 1) (n : Nat) :
    p.after (n + 1) = p.row 0 (p.after n) := by
  rw [after_succ, sweep_eq_foldl, order_of_m_eq_one p hm]
  rfl

/-- A one-row system without bounds and CFM, run with `w = 1`: after every
sweep the multiplier is `rhs / A`. -/
theorem singleInv_unbounded (p : SORInput K) (hm : p.m = 1) (hb : SingleBodies p)
    (hw : p.sor_w = 1) (hlo : p.lo 0 = ⊥) (hhi : p.hi 0 = ⊤) (hcfm : p.cfm 0 = 0)
    (hA : diagSum p.J p.iMJ p.jb 0 ≠ 0) (n : Nat) :
    SingleInv p (p.after (n + 1)) (p.b 0 / diagSum p.J p.iMJ p.jb 0) := by
  have step : ∀ (s : SORState K) (lam : K), SingleInv p s lam →
      SingleInv p (p.row 0 s) (p.b 0 / diagSum p.J p.iMJ p.jb 0) := by
    intro s lam h
    have h2 := singleInv_row p hm hb s lam h
    rw [hlo, hhi, clampLambda_unbounded] at h2
    have e : lam + p.Ad 0 * (p.b 0 - lam * p.cfm 0 - lam * diagSum p.J p.iMJ p.jb 0) =
        p.b 0 / diagSum p.J p.iMJ p.jb 0 := by
      simp only [SORInput.Ad, computeAd, hw, hcfm, add_zero, mul_zero, sub_zero]
      field_simp
    rw [← e]
    exact h2
  induction n with
  | zero =>
    rw [after_one_row p hm]
    exact step _ _ (singleInv_init p hm hb)
  | succ n ih =>
    rw [after_one_row p hm]
    exact step _ _ ih

theorem dot6_comb (J x y z : Nat → K) (jo xo yo zo : Nat) (h : K)
    (hx : ∀ t, t < 6 → x (xo + t) = h * (y (yo + t) + z (zo + t))) :
    dot6 J jo x xo = h * (dot6 J jo y yo + dot6 J jo z zo) := by
  simp only [dot6]
  rw [hx 0 (by omega), hx 1 (by omega), hx 2 (by omega), hx 3 (by omega), hx 4 (by omega),
    hx 5 (by omega)]
  ring

theorem dot6_smul_right (J f g : Nat → K) (jo fo go : Nat) (lam : K)
    (h : ∀ t, t < 6 → f (fo + t) = lam * g (go + t)) :
    dot6 J jo f fo = lam * dot6 g go J jo := by
  simp only [dot6]
  rw [h 0 (by omega), h 1 (by omega), h 2 (by omega), h 3 (by omega), h 4 (by omega),
    h 5 (by omega)]
  ring

/-- The velocity handed to the integrator is `h * (tmp1 + cforce)`. -/
theorem twist_velocity (nb : Nat) (h : K) (hh : h ≠ 0) (invI cforce : Nat → K)
    (body : Nat → dxBody K) (b t : Nat) (hb : b < nb) (ht : t < 6) :
    twist (velocityUpdate nb h invI (addConstraintForce nb h cforce body) b) (0 + t) =
      h * (computeTmp1 body invI (1 / h) (b * 6 + t) + cforce (b * 6 + t)) := by
  have e1 : (b * 6 + t) / 6 = b := by omega
  have e2 : (b * 6 + t) % 6 = t := by omega
  simp only [twist, velocityUpdate, addConstraintForce, computeTmp1, if_pos hb, e1, e2, zero_add]
  by_cases h3 : t < 3
  · simp only [if_pos h3]
    field_simp
    ring
  · have h4 : t - 3 < 3 := by omega
    have e3 : b * 6 + 3 + (t - 3) = b * 6 + t := by omega
    simp only [if_neg h3, if_pos h4, dMULTIPLY0_331, e3, zero_add, Nat.lt_irrefl,
      show (0 : Nat) < 3 from by decide, show (1 : Nat) < 3 from by decide,
      show (2 : Nat) < 3 from by decide, if_true]
    field_simp
    ring

theorem stepperVelocities_of_assemble (world : dxWorld K) (body : Nat → dxBody K) (nb : Nat)
    (_joint : Nat → dxJoint K) (nj : Nat) (stepsize : K) (scratch : Scratch K) (a : Assembly K)
    (ha : assemble world body nb _joint nj scratch = some a) (hm : 0 < a.m) :
    stepperVelocities world body nb _joint nj stepsize scratch =
      some (velocityUpdate nb stepsize a.invI
        (addConstraintForce nb stepsize
          (SOR_LCP (a.sorInput world nb (1 / stepsize) scratch)).fc a.body)) := by
  simp only [stepperVelocities, ha, Option.map_some', if_pos hm]

/-- The constraint velocity `J * v_new` of a one-row system whose solver state
is `lam` times the `iMJ` row. -/
theorem single_row_velocity (a : Assembly K) (world : dxWorld K) (nb : Nat) (h : K)
    (scratch : Scratch K) (hh : h ≠ 0)
    (hb : SingleBodies (a.sorInput world nb (1 / h) scratch)) (s : SORState K) (lam : K)
    (hs : SingleInv (a.sorInput world nb (1 / h) scratch) s lam) :
    dot6 (a.packed world (1 / h)).J 0
        (twist (velocityUpdate nb h a.invI (addConstraintForce nb h s.fc a.body)
          (a.jb 0).toNat)) 0 +
      (if 0 ≤ a.jb 1 then
        dot6 (a.packed world (1 / h)).J 6
          (twist (velocityUpdate nb h a.invI (addConstraintForce nb h s.fc a.body)
            (a.jb 1).toNat)) 0
      else 0) =
    (a.packed world (1 / h)).c 0 +
      h * (lam * diagSum (a.packed world (1 / h)).J (a.sorInput world nb (1 / h) scratch).iMJ
        a.jb 0 - (a.sorInput world nb (1 / h) scratch).b 0) := by
  obtain ⟨hb0, hb1, hb2, hne⟩ := hb
  obtain ⟨_, hf1, hf2⟩ := hs
  have hb0' : 0 ≤ a.jb 0 := hb0
  have hb1' : a.jb 0 < (nb : Int) := hb1
  have hb2' : a.jb 1 < (nb : Int) := hb2
  have n1 : (a.jb 0).toNat < nb := by omega
  have v1 := dot6_comb (a.packed world (1 / h)).J
    (twist (velocityUpdate nb h a.invI (addConstraintForce nb h s.fc a.body) (a.jb 0).toNat))
    (computeTmp1 a.body a.invI (1 / h)) s.fc 0 0 ((a.jb 0).toNat * 6) ((a.jb 0).toNat * 6) h
    (fun t ht => twist_velocity nb h hh a.invI s.fc a.body _ t n1 ht)
  have f1 := dot6_smul_right (a.packed world (1 / h)).J s.fc
    (a.sorInput world nb (1 / h) scratch).iMJ 0 ((a.jb 0).toNat * 6) 0 lam
    (fun t ht => by
      have := hf1 t ht
      rw [zero_add, mul_comm _ 6]
      exact this)
  have eb : (a.sorInput world nb (1 / h) scratch).b 0 =
      computeRhs (a.packed world (1 / h)).J (a.packed world (1 / h)).c a.jb
        (computeTmp1 a.body a.invI (1 / h)) (1 / h) 0 := rfl
  rw [v1, f1, eb]
  by_cases h2 : 0 ≤ a.jb 1
  · have n2 : (a.jb 1).toNat < nb := by omega
    have v2 := dot6_comb (a.packed world (1 / h)).J
      (twist (velocityUpdate nb h a.invI (addConstraintForce nb h s.fc a.body) (a.jb 1).toNat))
      (computeTmp1 a.body a.invI (1 / h)) s.fc 6 0 ((a.jb 1).toNat * 6) ((a.jb 1).toNat * 6) h
      (fun t ht => twist_velocity nb h hh a.invI s.fc a.body _ t n2 ht)
    have f2 := dot6_smul_right (a.packed world (1 / h)).J s.fc
      (a.sorInput world nb (1 / h) scratch).iMJ 6 ((a.jb 1).toNat * 6) 6 lam
      (fun t ht => by
        have := hf2 h2 t ht
        rw [mul_comm _ 6]
        exact this)
    rw [if_pos h2, v2, f2]
    generalize (a.sorInput world nb (1 / h) scratch).iMJ = iMJ
    simp only [computeRhs, diagSum, zero_mul, zero_add, if_pos h2]
    field_simp
    ring
  · rw [if_neg h2]
    generalize (a.sorInput world nb (1 / h) scratch).iMJ = iMJ
    simp only [computeRhs, diagSum, zero_mul, zero_add, if_neg h2]
    field_simp
    ring

/-- The velocities of a system with one unbounded row satisfy that row. -/
theorem single_unbounded_row_satisfied (world : dxWorld K) (body : Nat → dxBody K) (nb : Nat)
    (_joint : Nat → dxJoint K) (nj : Nat) (stepsize : K) (scratch : Scratch K) (a : Assembly K)
    (ha : assemble world body nb _joint nj scratch = some a) (hm : a.m = 1)
    (hlo : (a.packed world (1 / stepsize)).lo 0 = ⊥) (hhi : (a.packed world (1 / stepsize)).hi 0 = ⊤)
    (hcfm : (a.packed world (1 / stepsize)).cfm 0 = 0)
    (hb : 0 ≤ a.jb 0 ∧ a.jb 0 < (nb : Int) ∧ a.jb 1 < (nb : Int) ∧ a.jb 1 ≠ a.jb 0)
    (hw : world.qs.w = 1) (hn : 1 ≤ world.qs.num_iterations) (hh : stepsize ≠ 0)
    (hA : diagSum (a.packed world (1 / stepsize)).J
      (a.sorInput world nb (1 / stepsize) scratch).iMJ a.jb 0 ≠ 0) :
    ∃ v, stepperVelocities world body nb _joint nj stepsize scratch = some v ∧
      dot6 (a.packed world (1 / stepsize)).J 0 (twist (v (a.jb 0).toNat)) 0 +
        (if 0 ≤ a.jb 1 then dot6 (a.packed world (1 / stepsize)).J 6 (twist (v (a.jb 1).toNat)) 0
          else 0) =
      (a.packed world (1 / stepsize)).c 0 := by
  refine ⟨_, stepperVelocities_of_assemble world body nb _joint nj stepsize scratch a ha
    (by omega), ?_⟩
  have hcfm' : (a.sorInput world nb (1 / stepsize) scratch).cfm 0 = 0 := by
    have h0 : 0 < a.m := by omega
    simp only [Assembly.sorInput, scaleCfm, if_pos h0, hcfm, zero_mul]
  obtain ⟨n, hn'⟩ : ∃ n, world.qs.num_iterations.toNat = n + 1 :=
    ⟨world.qs.num_iterations.toNat - 1, by omega⟩
  have hs := singleInv_unbounded (a.sorInput world nb (1 / stepsize) scratch) hm hb hw hlo hhi
    hcfm' hA n
  have e : SOR_LCP (a.sorInput world nb (1 / stepsize) scratch) =
      (a.sorInput world nb (1 / stepsize) scratch).after (n + 1) := by
    rw [SOR_LCP, ← hn']
    rfl
  rw [e, single_row_velocity a world nb stepsize scratch hh hb _ _ hs]
  have hA' : diagSum (a.packed world (1 / stepsize)).J
      (a.sorInput world nb (1 / stepsize) scratch).iMJ a.jb 0 ≠ 0 := hA
  have e2 : (a.sorInput world nb (1 / stepsize) scratch).J = (a.packed world (1 / stepsize)).J :=
    rfl
  have e3 : (a.sorInput world nb (1 / stepsize) scratch).jb = a.jb := rfl
  rw [e2, e3]
  field_simp

/-- The assembly of a system with one joint that reports `m > 0`. -/
theorem assemble_one_joint (world : dxWorld K) (body : Nat → dxBody K) (nb : Nat)
    (_joint : Nat → dxJoint K) (scratch : Scratch K)
    (h : 0 < (_joint 0).getInfo1.m ∧ (_joint 0).getInfo1.m ≤ 6 ∧ 0 ≤ (_joint 0).getInfo1.nub ∧
      (_joint 0).getInfo1.nub ≤ (_joint 0).getInfo1.m) :
    assemble world body nb _joint 1 scratch =
      some (oneJointAssembly world body nb _joint scratch) := by
  have hr : List.range 1 = [0] := rfl
  have h1 : info1Pass _joint 1 scratch.info =
      some { joint := Function.update _joint 0 (_joint 0),
             info := Function.update scratch.info 0 (_joint 0).getInfo1, i := 1 } := by
    simp only [info1Pass, hr, List.foldl_cons, List.foldl_nil, Option.some_bind, info1Step,
      Function.update_same]
    rw [if_pos ⟨le_of_lt h.1, h.2.1, h.2.2.1, h.2.2.2⟩, if_pos h.1]
  simp only [assemble, h1, Option.map_some', ofsPass, hr, List.foldl_cons, List.foldl_nil,
    Function.update_same, oneJointAssembly]

theorem viewFrom_zero {α : Type} (a : Nat → α) : viewFrom a 0 = a := by
  funext r
  simp [viewFrom]

theorem writeFrom_zero {α : Type} (a v : Nat → α) : writeFrom a 0 v = v := by
  funext r
  simp [writeFrom]

/-- The packed arrays of a system with one joint: what the joint made of the
default block. -/
theorem packed_one_joint (world : dxWorld K) (body : Nat → dxBody K) (nb : Nat)
    (_joint : Nat → dxJoint K) (scratch : Scratch K) (fps : K) :
    (oneJointAssembly world body nb _joint scratch).packed world fps =
      { J := ((_joint 0).getInfo2 (firstInfo2 world fps)).J
        c := ((_joint 0).getInfo2 (firstInfo2 world fps)).c
        cfm := ((_joint 0).getInfo2 (firstInfo2 world fps)).cfm
        lo := ((_joint 0).getInfo2 (firstInfo2 world fps)).lo
        hi := ((_joint 0).getInfo2 (firstInfo2 world fps)).hi
        findex := fun idx =>
          if 0 ≤ idx ∧ idx < 0 + (_joint 0).getInfo1.m.toNat ∧
              0 ≤ ((_joint 0).getInfo2 (firstInfo2 world fps)).findex idx then
            ((_joint 0).getInfo2 (firstInfo2 world fps)).findex idx + ((0 : Nat) : Int)
          else ((_joint 0).getInfo2 (firstInfo2 world fps)).findex idx } := by
  have hr : List.range 1 = [0] := rfl
  simp only [Assembly.packed, info2Pass, oneJointAssembly, hr, List.foldl_cons, List.foldl_nil,
    info2Step, Function.update_same, zero_mul, viewFrom_zero, writeFrom_zero, Packed.default,
    firstInfo2]

theorem tag_assembled (world : dxWorld K) (body : Nat → dxBody K) (nb : Nat) (i : Nat)
    (hi : i < nb) :
    (addGravity nb world.gravity (addRotationalForce nb (setTags nb body)) i).tag = (i : Int) := by
  simp only [addGravity, addRotationalForce, setTags, if_pos hi]
  split_ifs <;> rfl

/-- The array `jb` of a system with one joint of one row. -/
theorem jb_one_joint (world : dxWorld K) (body : Nat → dxBody K) (nb : Nat)
    (_joint : Nat → dxJoint K) (scratch : Scratch K) (hm : (_joint 0).getInfo1.m = 1) :
    (oneJointAssembly world body nb _joint scratch).jb 0 =
        nodeTag (oneJointAssembly world body nb _joint scratch).body (_joint 0).node0 ∧
      (oneJointAssembly world body nb _joint scratch).jb 1 =
        nodeTag (oneJointAssembly world body nb _joint scratch).body (_joint 0).node1 := by
  have hr : List.range 1 = [0] := rfl
  simp [Assembly.jb, jbPass, oneJointAssembly, hm, hr]

theorem rod_packed (n : Int) (h : ℚ) :
    ((oneJointAssembly (plainWorld n 1) rodBody 2 rodJoint zeroScratch).packed (plainWorld n 1)
        (1 / h)).J = (fun idx => if idx = 0 then 1 else if idx = 6 then -1 else 0) ∧
    ((oneJointAssembly (plainWorld n 1) rodBody 2 rodJoint zeroScratch).packed (plainWorld n 1)
        (1 / h)).c 0 = 0 ∧
    ((oneJointAssembly (plainWorld n 1) rodBody 2 rodJoint zeroScratch).packed (plainWorld n 1)
        (1 / h)).cfm 0 = 0 ∧
    ((oneJointAssembly (plainWorld n 1) rodBody 2 rodJoint zeroScratch).packed (plainWorld n 1)
        (1 / h)).lo 0 = ⊥ ∧
    ((oneJointAssembly (plainWorld n 1) rodBody 2 rodJoint zeroScratch).packed (plainWorld n 1)
        (1 / h)).hi 0 = ⊤ := by
  rw [packed_one_joint]
  simp [rodJoint, firstInfo2, plainWorld]

theorem rod_jb (n : Int) :
    (oneJointAssembly (plainWorld n 1) rodBody 2 rodJoint zeroScratch).jb 0 = 0 ∧
    (oneJointAssembly (plainWorld n 1) rodBody 2 rodJoint zeroScratch).jb 1 = 1 := by
  have h := jb_one_joint (plainWorld n 1) rodBody 2 rodJoint zeroScratch rfl
  have t0 := tag_assembled (plainWorld n 1) rodBody 2 0 (by decide)
  have t1 := tag_assembled (plainWorld n 1) rodBody 2 1 (by decide)
  rw [h.1, h.2]
  exact ⟨t0, t1⟩

theorem rod_diag (n : Int) (h : ℚ) :
    diagSum ((oneJointAssembly (plainWorld n 1) rodBody 2 rodJoint zeroScratch).packed
        (plainWorld n 1) (1 / h)).J
      ((oneJointAssembly (plainWorld n 1) rodBody 2 rodJoint zeroScratch).sorInput
        (plainWorld n 1) 2 (1 / h) zeroScratch).iMJ
      (oneJointAssembly (plainWorld n 1) rodBody 2 rodJoint zeroScratch).jb 0 = 2 := by
  have hj := rod_jb n
  have hJ := (rod_packed n h).1
  have e1 : ((oneJointAssembly (plainWorld n 1) rodBody 2 rodJoint zeroScratch).sorInput
      (plainWorld n 1) 2 (1 / h) zeroScratch).iMJ =
      computeIMJ 1 (fun idx => if idx = 0 then 1 else if idx = 6 then -1 else 0)
        (oneJointAssembly (plainWorld n 1) rodBody 2 rodJoint zeroScratch).jb
        (fun b => ((oneJointAssembly (plainWorld n 1) rodBody 2 rodJoint zeroScratch).body b).invMass)
        (oneJointAssembly (plainWorld n 1) rodBody 2 rodJoint zeroScratch).invI
        zeroScratch.iMJ := by
    rw [← hJ]
    rfl
  have inv0 : ((oneJointAssembly (plainWorld n 1) rodBody 2 rodJoint zeroScratch).body 0).invMass
      = 1 := by
    simp [oneJointAssembly, addGravity, addRotationalForce, setTags, rodBody, unitBody]
  have inv1 : ((oneJointAssembly (plainWorld n 1) rodBody 2 rodJoint zeroScratch).body 1).invMass
      = 1 := by
    simp [oneJointAssembly, addGravity, addRotationalForce, setTags, rodBody, unitBody]
  rw [e1, hJ]
  simp only [diagSum, dot6, computeIMJ, dMULTIPLY0_331, hj.1, hj.2]
  norm_num [inv0, inv1]

/-- Scenario S2 for any iteration count `n >= 1` and step size `h ≠ 0`: the two
bodies leave the solver with the same x-velocity. -/
theorem rod_equal_velocity (n : Int) (h : ℚ) (hn : 1 ≤ n) (hh : h ≠ 0) :
    ∃ v, stepperVelocities (plainWorld n 1) rodBody 2 rodJoint 1 h zeroScratch = some v ∧
      (v 0).lvel 0 - (v 1).lvel 0 = 0 := by
  obtain ⟨hJ, hc, hcfm, hlo, hhi⟩ := rod_packed n h
  obtain ⟨j0, j1⟩ := rod_jb n
  obtain ⟨v, hv, hJv⟩ := single_unbounded_row_satisfied (plainWorld n 1) rodBody 2 rodJoint 1 h
    zeroScratch (oneJointAssembly (plainWorld n 1) rodBody 2 rodJoint zeroScratch)
    (assemble_one_joint _ _ _ _ _ (by decide)) rfl hlo hhi hcfm
    (by rw [j0, j1]; decide) rfl hn hh (by rw [rod_diag]; norm_num)
  refine ⟨v, hv, ?_⟩
  rw [hJ, hc, j0, j1] at hJv
  simp only [dot6, twist] at hJv
  norm_num at hJv
  linarith

/-- Claim C8, amended. For a system whose only constraint is a single unbounded
row (`lo = -infinity`, `hi = +infinity`, `cfm = 0`) between two distinct bodies
of the body array (or on one body), with `w = 1`, `num_iterations >= 1`, a
step size `h ≠ 0` and `A = sum_j iMJ[0][j]*J[0][j]` nonzero, the velocities
handed to the body integrator satisfy `J*v_new = c` with `J` and `c` as
written by the joint; and in scenario S2 (for every step size `h > 0`)
`|lvel_1.x - lvel_2.x| < 1e-6` for every `num_iterations >= 10`. -/
theorem C8_single_unbounded_row_satisfied :
    (∀ (world : dxWorld K) (body : Nat → dxBody K) (nb : Nat) (_joint : Nat → dxJoint K)
      (nj : Nat) (stepsize : K) (scratch : Scratch K) (a : Assembly K),
      assemble world body nb _joint nj scratch = some a → a.m = 1 →
      (a.packed world (1 / stepsize)).lo 0 = ⊥ → (a.packed world (1 / stepsize)).hi 0 = ⊤ →
      (a.packed world (1 / stepsize)).cfm 0 = 0 →
      (0 ≤ a.jb 0 ∧ a.jb 0 < (nb : Int) ∧ a.jb 1 < (nb : Int) ∧ a.jb 1 ≠ a.jb 0) →
      world.qs.w = 1 → 1 ≤ world.qs.num_iterations → stepsize ≠ 0 →
      (if 0 ≤ a.jb 1 then
          ∑ j ∈ Finset.range 12, (a.sorInput world nb (1 / stepsize) scratch).iMJ j *
            (a.packed world (1 / stepsize)).J j
        else
          ∑ j ∈ Finset.range 6, (a.sorInput world nb (1 / stepsize) scratch).iMJ j *
            (a.packed world (1 / stepsize)).J j) ≠ 0 →
      ∃ v, stepperVelocities world body nb _joint nj stepsize scratch = some v ∧
        dot6 (a.packed world (1 / stepsize)).J 0 (twist (v (a.jb 0).toNat)) 0 +
          (if 0 ≤ a.jb 1 then
            dot6 (a.packed world (1 / stepsize)).J 6 (twist (v (a.jb 1).toNat)) 0
          else 0) =
        (a.packed world (1 / stepsize)).c 0) ∧
    (∀ (n : Int) (h : ℚ), 10 ≤ n → 0 < h →
      ∃ v, stepperVelocities (plainWorld n 1) rodBody 2 rodJoint 1 h zeroScratch = some v ∧
        |(v 0).lvel 0 - (v 1).lvel 0| < 1 / 1000000) := by
  constructor
  · intro world body nb _joint nj stepsize scratch a ha hm hlo hhi hcfm hb hw hn hh hA
    rw [← diagSum_eq_sum] at hA
    exact single_unbounded_row_satisfied world body nb _joint nj stepsize scratch a ha hm hlo
      hhi hcfm hb hw hn hh hA
  · intro n h hn hh
    obtain ⟨v, hv, e⟩ := rod_equal_velocity n h (by omega) hh.ne.symm
    refine ⟨v, hv, ?_⟩
    rw [e]
    norm_num

/-- Witness for C8: scenario S2 with ten iterations and `h = 1/100`. -/
theorem C8_single_unbounded_row_satisfied_witness :
    (10 : Int) ≤ 10 ∧ (0 : ℚ) < 1 / 100 ∧
    ∃ v, stepperVelocities (plainWorld 10 1) rodBody 2 rodJoint 1 (1 / 100) zeroScratch = some v ∧
      |(v 0).lvel 0 - (v 1).lvel 0| < 1 / 1000000 :=
  ⟨by decide, by norm_num,
    (C8_single_unbounded_row_satisfied (K := ℚ)).2 10 (1 / 100) (by decide) (by norm_num)⟩

theorem nullRow_packed :
    ((oneJointAssembly (plainWorld 1 1) rodBody 1 nullRowJoint zeroScratch).packed
        (plainWorld 1 1) (1 / 1)).J = (fun _ => 0) ∧
    ((oneJointAssembly (plainWorld 1 1) rodBody 1 nullRowJoint zeroScratch).packed
        (plainWorld 1 1) (1 / 1)).c 0 = 1 ∧
    ((oneJointAssembly (plainWorld 1 1) rodBody 1 nullRowJoint zeroScratch).packed
        (plainWorld 1 1) (1 / 1)).cfm 0 = 0 ∧
    ((oneJointAssembly (plainWorld 1 1) rodBody 1 nullRowJoint zeroScratch).packed
        (plainWorld 1 1) (1 / 1)).lo 0 = ⊥ ∧
    ((oneJointAssembly (plainWorld 1 1) rodBody 1 nullRowJoint zeroScratch).packed
        (plainWorld 1 1) (1 / 1)).hi 0 = ⊤ := by
  rw [packed_one_joint]
  simp [nullRowJoint, firstInfo2, plainWorld]

theorem nullRow_jb :
    (oneJointAssembly (plainWorld 1 1) rodBody 1 nullRowJoint zeroScratch).jb 0 = 0 ∧
    (oneJointAssembly (plainWorld 1 1) rodBody 1 nullRowJoint zeroScratch).jb 1 = -1 := by
  have h := jb_one_joint (plainWorld 1 1) rodBody 1 nullRowJoint zeroScratch rfl
  have t0 := tag_assembled (plainWorld 1 1) rodBody 1 0 (by decide)
  rw [h.1, h.2]
  exact ⟨t0, rfl⟩

/-- Claim C8 as stated fails: one unit-mass body with `lvel = (1,0,0)`, one
joint on it whose single unbounded row has `J = 0`, `c = 1`, `cfm = 0`;
`w = 1`, one iteration, `h = 1`. The stepper returns velocities, and
`J*v_new = 0` is not `c = 1`. -/
theorem C8_fails_for_null_row :
    ∃ a v, assemble (plainWorld 1 1) rodBody 1 nullRowJoint 1 zeroScratch = some a ∧
      a.m = 1 ∧ (a.packed (plainWorld 1 1) (1 / 1)).lo 0 = ⊥ ∧
      (a.packed (plainWorld 1 1) (1 / 1)).hi 0 = ⊤ ∧
      (a.packed (plainWorld 1 1) (1 / 1)).cfm 0 = 0 ∧
      a.jb 0 = 0 ∧ a.jb 1 = -1 ∧
      (plainWorld 1 1).qs.w = 1 ∧ 1 ≤ (plainWorld 1 1).qs.num_iterations ∧
      stepperVelocities (plainWorld 1 1) rodBody 1 nullRowJoint 1 1 zeroScratch = some v ∧
      dot6 (a.packed (plainWorld 1 1) (1 / 1)).J 0 (twist (v (a.jb 0).toNat)) 0 +
          (if 0 ≤ a.jb 1 then
            dot6 (a.packed (plainWorld 1 1) (1 / 1)).J 6 (twist (v (a.jb 1).toNat)) 0
          else 0) ≠
        (a.packed (plainWorld 1 1) (1 / 1)).c 0 := by
  obtain ⟨hJ, hc, hcfm, hlo, hhi⟩ := nullRow_packed
  obtain ⟨j0, j1⟩ := nullRow_jb
  have ha := assemble_one_joint (plainWorld 1 1) rodBody 1 nullRowJoint zeroScratch (by decide)
  refine ⟨_, _, ha, rfl, hlo, hhi, hcfm, j0, j1, rfl, by decide,
    stepperVelocities_of_assemble _ _ _ _ _ 1 _ _ ha (by decide), ?_⟩
  rw [hJ, hc, j1]
  simp [dot6]

theorem pow_le_one_of_abs_lt (q : K) (hq : |q| < 1) (n : Nat) : q ^ n ≤ 1 := by
  have h1 : |q| ^ n ≤ 1 := pow_le_one₀ (abs_nonneg q) hq.le
  calc q ^ n ≤ |q ^ n| := le_abs_self _
    _ = |q| ^ n := abs_pow q n
    _ ≤ 1 := h1

theorem clampLambda_zero_top (lam d : K) (h : 0 ≤ lam + d) :
    clampLambda ((0 : K) : WithBot K) (⊤ : WithTop K) lam d = (d, lam + d) := by
  rw [clampLambda_coe_top, if_neg (not_lt.mpr h)]

/-- A one-row system with `lo = 0`, `hi = dInfinity`, `cfm = 0` and a positive
`rhs / A`: after `n` sweeps the multiplier is `(rhs / A) * (1 - (1 - w)^n)`. -/
theorem singleInv_contact (p : SORInput K) (hm : p.m = 1) (hb : SingleBodies p)
    (hw0 : 0 < p.sor_w) (hw2 : p.sor_w < 2) (hlo : p.lo 0 = ((0 : K) : WithBot K))
    (hhi : p.hi 0 = ⊤) (hcfm : p.cfm 0 = 0) (hA : 0 < diagSum p.J p.iMJ p.jb 0)
    (hr : 0 ≤ p.b 0) (n : Nat) :
    SingleInv p (p.after n)
      (p.b 0 / diagSum p.J p.iMJ p.jb 0 * (1 - (1 - p.sor_w) ^ n)) := by
  have hq : |1 - p.sor_w| < 1 := by
    rw [abs_lt]
    constructor <;> linarith
  induction n with
  | zero =>
    have e : p.b 0 / diagSum p.J p.iMJ p.jb 0 * (1 - (1 - p.sor_w) ^ 0) = 0 := by
      rw [pow_zero, sub_self, mul_zero]
    rw [e]
    exact singleInv_init p hm hb
  | succ n ih =>
    rw [after_one_row p hm]
    have h2 := singleInv_row p hm hb _ _ ih
    have e : p.b 0 / diagSum p.J p.iMJ p.jb 0 * (1 - (1 - p.sor_w) ^ n) +
        p.Ad 0 * (p.b 0 - p.b 0 / diagSum p.J p.iMJ p.jb 0 * (1 - (1 - p.sor_w) ^ n) * p.cfm 0 -
          p.b 0 / diagSum p.J p.iMJ p.jb 0 * (1 - (1 - p.sor_w) ^ n) *
            diagSum p.J p.iMJ p.jb 0) =
        p.b 0 / diagSum p.J p.iMJ p.jb 0 * (1 - (1 - p.sor_w) ^ (n + 1)) := by
      simp only [SORInput.Ad, computeAd, hcfm, add_zero, mul_zero, sub_zero]
      field_simp
      ring
    have hpos : 0 ≤ p.b 0 / diagSum p.J p.iMJ p.jb 0 * (1 - (1 - p.sor_w) ^ (n + 1)) := by
      apply mul_nonneg (div_nonneg hr hA.le)
      have := pow_le_one_of_abs_lt (1 - p.sor_w) hq (n + 1)
      linarith
    rw [hlo, hhi, clampLambda_zero_top _ _ (by rw [e]; exact hpos), e] at h2
    exact h2

theorem stepperLambda_of_assemble (world : dxWorld K) (body : Nat → dxBody K) (nb : Nat)
    (_joint : Nat → dxJoint K) (nj : Nat) (stepsize : K) (scratch : Scratch K) (a : Assembly K)
    (ha : assemble world body nb _joint nj scratch = some a) :
    stepperLambda world body nb _joint nj stepsize scratch =
      some (SOR_LCP (a.sorInput world nb (1 / stepsize) scratch)).lambda := by
  simp only [stepperLambda, ha, Option.map_some']

/-- Scenario S3 in general: one ground-normal row on body 0. The solver ends
with `lambda = (rhs / A) * (1 - (1 - w)^n) >= 0` and the body leaves with
`lvel.y = (1 - w)^n * (lvel.y + h * invMass * facc.y)`. -/
theorem contact_velocity (world : dxWorld K) (body : Nat → dxBody K) (nb : Nat)
    (_joint : Nat → dxJoint K) (nj : Nat) (h : K) (scratch : Scratch K) (a : Assembly K)
    (ha : assemble world body nb _joint nj scratch = some a) (hm : a.m = 1) (hnb : 0 < nb)
    (hj0 : a.jb 0 = 0) (hj1 : a.jb 1 = -1)
    (hJ : (a.packed world (1 / h)).J 0 = 0 ∧ (a.packed world (1 / h)).J 1 = 1 ∧
      (a.packed world (1 / h)).J 2 = 0 ∧ (a.packed world (1 / h)).J 3 = 0 ∧
      (a.packed world (1 / h)).J 4 = 0 ∧ (a.packed world (1 / h)).J 5 = 0)
    (hc : (a.packed world (1 / h)).c 0 = 0) (hcfm : (a.packed world (1 / h)).cfm 0 = 0)
    (hlo : (a.packed world (1 / h)).lo 0 = ((0 : K) : WithBot K))
    (hhi : (a.packed world (1 / h)).hi 0 = ⊤)
    (hk : 0 < (a.body 0).invMass) (hv : (a.body 0).lvel 1 < 0) (hf : (a.body 0).facc 1 ≤ 0)
    (hh : 0 < h) (hw0 : 0 < world.qs.w) (hw2 : world.qs.w < 2) :
    ∃ lam v, stepperLambda world body nb _joint nj h scratch = some lam ∧
      stepperVelocities world body nb _joint nj h scratch = some v ∧
      0 ≤ lam 0 ∧
      (v 0).lvel 1 = (1 - world.qs.w) ^ world.qs.num_iterations.toNat *
        ((a.body 0).lvel 1 + h * (a.body 0).invMass * (a.body 0).facc 1) := by
  obtain ⟨J0, J1, J2, J3, J4, J5⟩ := hJ
  have hm0 : 0 < a.m := by omega
  have hbod : SingleBodies (a.sorInput world nb (1 / h) scratch) := by
    refine ⟨?_, ?_, ?_, ?_⟩
    · show 0 ≤ a.jb 0
      rw [hj0]
    · show a.jb 0 < (nb : Int)
      rw [hj0]; omega
    · show a.jb 1 < (nb : Int)
      rw [hj1]; omega
    · show a.jb 1 ≠ a.jb 0
      rw [hj0, hj1]; decide
  have hD : diagSum (a.sorInput world nb (1 / h) scratch).J
      (a.sorInput world nb (1 / h) scratch).iMJ (a.sorInput world nb (1 / h) scratch).jb 0 =
      (a.body 0).invMass := by
    have e1 : (a.sorInput world nb (1 / h) scratch).jb = a.jb := rfl
    have e2 : (a.sorInput world nb (1 / h) scratch).J = (a.packed world (1 / h)).J := rfl
    have e3 : (a.sorInput world nb (1 / h) scratch).iMJ 1 = (a.body 0).invMass := by
      have : (a.sorInput world nb (1 / h) scratch).iMJ 1 =
          (a.body (a.jb 0).toNat).invMass * (a.packed world (1 / h)).J 1 := by
        simp [SORInput.iMJ, computeIMJ, Assembly.sorInput, hm]
      rw [this, hj0, J1]
      simp
    rw [e1, e2]
    simp only [diagSum, dot6, hj1, zero_mul, zero_add, J0, J1, J2, J3, J4, J5, e3]
    norm_num
  have hB : (a.sorInput world nb (1 / h) scratch).b 0 =
      -((a.body 0).facc 1 * (a.body 0).invMass + (a.body 0).lvel 1 * (1 / h)) := by
    have : (a.sorInput world nb (1 / h) scratch).b 0 =
        computeRhs (a.packed world (1 / h)).J (a.packed world (1 / h)).c a.jb
          (computeTmp1 a.body a.invI (1 / h)) (1 / h) 0 := rfl
    rw [this]
    simp only [computeRhs, dot6, hj0, hj1, zero_mul, zero_add, J0, J1, J2, J3, J4, J5, hc,
      computeTmp1]
    norm_num
  have hBpos : 0 < (a.sorInput world nb (1 / h) scratch).b 0 := by
    rw [hB]
    have h1 : (a.body 0).facc 1 * (a.body 0).invMass ≤ 0 :=
      mul_nonpos_of_nonpos_of_nonneg hf hk.le
    have h2 : (a.body 0).lvel 1 * (1 / h) < 0 :=
      mul_neg_of_neg_of_pos hv (one_div_pos.mpr hh)
    linarith
  have hcfm' : (a.sorInput world nb (1 / h) scratch).cfm 0 = 0 := by
    simp only [Assembly.sorInput, scaleCfm, if_pos hm0, hcfm, zero_mul]
  have hs := singleInv_contact (a.sorInput world nb (1 / h) scratch) hm hbod hw0 hw2 hlo hhi
    hcfm' (by rw [hD]; exact hk) hBpos.le world.qs.num_iterations.toNat
  have hvel := single_row_velocity a world nb h scratch hh.ne.symm hbod _ _ hs
  refine ⟨_, _, stepperLambda_of_assemble world body nb _joint nj h scratch a ha,
    stepperVelocities_of_assemble world body nb _joint nj h scratch a ha hm0, ?_, ?_⟩
  · have hq : |1 - world.qs.w| < 1 := by
      rw [abs_lt]
      constructor <;> linarith
    have e : (SOR_LCP (a.sorInput world nb (1 / h) scratch)).lambda 0 = _ := hs.1
    rw [e]
    apply mul_nonneg (div_nonneg hBpos.le (by rw [hD]; exact hk.le))
    have := pow_le_one_of_abs_lt (1 - world.qs.w) hq world.qs.num_iterations.toNat
    have e2 : (a.sorInput world nb (1 / h) scratch).sor_w = world.qs.w := rfl
    rw [e2]
    linarith
  · have e1 : (a.sorInput world nb (1 / h) scratch).jb = a.jb := rfl
    have e2 : (a.sorInput world nb (1 / h) scratch).J = (a.packed world (1 / h)).J := rfl
    have e3 : (a.sorInput world nb (1 / h) scratch).sor_w = world.qs.w := rfl
    rw [e1, e2] at hD
    rw [e1, e2, hD, hB, hc, e3] at hvel
    show (velocityUpdate nb h a.invI (addConstraintForce nb h
      (SOR_LCP (a.sorInput world nb (1 / h) scratch)).fc a.body) 0).lvel 1 = _
    have e4 : SOR_LCP (a.sorInput world nb (1 / h) scratch) =
        (a.sorInput world nb (1 / h) scratch).after world.qs.num_iterations.toNat := rfl
    rw [e4]
    generalize (a.sorInput world nb (1 / h) scratch).after world.qs.num_iterations.toNat = st
      at hvel ⊢
    generalize velocityUpdate nb h a.invI (addConstraintForce nb h st.fc a.body) = v at hvel ⊢
    simp only [dot6, hj0, hj1, zero_add, J0, J1, J2, J3, J4, J5, twist] at hvel
    norm_num at hvel
    have hh' : h ≠ 0 := hh.ne.symm
    have hk' : (a.body 0).invMass ≠ 0 := hk.ne.symm
    rw [hvel]
    field_simp
    ring

theorem contact_packed (n : Int) (w h : ℚ) :
    ((oneJointAssembly (plainWorld n w) fallingBody 1 contactJoint zeroScratch).packed
        (plainWorld n w) (1 / h)).J = (fun idx => if idx = 1 then 1 else 0) ∧
    ((oneJointAssembly (plainWorld n w) fallingBody 1 contactJoint zeroScratch).packed
        (plainWorld n w) (1 / h)).c 0 = 0 ∧
    ((oneJointAssembly (plainWorld n w) fallingBody 1 contactJoint zeroScratch).packed
        (plainWorld n w) (1 / h)).cfm 0 = 0 ∧
    ((oneJointAssembly (plainWorld n w) fallingBody 1 contactJoint zeroScratch).packed
        (plainWorld n w) (1 / h)).lo 0 = ((0 : ℚ) : WithBot ℚ) ∧
    ((oneJointAssembly (plainWorld n w) fallingBody 1 contactJoint zeroScratch).packed
        (plainWorld n w) (1 / h)).hi 0 = ⊤ := by
  rw [packed_one_joint]
  simp [contactJoint, firstInfo2, plainWorld]

theorem contact_jb (n : Int) (w : ℚ) :
    (oneJointAssembly (plainWorld n w) fallingBody 1 contactJoint zeroScratch).jb 0 = 0 ∧
    (oneJointAssembly (plainWorld n w) fallingBody 1 contactJoint zeroScratch).jb 1 = -1 := by
  have h := jb_one_joint (plainWorld n w) fallingBody 1 contactJoint zeroScratch rfl
  have t0 := tag_assembled (plainWorld n w) fallingBody 1 0 (by decide)
  rw [h.1, h.2]
  exact ⟨t0, rfl⟩

theorem contact_body (n : Int) (w : ℚ) :
    ((oneJointAssembly (plainWorld n w) fallingBody 1 contactJoint zeroScratch).body 0).invMass
        = 1 ∧
    ((oneJointAssembly (plainWorld n w) fallingBody 1 contactJoint zeroScratch).body 0).lvel 1
        = -1 ∧
    ((oneJointAssembly (plainWorld n w) fallingBody 1 contactJoint zeroScratch).body 0).facc 1
        = 0 := by
  simp [oneJointAssembly, addGravity, addRotationalForce, setTags, fallingBody, unitBody,
    plainWorld]

/-- Scenario S3 on the concrete system: the multiplier is non-negative and the
body leaves with `lvel.y = -(1 - w)^n`. -/
theorem contact_example (n : Int) (w h : ℚ) (hw0 : 0 < w) (hw2 : w < 2) (hh : 0 < h) :
    ∃ lam v, stepperLambda (plainWorld n w) fallingBody 1 contactJoint 1 h zeroScratch
        = some lam ∧
      stepperVelocities (plainWorld n w) fallingBody 1 contactJoint 1 h zeroScratch = some v ∧
      0 ≤ lam 0 ∧ (v 0).lvel 1 = -(1 - w) ^ n.toNat := by
  obtain ⟨hJ, hc, hcfm, hlo, hhi⟩ := contact_packed n w h
  obtain ⟨j0, j1⟩ := contact_jb n w
  obtain ⟨b1, b2, b3⟩ := contact_body n w
  obtain ⟨lam, v, h1, h2, h3, h4⟩ := contact_velocity (plainWorld n w) fallingBody 1 contactJoint
    1 h zeroScratch (oneJointAssembly (plainWorld n w) fallingBody 1 contactJoint zeroScratch)
    (assemble_one_joint _ _ _ _ _ (by decide)) rfl (by decide) j0 j1
    (by rw [hJ]; simp) hc hcfm hlo hhi (by rw [b1]; norm_num) (by rw [b2]; norm_num)
    (by rw [b3]) hh hw0 hw2
  refine ⟨lam, v, h1, h2, h3, ?_⟩
  rw [h4, b1, b2, b3]
  show (1 - w) ^ n.toNat * (-1 + h * 1 * 0) = _
  ring

/-- Claim C9, amended. For one body of positive mass with a single one-body
ground-normal row (`J = (0,1,0,0,0,0)`, `c = 0`, `cfm = 0`, `lo = 0`,
`hi = +infinity`), `lvel.y < 0` and no upward external force, for every `w` in
`(0, 2)`, `num_iterations = n >= 1` and step size `h > 0`: the stepper ends with
`lambda >= 0` and hands the integrator
`lvel.y = (1 - w)^n * (lvel.y + h * invMass * facc.y)`; this is `>= 0` exactly
when `(1 - w)^n <= 0`, and it is `0` for `w = 1`. -/
theorem C9_contact_velocity_after_n_sweeps (world : dxWorld K) (body : Nat → dxBody K)
    (nb : Nat) (_joint : Nat → dxJoint K) (nj : Nat) (h : K) (scratch : Scratch K)
    (a : Assembly K)
    (ha : assemble world body nb _joint nj scratch = some a) (hm : a.m = 1) (hnb : 0 < nb)
    (hj0 : a.jb 0 = 0) (hj1 : a.jb 1 = -1)
    (hJ : (a.packed world (1 / h)).J 0 = 0 ∧ (a.packed world (1 / h)).J 1 = 1 ∧
      (a.packed world (1 / h)).J 2 = 0 ∧ (a.packed world (1 / h)).J 3 = 0 ∧
      (a.packed world (1 / h)).J 4 = 0 ∧ (a.packed world (1 / h)).J 5 = 0)
    (hc : (a.packed world (1 / h)).c 0 = 0) (hcfm : (a.packed world (1 / h)).cfm 0 = 0)
    (hlo : (a.packed world (1 / h)).lo 0 = ((0 : K) : WithBot K))
    (hhi : (a.packed world (1 / h)).hi 0 = ⊤)
    (hk : 0 < (a.body 0).invMass) (hv : (a.body 0).lvel 1 < 0) (hf : (a.body 0).facc 1 ≤ 0)
    (hh : 0 < h) (hw0 : 0 < world.qs.w) (hw2 : world.qs.w < 2)
    (hn : 1 ≤ world.qs.num_iterations) :
    ∃ lam v, stepperLambda world body nb _joint nj h scratch = some lam ∧
      stepperVelocities world body nb _joint nj h scratch = some v ∧
      0 ≤ lam 0 ∧
      (v 0).lvel 1 = (1 - world.qs.w) ^ world.qs.num_iterations.toNat *
        ((a.body 0).lvel 1 + h * (a.body 0).invMass * (a.body 0).facc 1) ∧
      (0 ≤ (v 0).lvel 1 ↔ (1 - world.qs.w) ^ world.qs.num_iterations.toNat ≤ 0) ∧
      (world.qs.w = 1 → (v 0).lvel 1 = 0) := by
  obtain ⟨lam, v, h1, h2, h3, h4⟩ := contact_velocity world body nb _joint nj h scratch a ha hm
    hnb hj0 hj1 hJ hc hcfm hlo hhi hk hv hf hh hw0 hw2
  have hu : (a.body 0).lvel 1 + h * (a.body 0).invMass * (a.body 0).facc 1 < 0 := by
    have : h * (a.body 0).invMass * (a.body 0).facc 1 ≤ 0 :=
      mul_nonpos_of_nonneg_of_nonpos (mul_pos hh hk).le hf
    linarith
  refine ⟨lam, v, h1, h2, h3, h4, ?_, ?_⟩
  · rw [h4]
    constructor
    · intro hge
      by_contra hq
      have := mul_neg_of_pos_of_neg (not_le.mp hq) hu
      linarith
    · intro hq
      exact mul_nonneg_of_nonpos_of_nonpos hq hu.le
  · intro hw
    obtain ⟨n, hn'⟩ : ∃ n, world.qs.num_iterations.toNat = n + 1 :=
      ⟨world.qs.num_iterations.toNat - 1, by omega⟩
    rw [h4, hw, hn', sub_self, pow_succ, mul_zero, zero_mul]

/-- Claim C9 as stated fails: one body of mass 1 with `lvel = (0,-1,0)`, no
force and no gravity, the ground-normal row of `contactJoint`, `w = 1/2`,
`num_iterations = 1`, `h = 1`. The stepper ends with `lambda >= 0` but hands
the integrator `lvel.y = -1/2 < 0`. -/
theorem C9_fails_for_under_relaxation :
    (0 : ℚ) < 1 / 2 ∧ (1 / 2 : ℚ) < 2 ∧ (1 : Int) ≤ (plainWorld 1 (1 / 2)).qs.num_iterations ∧
    (0 : ℚ) < (fallingBody 0).mass ∧ (fallingBody 0).lvel 1 < 0 ∧
    ∃ lam v, stepperLambda (plainWorld 1 (1 / 2)) fallingBody 1 contactJoint 1 1 zeroScratch
        = some lam ∧
      stepperVelocities (plainWorld 1 (1 / 2)) fallingBody 1 contactJoint 1 1 zeroScratch
        = some v ∧
      (v 0).lvel 1 = -1 / 2 ∧ ¬ (0 ≤ lam 0 ∧ 0 ≤ (v 0).lvel 1) := by
  obtain ⟨lam, v, h1, h2, _, h4⟩ := contact_example 1 (1 / 2) 1 (by norm_num) (by norm_num)
    (by norm_num)
  have e : (v 0).lvel 1 = -1 / 2 := by
    rw [h4]
    norm_num
  refine ⟨by norm_num, by norm_num, by decide, by simp [fallingBody, unitBody],
    by simp [fallingBody, unitBody], lam, v, h1, h2, e, ?_⟩
  rw [e]
  norm_num

/-- Witness for C9: the concrete contact with `w = 1`, one iteration and
`h = 1`. -/
theorem C9_contact_velocity_after_n_sweeps_witness :
    ∃ lam v, stepperLambda (plainWorld 1 1) fallingBody 1 contactJoint 1 1 zeroScratch
        = some lam ∧
      stepperVelocities (plainWorld 1 1) fallingBody 1 contactJoint 1 1 zeroScratch = some v ∧
      0 ≤ lam 0 ∧
      (v 0).lvel 1 = (1 - (plainWorld 1 1).qs.w) ^ (plainWorld 1 1).qs.num_iterations.toNat *
        (((oneJointAssembly (plainWorld 1 1) fallingBody 1 contactJoint zeroScratch).body 0).lvel 1
          + 1 * ((oneJointAssembly (plainWorld 1 1) fallingBody 1 contactJoint
              zeroScratch).body 0).invMass *
            ((oneJointAssembly (plainWorld 1 1) fallingBody 1 contactJoint
              zeroScratch).body 0).facc 1) ∧
      (0 ≤ (v 0).lvel 1 ↔
        (1 - (plainWorld 1 1).qs.w) ^ (plainWorld 1 1).qs.num_iterations.toNat ≤ 0) ∧
      ((plainWorld 1 1).qs.w = 1 → (v 0).lvel 1 = 0) :=
  C9_contact_velocity_after_n_sweeps (plainWorld 1 1) fallingBody 1 contactJoint 1 1 zeroScratch
    (oneJointAssembly (plainWorld 1 1) fallingBody 1 contactJoint zeroScratch)
    (assemble_one_joint _ _ _ _ _ (by decide)) rfl (by decide) (contact_jb 1 1).1
    (contact_jb 1 1).2 (by rw [(contact_packed 1 1 1).1]; simp) (contact_packed 1 1 1).2.1
    (contact_packed 1 1 1).2.2.1 (contact_packed 1 1 1).2.2.2.1 (contact_packed 1 1 1).2.2.2.2
    (by rw [(contact_body 1 1).1]; norm_num) (by rw [(contact_body 1 1).2.1]; norm_num)
    (by rw [(contact_body 1 1).2.2]) (by norm_num) (by simp [plainWorld])
    (by simp [plainWorld]) (by decide)

theorem iMJ_lin1 (p : SORInput K) (k c : Nat) (hk : k < p.m) (hc : c < 3) :
    p.iMJ (k * 12 + c) = p.invMass (p.jb (k * 2)).toNat * p.J (k * 12 + c) := by
  have e1 : (k * 12 + c) / 12 = k := by omega
  have e2 : (k * 12 + c) % 12 = c := by omega
  simp only [SORInput.iMJ, computeIMJ, e1, e2, if_pos hk, if_pos hc]

theorem iMJ_ang1 (p : SORInput K) (k c : Nat) (hk : k < p.m) (hc : c < 3) :
    p.iMJ (k * 12 + (3 + c)) =
      dMULTIPLY0_331 p.invI (12 * (p.jb (k * 2)).toNat) p.J (k * 12 + 3) c := by
  have e1 : (k * 12 + (3 + c)) / 12 = k := by omega
  have e2 : (k * 12 + (3 + c)) % 12 = 3 + c := by omega
  have h1 : ¬ 3 + c < 3 := by omega
  have h2 : 3 + c < 6 := by omega
  have e3 : 3 + c - 3 = c := by omega
  simp only [SORInput.iMJ, computeIMJ, e1, e2, if_pos hk, if_neg h1, if_pos h2, e3]

theorem iMJ_lin2 (p : SORInput K) (k c : Nat) (hk : k < p.m) (hb : 0 ≤ p.jb (k * 2 + 1))
    (hc : c < 3) :
    p.iMJ (k * 12 + 6 + c) = p.invMass (p.jb (k * 2 + 1)).toNat * p.J (k * 12 + (6 + c)) := by
  have e1 : (k * 12 + 6 + c) / 12 = k := by omega
  have e2 : (k * 12 + 6 + c) % 12 = 6 + c := by omega
  have h1 : ¬ 6 + c < 3 := by omega
  have h2 : ¬ 6 + c < 6 := by omega
  have h3 : 6 + c < 9 := by omega
  simp only [SORInput.iMJ, computeIMJ, e1, e2, if_pos hk, if_neg h1, if_neg h2, if_pos hb,
    if_pos h3]

theorem iMJ_ang2 (p : SORInput K) (k c : Nat) (hk : k < p.m) (hb : 0 ≤ p.jb (k * 2 + 1))
    (hc : c < 3) :
    p.iMJ (k * 12 + 6 + (3 + c)) =
      dMULTIPLY0_331 p.invI (12 * (p.jb (k * 2 + 1)).toNat) p.J (k * 12 + 9) c := by
  have e1 : (k * 12 + 6 + (3 + c)) / 12 = k := by omega
  have e2 : (k * 12 + 6 + (3 + c)) % 12 = 9 + c := by omega
  have h1 : ¬ 9 + c < 3 := by omega
  have h2 : ¬ 9 + c < 6 := by omega
  have h3 : ¬ 9 + c < 9 := by omega
  have e3 : 9 + c - 9 = c := by omega
  simp only [SORInput.iMJ, computeIMJ, e1, e2, if_pos hk, if_neg h1, if_neg h2, if_pos hb,
    if_neg h3, e3]

/-- The accumulator blocks of a pair of bodies joined by all the rows. -/
theorem acc_pair (p : SORInput K) (b1 b2 : Nat) (hne : b1 ≠ b2) (hb1 : b1 < p.nb)
    (hb2 : b2 < p.nb)
    (hrows : ∀ k, k < p.m → p.jb (k * 2) = (b1 : Int) ∧ p.jb (k * 2 + 1) = (b2 : Int))
    (n : Nat) (j : Nat) (hj : j < 6) :
    (p.after n).fc (6 * b1 + j) =
        ∑ k ∈ Finset.range p.m, (p.after n).lambda k * p.iMJ (k * 12 + j) ∧
      (p.after n).fc (6 * b2 + j) =
        ∑ k ∈ Finset.range p.m, (p.after n).lambda k * p.iMJ (k * 12 + 6 + j) := by
  have hinv := accInv_after p (fun k hk => by rw [(hrows k hk).1]; omega) n
  constructor
  · rw [hinv b1 hb1 j hj]
    have s2 : (∑ k ∈ Finset.range p.m, if p.jb (k * 2 + 1) = (b1 : Int) then
        (p.after n).lambda k * p.iMJ (k * 12 + 6 + j) else 0) = 0 := by
      apply Finset.sum_eq_zero
      intro k hk
      have := (hrows k (Finset.mem_range.mp hk)).2
      rw [if_neg (by omega)]
    rw [s2, add_zero]
    apply Finset.sum_congr rfl
    intro k hk
    rw [if_pos (hrows k (Finset.mem_range.mp hk)).1]
  · rw [hinv b2 hb2 j hj]
    have s1 : (∑ k ∈ Finset.range p.m, if p.jb (k * 2) = (b2 : Int) then
        (p.after n).lambda k * p.iMJ (k * 12 + j) else 0) = 0 := by
      apply Finset.sum_eq_zero
      intro k hk
      have := (hrows k (Finset.mem_range.mp hk)).1
      rw [if_neg (by omega)]
    rw [s1, zero_add]
    apply Finset.sum_congr rfl
    intro k hk
    rw [if_pos (hrows k (Finset.mem_range.mp hk)).2]

/-- Linear momentum: the mass-weighted linear accumulator blocks cancel. -/
theorem momentum_linear (p : SORInput K) (b1 b2 : Nat) (hne : b1 ≠ b2) (hb1 : b1 < p.nb)
    (hb2 : b2 < p.nb)
    (hrows : ∀ k, k < p.m → p.jb (k * 2) = (b1 : Int) ∧ p.jb (k * 2 + 1) = (b2 : Int))
    (hJ : ∀ k, k < p.m → ∀ j, j < 6 → p.J (k * 12 + (6 + j)) = -p.J (k * 12 + j))
    (mass1 mass2 : K) (hm1 : mass1 ≠ 0) (hm2 : mass2 ≠ 0) (hi1 : p.invMass b1 = 1 / mass1)
    (hi2 : p.invMass b2 = 1 / mass2) (n j : Nat) (hj : j < 3) :
    mass1 * (p.after n).fc (6 * b1 + j) + mass2 * (p.after n).fc (6 * b2 + j) = 0 := by
  obtain ⟨e1, e2⟩ := acc_pair p b1 b2 hne hb1 hb2 hrows n j (by omega)
  rw [e1, e2, Finset.mul_sum, Finset.mul_sum, ← Finset.sum_add_distrib]
  apply Finset.sum_eq_zero
  intro k hk
  have hk' := Finset.mem_range.mp hk
  have r1 := (hrows k hk').1
  have r2 := (hrows k hk').2
  have t1 : (p.jb (k * 2)).toNat = b1 := by omega
  have t2 : (p.jb (k * 2 + 1)).toNat = b2 := by omega
  rw [iMJ_lin1 p k j hk' hj, iMJ_lin2 p k j hk' (by omega) hj, t1, t2, hi1, hi2,
    hJ k hk' j (by omega)]
  field_simp
  ring

/-- Angular momentum: the inertia-weighted angular accumulator blocks cancel. -/
theorem momentum_angular (p : SORInput K) (b1 b2 : Nat) (hne : b1 ≠ b2) (hb1 : b1 < p.nb)
    (hb2 : b2 < p.nb)
    (hrows : ∀ k, k < p.m → p.jb (k * 2) = (b1 : Int) ∧ p.jb (k * 2 + 1) = (b2 : Int))
    (hJ : ∀ k, k < p.m → ∀ j, j < 6 → p.J (k * 12 + (6 + j)) = -p.J (k * 12 + j))
    (I1 I2 : Nat → K)
    (hI1 : ∀ r c, r < 3 → c < 3 →
      dMULTIPLY0_333 I1 (viewFrom p.invI (12 * b1)) (4 * r + c) = if r = c then 1 else 0)
    (hI2 : ∀ r c, r < 3 → c < 3 →
      dMULTIPLY0_333 I2 (viewFrom p.invI (12 * b2)) (4 * r + c) = if r = c then 1 else 0)
    (n r : Nat) (hr : r < 3) :
    dMULTIPLY0_331 I1 0 (p.after n).fc (6 * b1 + 3) r +
      dMULTIPLY0_331 I2 0 (p.after n).fc (6 * b2 + 3) r = 0 := by
  have a0 := acc_pair p b1 b2 hne hb1 hb2 hrows n 3 (by omega)
  have a1 := acc_pair p b1 b2 hne hb1 hb2 hrows n 4 (by omega)
  have a2 := acc_pair p b1 b2 hne hb1 hb2 hrows n 5 (by omega)
  simp only [dMULTIPLY0_331, Nat.add_assoc, Nat.reduceAdd, a0.1, a0.2, a1.1, a1.2, a2.1, a2.2,
    Finset.mul_sum, ← Finset.sum_add_distrib]
  apply Finset.sum_eq_zero
  intro k hk
  have hk' := Finset.mem_range.mp hk
  have r1 := (hrows k hk').1
  have r2 := (hrows k hk').2
  have t1 : (p.jb (k * 2)).toNat = b1 := by omega
  have t2 : (p.jb (k * 2 + 1)).toNat = b2 := by omega
  have hb : 0 ≤ p.jb (k * 2 + 1) := by omega
  have i0 := iMJ_ang1 p k 0 hk' (by omega)
  have i1 := iMJ_ang1 p k 1 hk' (by omega)
  have i2 := iMJ_ang1 p k 2 hk' (by omega)
  have j0 := iMJ_ang2 p k 0 hk' hb (by omega)
  have j1 := iMJ_ang2 p k 1 hk' hb (by omega)
  have j2 := iMJ_ang2 p k 2 hk' hb (by omega)
  simp only [Nat.reduceAdd, Nat.add_assoc] at i0 i1 i2 j0 j1 j2
  rw [i0, i1, i2, j0, j1, j2, t1, t2]
  have n0 := hJ k hk' 3 (by omega)
  have n1 := hJ k hk' 4 (by omega)
  have n2 := hJ k hk' 5 (by omega)
  simp only [Nat.reduceAdd] at n0 n1 n2
  simp only [dMULTIPLY0_331, Nat.add_assoc, Nat.reduceAdd, n0, n1, n2, Nat.add_zero]
  have A0 := hI1 r 0 hr (by omega)
  have A1 := hI1 r 1 hr (by omega)
  have A2 := hI1 r 2 hr (by omega)
  have B0 := hI2 r 0 hr (by omega)
  have B1 := hI2 r 1 hr (by omega)
  have B2 := hI2 r 2 hr (by omega)
  have d0 : (4 * r) / 4 = r := by omega
  have d1 : (4 * r + 1) / 4 = r := by omega
  have d2 : (4 * r + 2) / 4 = r := by omega
  have m0 : (4 * r) % 4 = 0 := by omega
  have m1 : (4 * r + 1) % 4 = 1 := by omega
  have m2 : (4 * r + 2) % 4 = 2 := by omega
  simp only [dMULTIPLY0_333, viewFrom, d0, d1, d2, m0, m1, m2, Nat.add_zero, Nat.zero_add,
    Nat.reduceAdd, Nat.add_assoc] at A0 A1 A2 B0 B1 B2
  simp only [Nat.zero_add, Nat.add_zero, Nat.reduceMul, Nat.reduceAdd]
  linear_combination
    ((p.after n).lambda k * p.J (k * 12 + 3)) * A0 +
    ((p.after n).lambda k * p.J (k * 12 + 4)) * A1 +
    ((p.after n).lambda k * p.J (k * 12 + 5)) * A2 -
    ((p.after n).lambda k * p.J (k * 12 + 3)) * B0 -
    ((p.after n).lambda k * p.J (k * 12 + 4)) * B1 -
    ((p.after n).lambda k * p.J (k * 12 + 5)) * B2

theorem addConstraintForce_lvel (nb : Nat) (h : K) (cforce : Nat → K) (body : Nat → dxBody K)
    (b j : Nat) (hb : b < nb) (hj : j < 3) :
    (addConstraintForce nb h cforce body b).lvel j - (body b).lvel j = h * cforce (6 * b + j) := by
  simp only [addConstraintForce, if_pos hb, if_pos hj, mul_comm b 6]
  ring

theorem addConstraintForce_avel (nb : Nat) (h : K) (cforce : Nat → K) (body : Nat → dxBody K)
    (b j : Nat) (hb : b < nb) (hj : j < 3) :
    (addConstraintForce nb h cforce body b).avel j - (body b).avel j =
      h * cforce (6 * b + 3 + j) := by
  simp only [addConstraintForce, if_pos hb, if_pos hj, mul_comm b 6]
  ring

/-- Claim C10. For two distinct bodies `b1`, `b2` of the body array with
`invMass = 1/mass` and the global inverse inertia `invI` inverse to `I1`, `I2`,
joined by all the rows, each with body-2 Jacobian block the negation of the
body-1 block: after every sweep and at return
`mass_1*fc[b1][0..3] + mass_2*fc[b2][0..3] = 0` and
`I1*fc[b1][3..6] + I2*fc[b2][3..6] = 0`, and the velocity change
`stepsize * cforce` made by the stepper changes the total linear and angular
momentum of the pair by zero. -/
theorem C10_constraint_impulse_conserves_momentum (p : SORInput K) (b1 b2 : Nat)
    (hne : b1 ≠ b2) (hb1 : b1 < p.nb) (hb2 : b2 < p.nb)
    (hrows : ∀ k, k < p.m → p.jb (2 * k) = (b1 : Int) ∧ p.jb (2 * k + 1) = (b2 : Int))
    (hJ : ∀ k, k < p.m → ∀ j, j < 6 → p.J (12 * k + 6 + j) = -p.J (12 * k + j))
    (mass1 mass2 : K) (hm1 : mass1 ≠ 0) (hm2 : mass2 ≠ 0) (hi1 : p.invMass b1 = 1 / mass1)
    (hi2 : p.invMass b2 = 1 / mass2) (I1 I2 : Nat → K)
    (hI1 : ∀ r c, r < 3 → c < 3 →
      dMULTIPLY0_333 I1 (viewFrom p.invI (12 * b1)) (4 * r + c) = if r = c then 1 else 0)
    (hI2 : ∀ r c, r < 3 → c < 3 →
      dMULTIPLY0_333 I2 (viewFrom p.invI (12 * b2)) (4 * r + c) = if r = c then 1 else 0) :
    (∀ n,
      (∀ j, j < 3 →
        mass1 * (p.after n).fc (6 * b1 + j) + mass2 * (p.after n).fc (6 * b2 + j) = 0) ∧
      (∀ r, r < 3 →
        dMULTIPLY0_331 I1 0 (p.after n).fc (6 * b1 + 3) r +
          dMULTIPLY0_331 I2 0 (p.after n).fc (6 * b2 + 3) r = 0)) ∧
    ((∀ j, j < 3 →
        mass1 * (SOR_LCP p).fc (6 * b1 + j) + mass2 * (SOR_LCP p).fc (6 * b2 + j) = 0) ∧
      (∀ r, r < 3 →
        dMULTIPLY0_331 I1 0 (SOR_LCP p).fc (6 * b1 + 3) r +
          dMULTIPLY0_331 I2 0 (SOR_LCP p).fc (6 * b2 + 3) r = 0)) ∧
    (∀ (stepsize : K) (body : Nat → dxBody K),
      (∀ j, j < 3 →
        mass1 * ((addConstraintForce p.nb stepsize (SOR_LCP p).fc body b1).lvel j -
            (body b1).lvel j) +
          mass2 * ((addConstraintForce p.nb stepsize (SOR_LCP p).fc body b2).lvel j -
            (body b2).lvel j) = 0) ∧
      (∀ r, r < 3 →
        dMULTIPLY0_331 I1 0
            (fun t => (addConstraintForce p.nb stepsize (SOR_LCP p).fc body b1).avel t -
              (body b1).avel t) 0 r +
          dMULTIPLY0_331 I2 0
            (fun t => (addConstraintForce p.nb stepsize (SOR_LCP p).fc body b2).avel t -
              (body b2).avel t) 0 r = 0)) := by
  have hrows' : ∀ k, k < p.m → p.jb (k * 2) = (b1 : Int) ∧ p.jb (k * 2 + 1) = (b2 : Int) := by
    intro k hk
    rw [mul_comm k 2]
    exact hrows k hk
  have hJ' : ∀ k, k < p.m → ∀ j, j < 6 → p.J (k * 12 + (6 + j)) = -p.J (k * 12 + j) := by
    intro k hk j hj
    rw [mul_comm k 12, ← Nat.add_assoc]
    exact hJ k hk j hj
  have lin : ∀ n j, j < 3 →
      mass1 * (p.after n).fc (6 * b1 + j) + mass2 * (p.after n).fc (6 * b2 + j) = 0 :=
    fun n j hj => momentum_linear p b1 b2 hne hb1 hb2 hrows' hJ' mass1 mass2 hm1 hm2 hi1 hi2 n j hj
  have ang : ∀ n r, r < 3 →
      dMULTIPLY0_331 I1 0 (p.after n).fc (6 * b1 + 3) r +
        dMULTIPLY0_331 I2 0 (p.after n).fc (6 * b2 + 3) r = 0 :=
    fun n r hr => momentum_angular p b1 b2 hne hb1 hb2 hrows' hJ' I1 I2 hI1 hI2 n r hr
  refine ⟨fun n => ⟨lin n, ang n⟩, ⟨lin _, ang _⟩, ?_⟩
  intro stepsize body
  constructor
  · intro j hj
    rw [addConstraintForce_lvel p.nb stepsize _ body b1 j hb1 hj,
      addConstraintForce_lvel p.nb stepsize _ body b2 j hb2 hj]
    have := lin p.num_iterations.toNat j hj
    have e : SOR_LCP p = p.after p.num_iterations.toNat := rfl
    rw [e]
    linear_combination stepsize * this
  · intro r hr
    have := ang p.num_iterations.toNat r hr
    have e : SOR_LCP p = p.after p.num_iterations.toNat := rfl
    rw [e]
    simp only [dMULTIPLY0_331] at this ⊢
    rw [addConstraintForce_avel p.nb stepsize _ body b1 (0 + 0) hb1 (by omega),
      addConstraintForce_avel p.nb stepsize _ body b1 (0 + 1) hb1 (by omega),
      addConstraintForce_avel p.nb stepsize _ body b1 (0 + 2) hb1 (by omega),
      addConstraintForce_avel p.nb stepsize _ body b2 (0 + 0) hb2 (by omega),
      addConstraintForce_avel p.nb stepsize _ body b2 (0 + 1) hb2 (by omega),
      addConstraintForce_avel p.nb stepsize _ body b2 (0 + 2) hb2 (by omega)]
    simp only [Nat.zero_add, Nat.add_zero] at this ⊢
    linear_combination stepsize * this

theorem rodSolverInput_diag :
    (if 0 ≤ rodSolverInput.jb 1 then
        ∑ j ∈ Finset.range 12, rodSolverInput.iMJ j * rodSolverInput.J j
      else ∑ j ∈ Finset.range 6, rodSolverInput.iMJ j * rodSolverInput.J j) = 2 := by
  have h : (0 : Int) ≤ rodSolverInput.jb 1 := by decide
  rw [if_pos h]
  simp only [Finset.sum_range_succ, Finset.sum_range_zero, SORInput.iMJ, computeIMJ,
    dMULTIPLY0_331, rodSolverInput]
  norm_num

/-- Witness for C7 on `rodSolverInput`. -/
theorem C7_single_unbounded_row_witness :
    (SOR_LCP rodSolverInput).lambda 0 =
      rodSolverInput.b 0 /
        (if 0 ≤ rodSolverInput.jb 1 then
          ∑ j ∈ Finset.range 12, rodSolverInput.iMJ j * rodSolverInput.J j
        else ∑ j ∈ Finset.range 6, rodSolverInput.iMJ j * rodSolverInput.J j) :=
  C7_single_unbounded_row rodSolverInput rfl rfl rfl rfl rfl rfl (by decide) (by decide)
    (by rw [rodSolverInput_diag]; norm_num)

theorem rodSolverInput_inertia (b r c : Nat) (hr : r < 3) (hc : c < 3) :
    dMULTIPLY0_333 identity3 (viewFrom rodSolverInput.invI (12 * b)) (4 * r + c) =
      if r = c then 1 else 0 := by
  have e : ∀ t, (12 * b + t) % 12 = t % 12 := by intro t; omega
  have d : (4 * r + c) / 4 = r := by omega
  have m : (4 * r + c) % 4 = c := by omega
  simp only [dMULTIPLY0_333, viewFrom, rodSolverInput, e, d, m]
  interval_cases r <;> interval_cases c <;> simp [identity3]

/-- Witness for C10 on `rodSolverInput`: the x-components of the two linear
accumulator blocks cancel. -/
theorem C10_constraint_impulse_conserves_momentum_witness :
    (1 : ℚ) * (SOR_LCP rodSolverInput).fc (6 * 0 + 0) +
      (1 : ℚ) * (SOR_LCP rodSolverInput).fc (6 * 1 + 0) = 0 :=
  (C10_constraint_impulse_conserves_momentum rodSolverInput 0 1 (by decide) (by decide)
    (by decide)
    (fun k hk => by
      have hk0 : k = 0 := by
        have : k < 1 := hk
        omega
      subst hk0
      exact ⟨by decide, by decide⟩)
    (fun k hk j hj => by
      have hk0 : k = 0 := by
        have : k < 1 := hk
        omega
      subst hk0
      simp only [rodSolverInput]
      interval_cases j <;> simp)
    1 1 one_ne_zero one_ne_zero (by simp [rodSolverInput]) (by simp [rodSolverInput])
    identity3 identity3 (fun r c hr hc => rodSolverInput_inertia 0 r c hr hc)
    (fun r c hr hc => rodSolverInput_inertia 1 r c hr hc)).2.1.1 0 (by decide)

theorem SOR_LCP_zero_iterations (p : SORInput K) (hn : p.num_iterations = 0) :
    SOR_LCP p = p.init := by
  simp only [SOR_LCP, hn]
  rfl

/-- What `assemble` returns, when it returns. -/
theorem assemble_fields (world : dxWorld K) (body : Nat → dxBody K) (nb : Nat)
    (_joint : Nat → dxJoint K) (nj : Nat) (scratch : Scratch K) (a : Assembly K)
    (ha : assemble world body nb _joint nj scratch = some a) :
    ∃ st, info1Pass _joint nj scratch.info = some st ∧
      a.body = addGravity nb world.gravity (addRotationalForce nb (setTags nb body)) ∧
      a.invI = computeInvI (setTags nb body) ∧ a.joint = st.joint ∧ a.info = st.info ∧
      a.nj = st.i ∧ a.ofs = (ofsPass st.i st.info).1 ∧ a.m = (ofsPass st.i st.info).2 := by
  simp only [assemble] at ha
  cases h : info1Pass _joint nj scratch.info with
  | none => rw [h] at ha; simp at ha
  | some st =>
    rw [h] at ha
    simp only [Option.map_some', Option.some.injEq] at ha
    subst ha
    exact ⟨st, rfl, rfl, rfl, rfl, rfl, rfl, rfl, rfl⟩

theorem stepperVelocities_eq (world : dxWorld K) (body : Nat → dxBody K) (nb : Nat)
    (_joint : Nat → dxJoint K) (nj : Nat) (stepsize : K) (scratch : Scratch K) (a : Assembly K)
    (ha : assemble world body nb _joint nj scratch = some a) :
    stepperVelocities world body nb _joint nj stepsize scratch =
      some (velocityUpdate nb stepsize a.invI
        (if 0 < a.m then
          addConstraintForce nb stepsize
            (SOR_LCP (a.sorInput world nb (1 / stepsize) scratch)).fc a.body
        else a.body)) := by
  simp only [stepperVelocities, ha, Option.map_some']

theorem velocityUpdate_lvel (nb : Nat) (h : K) (invI : Nat → K) (body : Nat → dxBody K)
    (i j : Nat) (hi : i < nb) (hj : j < 3) :
    (velocityUpdate nb h invI body i).lvel j =
      (body i).lvel j + h * (body i).invMass * (body i).facc j := by
  simp only [velocityUpdate, if_pos hi, if_pos hj]

theorem velocityUpdate_avel (nb : Nat) (h : K) (invI : Nat → K) (body : Nat → dxBody K)
    (i j : Nat) (hi : i < nb) (hj : j < 3) :
    (velocityUpdate nb h invI body i).avel j =
      (body i).avel j +
        dMULTIPLY0_331 invI (i * 12) (fun t => h * (body i).tacc t) 0 j := by
  simp only [velocityUpdate, if_pos hi, if_pos hj, dMULTIPLY0_331, Nat.zero_add,
    show (0 : Nat) < 3 from by decide, show (1 : Nat) < 3 from by decide,
    show (2 : Nat) < 3 from by decide, if_true, mul_comm h]

/-- Adding a constraint force that is zero on the blocks of the body array
changes no velocity component. -/
theorem addConstraintForce_zero (nb : Nat) (h : K) (cforce : Nat → K) (body : Nat → dxBody K)
    (hz : ∀ b, b < nb → ∀ j, j < 6 → cforce (6 * b + j) = 0) (i : Nat) :
    (addConstraintForce nb h cforce body i).lvel = (body i).lvel ∧
    (addConstraintForce nb h cforce body i).avel = (body i).avel ∧
    (addConstraintForce nb h cforce body i).invMass = (body i).invMass ∧
    (addConstraintForce nb h cforce body i).facc = (body i).facc ∧
    (addConstraintForce nb h cforce body i).tacc = (body i).tacc := by
  by_cases hi : i < nb
  · simp only [addConstraintForce, if_pos hi, and_true]
    constructor
    · funext j
      by_cases hj : j < 3
      · have := hz i hi j (by omega)
        rw [mul_comm 6 i] at this
        rw [if_pos hj, this, mul_zero, add_zero]
      · rw [if_neg hj]
    · funext j
      by_cases hj : j < 3
      · have := hz i hi (3 + j) (by omega)
        rw [mul_comm 6 i, ← Nat.add_assoc] at this
        rw [if_pos hj, this, mul_zero, add_zero]
      · rw [if_neg hj]
  · simp only [addConstraintForce, if_neg hi, and_self]

/-- Claim C11. With `num_iterations = 0`, for every `m`, `J`, `rhs`, bounds and
`findex`, `SOR_LCP` returns `lambda[i] = 0` for all rows `i < m` and
`fc[b][j] = 0` for all bodies `b < nb`; and the velocities the stepper then
hands to the body integrator are `lvel + h*invMass*facc` and
`avel + invI*(h*tacc)`, with the accumulators as they stand after the
rotational force and gravity were added. -/
theorem C11_zero_iterations (world : dxWorld K) (body : Nat → dxBody K) (nb : Nat)
    (_joint : Nat → dxJoint K) (nj : Nat) (stepsize : K) (scratch : Scratch K) :
    (∀ p : SORInput K, p.num_iterations = 0 →
      (∀ i, i < p.m → (SOR_LCP p).lambda i = 0) ∧
      (∀ b j, b < p.nb → j < 6 → (SOR_LCP p).fc (6 * b + j) = 0)) ∧
    (∀ a, assemble world body nb _joint nj scratch = some a → world.qs.num_iterations = 0 →
      ∃ v, stepperVelocities world body nb _joint nj stepsize scratch = some v ∧
        ∀ i j, i < nb → j < 3 →
          (v i).lvel j =
            (addGravity nb world.gravity (addRotationalForce nb (setTags nb body)) i).lvel j +
              stepsize *
                (addGravity nb world.gravity (addRotationalForce nb (setTags nb body)) i).invMass *
                (addGravity nb world.gravity (addRotationalForce nb (setTags nb body)) i).facc j ∧
          (v i).avel j =
            (addGravity nb world.gravity (addRotationalForce nb (setTags nb body)) i).avel j +
              dMULTIPLY0_331 (computeInvI (setTags nb body)) (i * 12)
                (fun t => stepsize *
                  (addGravity nb world.gravity
                    (addRotationalForce nb (setTags nb body)) i).tacc t) 0 j) := by
  have hsol : ∀ p : SORInput K, p.num_iterations = 0 →
      (∀ i, i < p.m → (SOR_LCP p).lambda i = 0) ∧
      (∀ b j, b < p.nb → j < 6 → (SOR_LCP p).fc (6 * b + j) = 0) := by
    intro p hn
    rw [SOR_LCP_zero_iterations p hn]
    exact ⟨fun i hi => init_lambda p i hi, fun b j hb hj => init_fc_block p b j hb hj⟩
  refine ⟨hsol, ?_⟩
  intro a ha hn
  obtain ⟨st, _, hbody, hinvI, _⟩ := assemble_fields world body nb _joint nj scratch a ha
  refine ⟨_, stepperVelocities_eq world body nb _joint nj stepsize scratch a ha, ?_⟩
  intro i j hi hj
  rw [velocityUpdate_lvel _ _ _ _ i j hi hj, velocityUpdate_avel _ _ _ _ i j hi hj,
    ← hbody, ← hinvI]
  by_cases hm : 0 < a.m
  · rw [if_pos hm]
    obtain ⟨e1, e2, e3, e4, e5⟩ := addConstraintForce_zero nb stepsize
      (SOR_LCP (a.sorInput world nb (1 / stepsize) scratch)).fc a.body
      (fun b hb j hj => (hsol (a.sorInput world nb (1 / stepsize) scratch) hn).2 b j hb hj) i
    rw [e1, e2, e3, e4, e5]
    exact ⟨rfl, rfl⟩
  · rw [if_neg hm]
    exact ⟨rfl, rfl⟩

/-- The fields of an assembled body that the velocity update reads, in terms
of the body passed in. -/
theorem assembled_body_linear (nb : Nat) (gravity : Nat → K) (body : Nat → dxBody K)
    (i j : Nat) (hi : i < nb) (hj : j < 3) :
    (addGravity nb gravity (addRotationalForce nb (setTags nb body)) i).lvel = (body i).lvel ∧
    (addGravity nb gravity (addRotationalForce nb (setTags nb body)) i).invMass =
      (body i).invMass ∧
    (addGravity nb gravity (addRotationalForce nb (setTags nb body)) i).facc j =
      (body i).facc j + (if (body i).noGravity = true then 0 else (body i).mass * gravity j) := by
  simp only [addGravity, addRotationalForce, setTags, if_pos hi]
  cases hg : (body i).noGravity
  · simp [hj]
  · simp

/-- The assembly of a system without joints. -/
theorem assemble_no_joint (world : dxWorld K) (body : Nat → dxBody K) (nb : Nat)
    (_joint : Nat → dxJoint K) (scratch : Scratch K) :
    ∃ a, assemble world body nb _joint 0 scratch = some a ∧ a.m = 0 := by
  refine ⟨_, rfl, rfl⟩

theorem velocity_without_rows (world : dxWorld K) (body : Nat → dxBody K) (nb : Nat)
    (_joint : Nat → dxJoint K) (nj : Nat) (stepsize : K) (scratch : Scratch K) (a : Assembly K)
    (ha : assemble world body nb _joint nj scratch = some a) (hm : a.m = 0) :
    ∃ v, stepperVelocities world body nb _joint nj stepsize scratch = some v ∧
      ∀ i j, i < nb → j < 3 →
        (v i).lvel j = (body i).lvel j + stepsize * (body i).invMass *
          ((body i).facc j +
            (if (body i).noGravity = true then 0 else (body i).mass * world.gravity j)) := by
  obtain ⟨st, _, hbody, _⟩ := assemble_fields world body nb _joint nj scratch a ha
  refine ⟨_, stepperVelocities_eq world body nb _joint nj stepsize scratch a ha, ?_⟩
  intro i j hi hj
  have h0 : ¬ 0 < a.m := by omega
  obtain ⟨e1, e2, e3⟩ := assembled_body_linear nb world.gravity body i j hi hj
  rw [velocityUpdate_lvel _ _ _ _ i j hi hj, if_neg h0, hbody, e1, e2, e3]

/-- Claim C16. When there are no active constraint rows (`m = 0`), the linear
velocity the stepper hands to the body integrator is
`lvel + h*invMass*(facc + mass*gravity)`, the gravity term being left out
exactly when the no-gravity flag of the body is set; for S1 (one body,
`mass = invMass = 1`, zero initial velocity, force and torque, gravity
`(0, -9.81, 0)`, `h = 0.01`, no joints) this is `lvel = (0, -0.0981, 0)`. -/
theorem C16_free_body_velocity :
    (∀ (world : dxWorld K) (body : Nat → dxBody K) (nb : Nat) (_joint : Nat → dxJoint K)
      (nj : Nat) (stepsize : K) (scratch : Scratch K) (a : Assembly K),
      assemble world body nb _joint nj scratch = some a → a.m = 0 →
      ∃ v, stepperVelocities world body nb _joint nj stepsize scratch = some v ∧
        ∀ i j, i < nb → j < 3 →
          (v i).lvel j = (body i).lvel j + stepsize * (body i).invMass *
            ((body i).facc j +
              (if (body i).noGravity = true then 0 else (body i).mass * world.gravity j))) ∧
    (∀ (_joint : Nat → dxJoint ℚ) (scratch : Scratch ℚ),
      ∃ v, stepperVelocities fallWorld restBody 1 _joint 0 (1 / 100) scratch = some v ∧
        (v 0).lvel 0 = 0 ∧ (v 0).lvel 1 = -981 / 10000 ∧ (v 0).lvel 2 = 0) := by
  constructor
  · intro world body nb _joint nj stepsize scratch a ha hm
    exact velocity_without_rows world body nb _joint nj stepsize scratch a ha hm
  · intro _joint scratch
    obtain ⟨a, ha, hm⟩ := assemble_no_joint fallWorld restBody 1 _joint scratch
    obtain ⟨v, hv, h⟩ := velocity_without_rows fallWorld restBody 1 _joint 0 (1 / 100) scratch a
      ha hm
    refine ⟨v, hv, ?_, ?_, ?_⟩
    · rw [h 0 0 (by decide) (by decide)]
      norm_num [restBody, unitBody, fallWorld]
    · rw [h 0 1 (by decide) (by decide)]
      norm_num [restBody, unitBody, fallWorld]
    · rw [h 0 2 (by decide) (by decide)]
      norm_num [restBody, unitBody, fallWorld]

/-- Witness for C16: scenario S1 through the general statement. -/
theorem C16_free_body_velocity_witness :
    ∃ v, stepperVelocities fallWorld restBody 1 rodJoint 0 (1 / 100) zeroScratch = some v ∧
      ∀ i j, i < 1 → j < 3 →
        (v i).lvel j = (restBody i).lvel j + 1 / 100 * (restBody i).invMass *
          ((restBody i).facc j +
            (if (restBody i).noGravity = true then 0
              else (restBody i).mass * fallWorld.gravity j)) :=
  (C16_free_body_velocity (K := ℚ)).1 fallWorld restBody 1 rodJoint 0 (1 / 100) zeroScratch _ rfl
    rfl

/-- Witness for C11: the contact system with `num_iterations = 0`; the body
keeps `lvel.y = -1`. -/
theorem C11_zero_iterations_witness :
    ∃ v, stepperVelocities (plainWorld 0 1) fallingBody 1 contactJoint 1 1 zeroScratch = some v ∧
      (v 0).lvel 1 = -1 := by
  obtain ⟨v, hv, h⟩ := (C11_zero_iterations (plainWorld 0 1) fallingBody 1 contactJoint 1 1
    zeroScratch).2 _ (assemble_one_joint _ _ _ _ _ (by decide)) rfl
  refine ⟨v, hv, ?_⟩
  obtain ⟨e1, e2, e3⟩ := assembled_body_linear 1 (plainWorld 0 1).gravity fallingBody 0 1
    (by decide) (by decide)
  rw [(h 0 1 (by decide) (by decide)).1, e1, e2, e3]
  norm_num [fallingBody, unitBody, plainWorld]

theorem info1Pass_prefix_eq (_joint : Nat → dxJoint K) (nj : Nat) (info0 : Nat → Info1) :
    info1Pass _joint nj info0 = info1Prefix _joint info0 nj := rfl

theorem info1Prefix_succ (_joint : Nat → dxJoint K) (info0 : Nat → Info1) (n : Nat) :
    info1Prefix _joint info0 (n + 1) =
      (info1Prefix _joint info0 n).bind (fun s => info1Step s n) := by
  simp only [info1Prefix, List.range_succ, List.foldl_append, List.foldl_cons, List.foldl_nil]

theorem survivors_succ (_joint : Nat → dxJoint K) (n : Nat) :
    survivors _joint (n + 1) =
      survivors _joint n ++ (if 0 < (_joint n).getInfo1.m then [_joint n] else []) := by
  simp only [survivors, List.range_succ, List.map_append, List.map_cons, List.map_nil,
    List.filter_append, List.filter_cons, List.filter_nil]
  by_cases h : 0 < (_joint n).getInfo1.m <;> simp [h]

/-- The state of the `getInfo1` loop after `n` joints that all pass the
assertion: the first `i` places of `joint` and `info` hold the survivors and
their answers, and the places from `n` on are as in the input. -/
theorem info1Prefix_spec (_joint : Nat → dxJoint K) (info0 : Nat → Info1) (n : Nat)
    (hin : ∀ j, j < n → (_joint j).getInfo1.inRange) :
    ∃ st, info1Prefix _joint info0 n = some st ∧
      st.i = (survivors _joint n).length ∧ st.i ≤ n ∧
      (∀ k, k < st.i → (survivors _joint n)[k]? = some (st.joint k) ∧
        st.info k = (st.joint k).getInfo1) ∧
      (∀ k, n ≤ k → st.joint k = _joint k) := by
  induction n with
  | zero =>
    refine ⟨_, rfl, rfl, le_refl _, ?_, ?_⟩
    · intro k hk
      exact absurd hk (Nat.not_lt_zero k)
    · intro k _
      rfl
  | succ n ih =>
    obtain ⟨st, hst, hi, hle, hsur, hrest⟩ := ih (fun j hj => hin j (by omega))
    have hjn : st.joint n = _joint n := hrest n (le_refl n)
    have hr : 0 ≤ (_joint n).getInfo1.m ∧ (_joint n).getInfo1.m ≤ 6 ∧
        0 ≤ (_joint n).getInfo1.nub ∧ (_joint n).getInfo1.nub ≤ (_joint n).getInfo1.m :=
      hin n (by omega)
    rw [info1Prefix_succ, hst, Option.some_bind, survivors_succ]
    simp only [info1Step, Function.update_same, hjn]
    rw [if_pos hr]
    by_cases hm : 0 < (_joint n).getInfo1.m
    · rw [if_pos hm, if_pos hm]
      refine ⟨_, rfl, ?_, ?_, ?_, ?_⟩
      · simp only [List.length_append, List.length_singleton, hi]
      · show st.i + 1 ≤ n + 1
        omega
      · intro k hk
        have hk' : k < st.i + 1 := hk
        by_cases hks : k < st.i
        · have hne : k ≠ st.i := by omega
          simp only [Function.update_noteq hne]
          rw [List.getElem?_append_left (by rw [← hi]; exact hks)]
          exact hsur k hks
        · have hke : k = st.i := by omega
          subst hke
          simp only [Function.update_same]
          rw [List.getElem?_append_right (by rw [← hi]), ← hi, Nat.sub_self]
          simp
      · intro k hk
        have hne : k ≠ st.i := by omega
        simp only [Function.update_noteq hne]
        exact hrest k (by omega)
    · rw [if_neg hm, if_neg hm, List.append_nil]
      refine ⟨_, rfl, hi, ?_, ?_, ?_⟩
      · show st.i ≤ n + 1
        omega
      · intro k hk
        have hk' : k < st.i := hk
        have hne : k ≠ st.i := by omega
        simp only [Function.update_noteq hne]
        exact hsur k hk'
      · intro k hk
        exact hrest k (by omega)

/-- The `getInfo1` loop fails as soon as one joint fails the assertion. -/
theorem info1Prefix_none (_joint : Nat → dxJoint K) (info0 : Nat → Info1) (n : Nat)
    (hbad : ∃ j, j < n ∧ ¬ (_joint j).getInfo1.inRange) :
    info1Prefix _joint info0 n = none := by
  induction n with
  | zero =>
    obtain ⟨j, hj, _⟩ := hbad
    exact absurd hj (Nat.not_lt_zero j)
  | succ n ih =>
    rw [info1Prefix_succ]
    by_cases hall : ∀ j, j < n → (_joint j).getInfo1.inRange
    · obtain ⟨st, hst, _, _, _, hrest⟩ := info1Prefix_spec _joint info0 n hall
      obtain ⟨j, hj, hjbad⟩ := hbad
      have hjn : j = n := by
        by_contra hne
        exact hjbad (hall j (by omega))
      subst hjn
      have hjj : st.joint j = _joint j := hrest j (le_refl j)
      rw [hst, Option.some_bind]
      simp only [info1Step, Function.update_same, hjj]
      have hjbad' : ¬ (0 ≤ (_joint j).getInfo1.m ∧ (_joint j).getInfo1.m ≤ 6 ∧
          0 ≤ (_joint j).getInfo1.nub ∧ (_joint j).getInfo1.nub ≤ (_joint j).getInfo1.m) :=
        hjbad
      rw [if_neg hjbad']
    · have : ∃ j, j < n ∧ ¬ (_joint j).getInfo1.inRange := by
        by_contra hc
        apply hall
        intro j hj
        by_contra hj2
        exact hc ⟨j, hj, hj2⟩
      rw [ih this]
      rfl

theorem rowsBefore_succ (info : Nat → Info1) (k : Nat) :
    rowsBefore info (k + 1) = rowsBefore info k + (info k).m.toNat := by
  simp only [rowsBefore, Finset.sum_range_succ]

theorem rowsBefore_mono (info : Nat → Info1) (k n : Nat) (h : k ≤ n) :
    rowsBefore info k ≤ rowsBefore info n := by
  induction n with
  | zero =>
    have : k = 0 := by omega
    rw [this]
  | succ n ih =>
    by_cases hk : k ≤ n
    · rw [rowsBefore_succ]
      have := ih hk
      omega
    · have : k = n + 1 := by omega
      rw [this]

theorem ofsPass_succ (n : Nat) (info : Nat → Info1) :
    ofsPass (n + 1) info =
      (Function.update (ofsPass n info).1 n (ofsPass n info).2,
        (ofsPass n info).2 + (info n).m.toNat) := by
  simp only [ofsPass, List.range_succ, List.foldl_append, List.foldl_cons, List.foldl_nil]

/-- The offset loop: `m` is the number of rows of all the joints and `ofs[k]`
the number of rows of the joints before `k`. -/
theorem ofsPass_spec (n : Nat) (info : Nat → Info1) :
    (ofsPass n info).2 = rowsBefore info n ∧
      ∀ k, k < n → (ofsPass n info).1 k = rowsBefore info k := by
  induction n with
  | zero =>
    refine ⟨rfl, ?_⟩
    intro k hk
    exact absurd hk (Nat.not_lt_zero k)
  | succ n ih =>
    rw [ofsPass_succ, rowsBefore_succ]
    refine ⟨by rw [ih.1], ?_⟩
    intro k hk
    by_cases hkn : k = n
    · subst hkn
      simp only [Function.update_same]
      exact ih.1
    · simp only [Function.update_noteq hkn]
      exact ih.2 k (by omega)

/-- Every row below the total belongs to the range of one joint. -/
theorem row_owner_exists (info : Nat → Info1) (n r : Nat) (hr : r < rowsBefore info n) :
    ∃ k, k < n ∧ rowsBefore info k ≤ r ∧ r < rowsBefore info k + (info k).m.toNat := by
  induction n with
  | zero =>
    simp [rowsBefore] at hr
  | succ n ih =>
    by_cases h : r < rowsBefore info n
    · obtain ⟨k, hk, h1, h2⟩ := ih h
      exact ⟨k, by omega, h1, h2⟩
    · rw [rowsBefore_succ] at hr
      exact ⟨n, by omega, by omega, hr⟩

/-- The row ranges of two different joints do not overlap. -/
theorem row_owner_unique (info : Nat → Info1) (k1 k2 r : Nat)
    (h1 : rowsBefore info k1 ≤ r ∧ r < rowsBefore info k1 + (info k1).m.toNat)
    (h2 : rowsBefore info k2 ≤ r ∧ r < rowsBefore info k2 + (info k2).m.toNat) : k1 = k2 := by
  by_contra hne
  rcases Nat.lt_or_gt_of_ne hne with h | h
  · have := rowsBefore_mono info (k1 + 1) k2 (by omega)
    rw [rowsBefore_succ] at this
    omega
  · have := rowsBefore_mono info (k2 + 1) k1 (by omega)
    rw [rowsBefore_succ] at this
    omega

theorem rowsBefore_le (info : Nat → Info1) (n : Nat) (h : ∀ k, k < n → (info k).m ≤ 6) :
    rowsBefore info n ≤ 6 * n := by
  induction n with
  | zero => simp [rowsBefore]
  | succ n ih =>
    rw [rowsBefore_succ]
    have h1 := ih (fun k hk => h k (by omega))
    have h2 := h n (by omega)
    omega

theorem survivor_is_input (_joint : Nat → dxJoint K) (n k : Nat) (x : dxJoint K)
    (h : (survivors _joint n)[k]? = some x) :
    ∃ j, j < n ∧ _joint j = x ∧ 0 < x.getInfo1.m := by
  have hmem : x ∈ survivors _joint n := List.getElem?_mem h
  simp only [survivors, List.mem_filter, List.mem_map, List.mem_range, decide_eq_true_eq] at hmem
  obtain ⟨⟨j, hj, hjx⟩, hm⟩ := hmem
  exact ⟨j, hj, hjx, hm⟩

theorem assemble_eq_none_iff (world : dxWorld K) (body : Nat → dxBody K) (nb : Nat)
    (_joint : Nat → dxJoint K) (nj : Nat) (scratch : Scratch K) :
    assemble world body nb _joint nj scratch = none ↔
      ∃ j, j < nj ∧ ¬ (_joint j).getInfo1.inRange := by
  simp only [assemble, Option.map_eq_none', info1Pass_prefix_eq]
  constructor
  · intro h
    by_contra hc
    have hall : ∀ j, j < nj → (_joint j).getInfo1.inRange := by
      intro j hj
      by_contra hj2
      exact hc ⟨j, hj, hj2⟩
    obtain ⟨st, hst, _⟩ := info1Prefix_spec _joint scratch.info nj hall
    rw [h] at hst
    exact Option.noConfusion hst
  · intro h
    exact info1Prefix_none _joint scratch.info nj h

/-- The working arrays of an assembly hold the survivors and their answers. -/
theorem assemble_survivors (world : dxWorld K) (body : Nat → dxBody K) (nb : Nat)
    (_joint : Nat → dxJoint K) (nj : Nat) (scratch : Scratch K) (a : Assembly K)
    (ha : assemble world body nb _joint nj scratch = some a) :
    (∀ j, j < nj → (_joint j).getInfo1.inRange) ∧
    a.nj = (survivors _joint nj).length ∧ a.nj ≤ nj ∧
    (∀ k, k < a.nj → (survivors _joint nj)[k]? = some (a.joint k) ∧
      a.info k = (a.joint k).getInfo1) ∧
    a.m = rowsBefore a.info a.nj ∧ (∀ k, k < a.nj → a.ofs k = rowsBefore a.info k) := by
  have hall : ∀ j, j < nj → (_joint j).getInfo1.inRange := by
    intro j hj
    by_contra hj2
    have := (assemble_eq_none_iff world body nb _joint nj scratch).mpr ⟨j, hj, hj2⟩
    rw [ha] at this
    exact Option.noConfusion this
  obtain ⟨st, hst, hi, hle, hsur, _⟩ := info1Prefix_spec _joint scratch.info nj hall
  obtain ⟨st2, hst2, _, _, hj, hinfo, hnj, hofs, hm⟩ :=
    assemble_fields world body nb _joint nj scratch a ha
  rw [info1Pass_prefix_eq, hst] at hst2
  have e : st = st2 := Option.some.inj hst2
  subst e
  have hspec := ofsPass_spec st.i st.info
  refine ⟨hall, by rw [hnj, hi], by rw [hnj]; exact hle, ?_, ?_, ?_⟩
  · intro k hk
    rw [hj, hinfo]
    exact hsur k (by rw [← hnj]; exact hk)
  · rw [hm, hinfo, hnj]
    exact hspec.1
  · intro k hk
    rw [hofs, hinfo]
    exact hspec.2 k (by rw [← hnj]; exact hk)

/-- Claim C17. For every joint list, the `getInfo1` assertion of the stepper
fails if and only if some joint reports `m < 0`, `m > 6`, `nub < 0` or
`nub > m`; when it does not fail, `0 <= nub[i] <= m[i] <= 6` holds for every
surviving joint and the row count satisfies `m <= 6*nj`, for the new `nj` and
so for the one passed in. -/
theorem C17_info1_assertion (world : dxWorld K) (body : Nat → dxBody K) (nb : Nat)
    (_joint : Nat → dxJoint K) (nj : Nat) (scratch : Scratch K) :
    (assemble world body nb _joint nj scratch = none ↔
      ∃ j, j < nj ∧ ((_joint j).getInfo1.m < 0 ∨ 6 < (_joint j).getInfo1.m ∨
        (_joint j).getInfo1.nub < 0 ∨ (_joint j).getInfo1.m < (_joint j).getInfo1.nub)) ∧
    (∀ stepsize, stepperVelocities world body nb _joint nj stepsize scratch = none ↔
      ∃ j, j < nj ∧ ((_joint j).getInfo1.m < 0 ∨ 6 < (_joint j).getInfo1.m ∨
        (_joint j).getInfo1.nub < 0 ∨ (_joint j).getInfo1.m < (_joint j).getInfo1.nub)) ∧
    (∀ a, assemble world body nb _joint nj scratch = some a →
      (∀ k, k < a.nj → 0 ≤ (a.info k).nub ∧ (a.info k).nub ≤ (a.info k).m ∧ (a.info k).m ≤ 6) ∧
      a.m ≤ 6 * a.nj ∧ a.m ≤ 6 * nj) := by
  have hiff : (∃ j, j < nj ∧ ¬ (_joint j).getInfo1.inRange) ↔
      ∃ j, j < nj ∧ ((_joint j).getInfo1.m < 0 ∨ 6 < (_joint j).getInfo1.m ∨
        (_joint j).getInfo1.nub < 0 ∨ (_joint j).getInfo1.m < (_joint j).getInfo1.nub) := by
    constructor
    · rintro ⟨j, hj, h⟩
      refine ⟨j, hj, ?_⟩
      simp only [Info1.inRange] at h
      omega
    · rintro ⟨j, hj, h⟩
      refine ⟨j, hj, ?_⟩
      simp only [Info1.inRange]
      omega
  have h1 := assemble_eq_none_iff world body nb _joint nj scratch
  refine ⟨h1.trans hiff, ?_, ?_⟩
  · intro stepsize
    have : stepperVelocities world body nb _joint nj stepsize scratch = none ↔
        assemble world body nb _joint nj scratch = none := by
      simp only [stepperVelocities, Option.map_eq_none']
    exact this.trans (h1.trans hiff)
  · intro a ha
    obtain ⟨hall, _, hle, hsur, hm, _⟩ := assemble_survivors world body nb _joint nj scratch a ha
    have hr : ∀ k, k < a.nj → (a.info k).inRange := by
      intro k hk
      obtain ⟨h1, h2⟩ := hsur k hk
      obtain ⟨j, hj, hjx, _⟩ := survivor_is_input _joint nj k _ h1
      rw [h2, ← hjx]
      exact hall j hj
    have hm6 : a.m ≤ 6 * a.nj := by
      rw [hm]
      exact rowsBefore_le a.info a.nj (fun k hk => (hr k hk).2.1)
    refine ⟨fun k hk => ⟨(hr k hk).2.2.1, (hr k hk).2.2.2, (hr k hk).2.1⟩, hm6, ?_⟩
    omega

theorem rowsBefore_cast (info : Nat → Info1) (n : Nat) (h : ∀ k, k < n → 0 ≤ (info k).m) :
    ((rowsBefore info n : Nat) : Int) = ∑ i ∈ Finset.range n, (info i).m := by
  induction n with
  | zero => simp [rowsBefore]
  | succ n ih =>
    rw [rowsBefore_succ, Finset.sum_range_succ, ← ih (fun k hk => h k (by omega))]
    have := h n (by omega)
    push_cast
    omega

theorem foldl_push_pair (b1 b2 : Int) (m : Nat) (jb : List Int) :
    (List.range m).foldl (fun jb _ => jb ++ [b1, b2]) jb =
      jb ++ (List.replicate m [b1, b2]).flatten := by
  induction m with
  | zero => simp
  | succ m ih =>
    rw [List.range_succ, List.foldl_append, ih, List.replicate_succ', List.flatten_append]
    simp

theorem jbPass_succ (body : Nat → dxBody K) (joint : Nat → dxJoint K) (n : Nat)
    (info : Nat → Info1) :
    jbPass body joint (n + 1) info =
      jbPass body joint n info ++
        (List.replicate (info n).m.toNat
          [nodeTag body (joint n).node0, nodeTag body (joint n).node1]).flatten := by
  simp only [jbPass, List.range_succ, List.foldl_append, List.foldl_cons, List.foldl_nil,
    foldl_push_pair]

theorem length_replicate_pair (b1 b2 : Int) (m : Nat) :
    (List.replicate m [b1, b2]).flatten.length = 2 * m := by
  induction m with
  | zero => rfl
  | succ m ih =>
    rw [List.replicate_succ, List.flatten_cons, List.length_append, ih]
    simp only [List.length_cons, List.length_nil]
    omega

theorem getElem?_replicate_pair (b1 b2 : Int) (m j : Nat) (hj : j < m) :
    (List.replicate m [b1, b2]).flatten[2 * j]? = some b1 ∧
      (List.replicate m [b1, b2]).flatten[2 * j + 1]? = some b2 := by
  induction m generalizing j with
  | zero => exact absurd hj (Nat.not_lt_zero j)
  | succ m ih =>
    rw [List.replicate_succ, List.flatten_cons]
    cases j with
    | zero => exact ⟨by simp, by simp⟩
    | succ j =>
      have e1 : 2 * (j + 1) = 2 * j + 2 := by omega
      have e2 : 2 * j + 2 + 1 = 2 * j + 1 + 2 := by omega
      have := ih j (by omega)
      rw [e1, e2, List.getElem?_append_right (by simp), List.getElem?_append_right (by simp)]
      simpa using this

/-- The number of entries that the `jb` loops write. -/
theorem length_jbPass (body : Nat → dxBody K) (joint : Nat → dxJoint K) (n : Nat)
    (info : Nat → Info1) : (jbPass body joint n info).length = 2 * rowsBefore info n := by
  induction n with
  | zero => rfl
  | succ n ih =>
    rw [jbPass_succ, List.length_append, ih, length_replicate_pair, rowsBefore_succ]
    omega

/-- The entries that the `jb` loops write for local row `j` of joint `k`. -/
theorem getElem?_jbPass (body : Nat → dxBody K) (joint : Nat → dxJoint K) (n : Nat)
    (info : Nat → Info1) (k j : Nat) (hk : k < n) (hj : j < (info k).m.toNat) :
    (jbPass body joint n info)[2 * (rowsBefore info k + j)]? =
        some (nodeTag body (joint k).node0) ∧
      (jbPass body joint n info)[2 * (rowsBefore info k + j) + 1]? =
        some (nodeTag body (joint k).node1) := by
  induction n with
  | zero => exact absurd hk (Nat.not_lt_zero k)
  | succ n ih =>
    rw [jbPass_succ]
    by_cases hkn : k < n
    · have hlen := length_jbPass body joint n info
      have hmono := rowsBefore_mono info (k + 1) n (by omega)
      rw [rowsBefore_succ] at hmono
      rw [List.getElem?_append_left (by omega), List.getElem?_append_left (by omega)]
      exact ih hkn
    · have hkn' : k = n := by omega
      subst hkn'
      have hlen := length_jbPass body joint k info
      rw [List.getElem?_append_right (by omega), List.getElem?_append_right (by omega), hlen]
      have e1 : 2 * (rowsBefore info k + j) - 2 * rowsBefore info k = 2 * j := by omega
      have e2 : 2 * (rowsBefore info k + j) + 1 - 2 * rowsBefore info k = 2 * j + 1 := by omega
      rw [e1, e2]
      exact getElem?_replicate_pair _ _ _ j hj

theorem nodeTag_assembled (world : dxWorld K) (body : Nat → dxBody K) (nb : Nat)
    (x : Nat) (hx : x < nb) :
    nodeTag (addGravity nb world.gravity (addRotationalForce nb (setTags nb body))) (some x) =
      (x : Int) :=
  tag_assembled world body nb x hx

/-- Claim C13. After the offset loop of the stepper the row count `m` is the sum
of `m[i]` over the surviving joints and `ofs[k]` the sum of `m[i]` for `i < k`;
the row ranges `[ofs[k], ofs[k]+m[k])` appear in joint order without overlap,
lie below `m` and every row `r < m` lies in exactly one of them; and the `jb`
loops write two entries for each of the `m` rows. -/
theorem C13_row_offsets (world : dxWorld K) (body : Nat → dxBody K) (nb : Nat)
    (_joint : Nat → dxJoint K) (nj : Nat) (scratch : Scratch K) (a : Assembly K)
    (ha : assemble world body nb _joint nj scratch = some a) :
    (a.m : Int) = ∑ i ∈ Finset.range a.nj, (a.info i).m ∧
    (∀ k, k < a.nj → (a.ofs k : Int) = ∑ i ∈ Finset.range k, (a.info i).m) ∧
    (∀ k1 k2, k1 < k2 → k2 < a.nj → a.ofs k1 + (a.info k1).m.toNat ≤ a.ofs k2) ∧
    (∀ k, k < a.nj → a.ofs k + (a.info k).m.toNat ≤ a.m) ∧
    (∀ r, r < a.m → ∃ k, k < a.nj ∧ a.ofs k ≤ r ∧ r < a.ofs k + (a.info k).m.toNat) ∧
    (∀ r k1 k2, k1 < a.nj → k2 < a.nj →
      (a.ofs k1 ≤ r ∧ r < a.ofs k1 + (a.info k1).m.toNat) →
      (a.ofs k2 ≤ r ∧ r < a.ofs k2 + (a.info k2).m.toNat) → k1 = k2) ∧
    (jbPass a.body a.joint a.nj a.info).length = 2 * a.m := by
  obtain ⟨hall, _, _, hsur, hm, hofs⟩ := assemble_survivors world body nb _joint nj scratch a ha
  have hr : ∀ k, k < a.nj → 0 ≤ (a.info k).m := by
    intro k hk
    obtain ⟨h1, h2⟩ := hsur k hk
    obtain ⟨j, hj, hjx, _⟩ := survivor_is_input _joint nj k _ h1
    rw [h2, ← hjx]
    exact (hall j hj).1
  refine ⟨?_, ?_, ?_, ?_, ?_, ?_, ?_⟩
  · rw [hm]
    exact rowsBefore_cast a.info a.nj hr
  · intro k hk
    rw [hofs k hk]
    exact rowsBefore_cast a.info k (fun i hi => hr i (by omega))
  · intro k1 k2 h12 h2
    rw [hofs k1 (by omega), hofs k2 h2, ← rowsBefore_succ]
    exact rowsBefore_mono a.info (k1 + 1) k2 (by omega)
  · intro k hk
    rw [hofs k hk, hm, ← rowsBefore_succ]
    exact rowsBefore_mono a.info (k + 1) a.nj (by omega)
  · intro r hr'
    rw [hm] at hr'
    obtain ⟨k, hk, h1, h2⟩ := row_owner_exists a.info a.nj r hr'
    exact ⟨k, hk, by rw [hofs k hk]; exact h1, by rw [hofs k hk]; exact h2⟩
  · intro r k1 k2 h1 h2 r1 r2
    rw [hofs k1 h1] at r1
    rw [hofs k2 h2] at r2
    exact row_owner_unique a.info k1 k2 r r1 r2
  · rw [length_jbPass, hm]

/-- Witness for C13: the rod system has one joint with one row at offset 0. -/
theorem C13_row_offsets_witness :
    ((oneJointAssembly (plainWorld 1 1) rodBody 2 rodJoint zeroScratch).m : Int) =
      ∑ i ∈ Finset.range (oneJointAssembly (plainWorld 1 1) rodBody 2 rodJoint zeroScratch).nj,
        ((oneJointAssembly (plainWorld 1 1) rodBody 2 rodJoint zeroScratch).info i).m :=
  (C13_row_offsets (plainWorld 1 1) rodBody 2 rodJoint 1 zeroScratch _
    (assemble_one_joint _ _ _ _ _ (by decide))).1

/-- Witness for C17: the rod system passes the assertion with `m <= 6*nj`. -/
theorem C17_info1_assertion_witness :
    (oneJointAssembly (plainWorld 1 1) rodBody 2 rodJoint zeroScratch).m ≤
      6 * (oneJointAssembly (plainWorld 1 1) rodBody 2 rodJoint zeroScratch).nj :=
  ((C17_info1_assertion (plainWorld 1 1) rodBody 2 rodJoint 1 zeroScratch).2.2 _
    (assemble_one_joint _ _ _ _ _ (by decide))).2.1

theorem nodeTag_eq_nodeIndex (world : dxWorld K) (body : Nat → dxBody K) (nb : Nat)
    (node : Option Nat) (h : ∀ x, node = some x → x < nb) :
    nodeTag (addGravity nb world.gravity (addRotationalForce nb (setTags nb body))) node =
      nodeIndex node := by
  cases node with
  | none => rfl
  | some x => exact nodeTag_assembled world body nb x (h x rfl)

theorem nodeIndex_nonneg_iff (node : Option Nat) : 0 ≤ nodeIndex node ↔ node ≠ none := by
  cases node with
  | none => simp [nodeIndex]
  | some x => simp [nodeIndex]

theorem jb_of_getElem? (a : Assembly K) (idx : Nat) (v : Int)
    (h : (jbPass a.body a.joint a.nj a.info)[idx]? = some v) : a.jb idx = v := by
  simp only [Assembly.jb, List.getD_eq_getElem?_getD, h, Option.getD_some]

/-- Claim C14. Provided every body a surviving joint attaches to is in the body
array of the stepper: for every row `r = ofs[k] + j` of surviving joint `k`,
`jb[2r]` and `jb[2r+1]` are the array indices (tags) of the first and second
body of that joint, `jb[2r+1] >= 0` holds if and only if joint `k` has a second
body and it is -1 otherwise; exactly `2*m` entries are written (the assertion
`jb_ptr == jb+2*m`); and every non-negative entry is `< nb`. -/
theorem C14_body_numbers (world : dxWorld K) (body : Nat → dxBody K) (nb : Nat)
    (_joint : Nat → dxJoint K) (nj : Nat) (scratch : Scratch K) (a : Assembly K)
    (ha : assemble world body nb _joint nj scratch = some a)
    (hbodies : ∀ k, k < a.nj → (∀ x, (a.joint k).node0 = some x → x < nb) ∧
      (∀ x, (a.joint k).node1 = some x → x < nb)) :
    (jbPass a.body a.joint a.nj a.info).length = 2 * a.m ∧
    (∀ k j, k < a.nj → j < (a.info k).m.toNat →
      a.jb (2 * (a.ofs k + j)) = nodeIndex (a.joint k).node0 ∧
      a.jb (2 * (a.ofs k + j) + 1) = nodeIndex (a.joint k).node1 ∧
      (0 ≤ a.jb (2 * (a.ofs k + j) + 1) ↔ (a.joint k).node1 ≠ none) ∧
      ((a.joint k).node1 = none → a.jb (2 * (a.ofs k + j) + 1) = -1)) ∧
    (∀ idx, idx < 2 * a.m → 0 ≤ a.jb idx → a.jb idx < (nb : Int)) := by
  obtain ⟨_, _, _, _, hm, hofs⟩ := assemble_survivors world body nb _joint nj scratch a ha
  obtain ⟨_, _, hbody, _⟩ := assemble_fields world body nb _joint nj scratch a ha
  have hrow : ∀ k j, k < a.nj → j < (a.info k).m.toNat →
      a.jb (2 * (a.ofs k + j)) = nodeIndex (a.joint k).node0 ∧
      a.jb (2 * (a.ofs k + j) + 1) = nodeIndex (a.joint k).node1 := by
    intro k j hk hj
    obtain ⟨g1, g2⟩ := getElem?_jbPass a.body a.joint a.nj a.info k j hk hj
    rw [hofs k hk, jb_of_getElem? a _ _ g1, jb_of_getElem? a _ _ g2, hbody,
      nodeTag_eq_nodeIndex world body nb _ (hbodies k hk).1,
      nodeTag_eq_nodeIndex world body nb _ (hbodies k hk).2]
    exact ⟨rfl, rfl⟩
  have hlt : ∀ node : Option Nat, (∀ x, node = some x → x < nb) → 0 ≤ nodeIndex node →
      nodeIndex node < (nb : Int) := by
    intro node h _
    cases node with
    | none => simp [nodeIndex]; omega
    | some x =>
      have := h x rfl
      simp only [nodeIndex]
      omega
  refine ⟨by rw [length_jbPass, hm], ?_, ?_⟩
  · intro k j hk hj
    obtain ⟨e1, e2⟩ := hrow k j hk hj
    refine ⟨e1, e2, ?_, ?_⟩
    · rw [e2]
      exact nodeIndex_nonneg_iff _
    · intro hn
      rw [e2, hn]
      rfl
  · intro idx hidx hpos
    have hr : idx / 2 < rowsBefore a.info a.nj := by rw [← hm]; omega
    obtain ⟨k, hk, h1, h2⟩ := row_owner_exists a.info a.nj (idx / 2) hr
    obtain ⟨e1, e2⟩ := hrow k (idx / 2 - rowsBefore a.info k) hk (by omega)
    have eo : a.ofs k + (idx / 2 - rowsBefore a.info k) = idx / 2 := by
      rw [hofs k hk]; omega
    rw [eo] at e1 e2
    rcases Nat.mod_two_eq_zero_or_one idx with h0 | h0
    · have : 2 * (idx / 2) = idx := by omega
      rw [this] at e1
      rw [e1] at hpos ⊢
      exact hlt _ (hbodies k hk).1 hpos
    · have : 2 * (idx / 2) + 1 = idx := by omega
      rw [this] at e2
      rw [e2] at hpos ⊢
      exact hlt _ (hbodies k hk).2 hpos

/-- Witness for C14: the rod system, whose joint attaches to bodies 0 and 1. -/
theorem C14_body_numbers_witness :
    (oneJointAssembly (plainWorld 1 1) rodBody 2 rodJoint zeroScratch).jb 0 < ((2 : Nat) : Int) :=
  (C14_body_numbers (plainWorld 1 1) rodBody 2 rodJoint 1 zeroScratch _
    (assemble_one_joint _ _ _ _ _ (by decide))
    (fun k hk => by
      have hk0 : k = 0 := by
        have : k < 1 := hk
        omega
      subst hk0
      constructor
      · intro x hx
        have : x = 0 := by
          have h0 : (some 0 : Option Nat) = some x := hx
          exact (Option.some.inj h0).symm
        omega
      · intro x hx
        have : x = 1 := by
          have h0 : (some 1 : Option Nat) = some x := hx
          exact (Option.some.inj h0).symm
        omega)).2.2 0 (by decide) (by rw [(rod_jb 1).1])

theorem foldl_range_congr {σ : Type} (f g : σ → Nat → σ) (n : Nat)
    (h : ∀ s i, i < n → f s i = g s i) (s0 : σ) :
    (List.range n).foldl f s0 = (List.range n).foldl g s0 := by
  induction n with
  | zero => rfl
  | succ n ih =>
    rw [List.range_succ, List.foldl_append, List.foldl_append,
      ih (fun s i hi => h s i (by omega))]
    simp only [List.foldl_cons, List.foldl_nil]
    exact h _ n (by omega)

theorem ofsPass_congr (n : Nat) (info info2 : Nat → Info1)
    (h : ∀ k, k < n → info k = info2 k) : ofsPass n info = ofsPass n info2 := by
  simp only [ofsPass]
  apply foldl_range_congr
  intro s i hi
  rw [h i hi]

theorem info2Pass_congr (fps erp cfm : K) (joint joint2 : Nat → dxJoint K) (n : Nat)
    (info info2 : Nat → Info1) (ofs : Nat → Nat)
    (h : ∀ k, k < n → joint k = joint2 k ∧ info k = info2 k) :
    info2Pass fps erp cfm joint n info ofs = info2Pass fps erp cfm joint2 n info2 ofs := by
  simp only [info2Pass]
  apply foldl_range_congr
  intro s i hi
  simp only [info2Step, (h i hi).1, (h i hi).2]

theorem jbPass_congr (body : Nat → dxBody K) (joint joint2 : Nat → dxJoint K) (n : Nat)
    (info info2 : Nat → Info1) (h : ∀ k, k < n → joint k = joint2 k ∧ info k = info2 k) :
    jbPass body joint n info = jbPass body joint2 n info2 := by
  simp only [jbPass]
  apply foldl_range_congr
  intro s i hi
  simp only [(h i hi).1, (h i hi).2]

/-- Two assemblies with the same bodies and the same working arrays below `nj`
lead to the same call of `SOR_LCP`. -/
theorem sorInput_congr (a a2 : Assembly K) (world : dxWorld K) (nb : Nat) (fps : K)
    (scratch : Scratch K) (hbody : a.body = a2.body) (hinvI : a.invI = a2.invI)
    (hnj : a.nj = a2.nj) (hm : a.m = a2.m) (hofs : a.ofs = a2.ofs)
    (h : ∀ k, k < a.nj → a.joint k = a2.joint k ∧ a.info k = a2.info k) :
    a.packed world fps = a2.packed world fps ∧ a.jb = a2.jb ∧
      a.sorInput world nb fps scratch = a2.sorInput world nb fps scratch := by
  have hp : a.packed world fps = a2.packed world fps := by
    simp only [Assembly.packed]
    rw [← hnj, ← hofs]
    exact info2Pass_congr _ _ _ _ _ _ _ _ _ h
  have hj : a.jb = a2.jb := by
    funext idx
    simp only [Assembly.jb]
    rw [← hnj, ← hbody, jbPass_congr a.body a.joint a2.joint a.nj a.info a2.info h]
  refine ⟨hp, hj, ?_⟩
  simp only [Assembly.sorInput, hp, hj, hbody, hinvI, hm]

theorem survivors_filtered (_joint _joint2 : Nat → dxJoint K) (nj nj2 : Nat)
    (hfil : (List.range nj2).map _joint2 =
      ((List.range nj).map _joint).filter (fun j => decide (j.getInfo1.m ≠ 0))) :
    survivors _joint2 nj2 = survivors _joint nj := by
  simp only [survivors, hfil, List.filter_filter]
  apply List.filter_congr
  intro x _
  by_cases h : 0 < x.getInfo1.m
  · have : x.getInfo1.m ≠ 0 := by omega
    simp [h, this]
  · simp [h]

/-- Dropping the joints with `m = 0` from a joint list that passes the
assertion changes nothing that the stepper computes. -/
theorem drop_idle_joints (world : dxWorld K) (body : Nat → dxBody K) (nb : Nat)
    (_joint _joint2 : Nat → dxJoint K) (nj nj2 : Nat) (stepsize : K) (scratch : Scratch K)
    (hin : ∀ j, j < nj → (_joint j).getInfo1.inRange)
    (hfil : (List.range nj2).map _joint2 =
      ((List.range nj).map _joint).filter (fun j => decide (j.getInfo1.m ≠ 0))) :
    ∃ a a2, assemble world body nb _joint nj scratch = some a ∧
      assemble world body nb _joint2 nj2 scratch = some a2 ∧
      (List.range a.nj).map a.joint =
        ((List.range nj).map _joint).filter (fun j => decide (0 < j.getInfo1.m)) ∧
      (∀ k, k < a.nj → a.info k = (a.joint k).getInfo1) ∧
      a.m = a2.m ∧ (∀ fps, a.packed world fps = a2.packed world fps) ∧ a.jb = a2.jb ∧
      stepperVelocities world body nb _joint nj stepsize scratch =
        stepperVelocities world body nb _joint2 nj2 stepsize scratch := by
  have hin2 : ∀ j, j < nj2 → (_joint2 j).getInfo1.inRange := by
    intro j hj
    have hmem : _joint2 j ∈ (List.range nj2).map _joint2 :=
      List.mem_map.mpr ⟨j, List.mem_range.mpr hj, rfl⟩
    rw [hfil] at hmem
    obtain ⟨i, hi, hij⟩ := List.mem_map.mp (List.mem_filter.mp hmem).1
    rw [← hij]
    exact hin i (List.mem_range.mp hi)
  have hsome : ∀ (jt : Nat → dxJoint K) (n : Nat), (∀ j, j < n → (jt j).getInfo1.inRange) →
      ∃ a, assemble world body nb jt n scratch = some a := by
    intro jt n h
    cases hc : assemble world body nb jt n scratch with
    | none =>
      obtain ⟨j, hj, hbad⟩ := (assemble_eq_none_iff world body nb jt n scratch).mp hc
      exact absurd (h j hj) hbad
    | some a => exact ⟨a, rfl⟩
  obtain ⟨a, ha⟩ := hsome _joint nj hin
  obtain ⟨a2, ha2⟩ := hsome _joint2 nj2 hin2
  obtain ⟨_, hnj, _, hsur, hm, hofs⟩ := assemble_survivors world body nb _joint nj scratch a ha
  obtain ⟨_, hnj2, _, hsur2, hm2, hofs2⟩ :=
    assemble_survivors world body nb _joint2 nj2 scratch a2 ha2
  obtain ⟨st, _, hbody, hinvI, _, _, _, hofsP, _⟩ :=
    assemble_fields world body nb _joint nj scratch a ha
  obtain ⟨st2, _, hbody2, hinvI2, _, _, _, hofsP2, _⟩ :=
    assemble_fields world body nb _joint2 nj2 scratch a2 ha2
  have hse := survivors_filtered _joint _joint2 nj nj2 hfil
  rw [hse] at hnj2 hsur2
  have hnjeq : a.nj = a2.nj := by rw [hnj, hnj2]
  have hagree : ∀ k, k < a.nj → a.joint k = a2.joint k ∧ a.info k = a2.info k := by
    intro k hk
    obtain ⟨s1, i1⟩ := hsur k hk
    obtain ⟨s2, i2⟩ := hsur2 k (by rw [← hnjeq]; exact hk)
    have e : a.joint k = a2.joint k := Option.some.inj (s1.symm.trans s2)
    exact ⟨e, by rw [i1, i2, e]⟩
  have hbeq : a.body = a2.body := by rw [hbody, hbody2]
  have hieq : a.invI = a2.invI := by rw [hinvI, hinvI2]
  have hmeq : a.m = a2.m := by
    rw [hm, hm2, ← hnjeq]
    simp only [rowsBefore]
    apply Finset.sum_congr rfl
    intro i hi
    rw [(hagree i (Finset.mem_range.mp hi)).2]
  have hoeq : a.ofs = a2.ofs := by
    have e1 : a.nj = st.i := by assumption
    have e2 : a2.nj = st2.i := by assumption
    have e3 : a.info = st.info := by assumption
    have e4 : a2.info = st2.info := by assumption
    rw [hofsP, hofsP2, ← e1, ← e2, ← e3, ← e4, ← hnjeq]
    rw [ofsPass_congr a.nj a.info a2.info (fun k hk => (hagree k hk).2)]
  refine ⟨a, a2, ha, ha2, ?_, fun k hk => (hsur k hk).2, hmeq, ?_, ?_, ?_⟩
  · apply List.ext_getElem?
    intro k
    by_cases hk : k < a.nj
    · have := (hsur k hk).1
      simp only [survivors] at this
      rw [this]
      simp [hk]
    · have h1 : ((List.range a.nj).map a.joint)[k]? = none := by
        apply List.getElem?_eq_none
        simp
        omega
      have h2 : (((List.range nj).map _joint).filter
          (fun j => decide (0 < j.getInfo1.m)))[k]? = none := by
        apply List.getElem?_eq_none
        have : (survivors _joint nj).length = a.nj := hnj.symm
        simp only [survivors] at this
        omega
      rw [h1, h2]
  · intro fps
    exact (sorInput_congr a a2 world nb fps scratch hbeq hieq hnjeq hmeq hoeq hagree).1
  · exact (sorInput_congr a a2 world nb 0 scratch hbeq hieq hnjeq hmeq hoeq hagree).2.1
  · rw [stepperVelocities_eq world body nb _joint nj stepsize scratch a ha,
      stepperVelocities_eq world body nb _joint2 nj2 stepsize scratch a2 ha2,
      (sorInput_congr a a2 world nb (1 / stepsize) scratch hbeq hieq hnjeq hmeq hoeq hagree).2.2,
      hbeq, hieq, hmeq]

/-- Claim C12, amended. For every joint list on which the `getInfo1` assertion
holds (every joint reports `0 <= nub <= m <= 6`), the working joint array after
the `getInfo1` loop is the subsequence of the input joints reporting `m > 0`,
in their original order and paired with their own answers; and the stepper run
on the list with every `m = 0` joint removed has the same row count `m`, the
same packed arrays and `jb`, and hands the same bodies to the integrator. -/
theorem C12_idle_joints_dropped (world : dxWorld K) (body : Nat → dxBody K) (nb : Nat)
    (_joint _joint2 : Nat → dxJoint K) (nj nj2 : Nat) (stepsize : K) (scratch : Scratch K)
    (hin : ∀ j, j < nj → 0 ≤ (_joint j).getInfo1.nub ∧
      (_joint j).getInfo1.nub ≤ (_joint j).getInfo1.m ∧ (_joint j).getInfo1.m ≤ 6)
    (hfil : (List.range nj2).map _joint2 =
      ((List.range nj).map _joint).filter (fun j => decide (j.getInfo1.m ≠ 0))) :
    ∃ a a2, assemble world body nb _joint nj scratch = some a ∧
      assemble world body nb _joint2 nj2 scratch = some a2 ∧
      (List.range a.nj).map a.joint =
        ((List.range nj).map _joint).filter (fun j => decide (0 < j.getInfo1.m)) ∧
      (∀ k, k < a.nj → a.info k = (a.joint k).getInfo1) ∧
      a.m = a2.m ∧ (∀ fps, a.packed world fps = a2.packed world fps) ∧ a.jb = a2.jb ∧
      stepperVelocities world body nb _joint nj stepsize scratch =
        stepperVelocities world body nb _joint2 nj2 stepsize scratch :=
  drop_idle_joints world body nb _joint _joint2 nj nj2 stepsize scratch
    (fun j hj => by
      obtain ⟨h1, h2, h3⟩ := hin j hj
      exact ⟨by omega, h3, h1, h2⟩)
    hfil

/-- Claim C12 as stated fails: the joint list with the single joint
`idleJoint` (`m = 0`, `nub = 1`) makes the assertion of the `getInfo1` loop
fail, while the list with that joint removed is stepped. -/
theorem C12_fails_for_idle_joint_out_of_range :
    (List.range 0).map idleJoint =
      ((List.range 1).map idleJoint).filter (fun j => decide (j.getInfo1.m ≠ 0)) ∧
    stepperVelocities (plainWorld 1 1) rodBody 1 idleJoint 1 1 zeroScratch = none ∧
    (∃ v, stepperVelocities (plainWorld 1 1) rodBody 1 idleJoint 0 1 zeroScratch = some v) ∧
    stepperVelocities (plainWorld 1 1) rodBody 1 idleJoint 1 1 zeroScratch ≠
      stepperVelocities (plainWorld 1 1) rodBody 1 idleJoint 0 1 zeroScratch := by
  have h1 : stepperVelocities (plainWorld 1 1) rodBody 1 idleJoint 1 1 zeroScratch = none := by
    have : assemble (plainWorld 1 1) rodBody 1 idleJoint 1 zeroScratch = none :=
      (assemble_eq_none_iff _ _ _ _ _ _).mpr ⟨0, by decide, by decide⟩
    simp only [stepperVelocities, this, Option.map_none']
  obtain ⟨a, ha, _⟩ := assemble_no_joint (plainWorld 1 1) rodBody 1 idleJoint zeroScratch
  have h2 := stepperVelocities_eq (plainWorld 1 1) rodBody 1 idleJoint 0 1 zeroScratch a ha
  refine ⟨rfl, h1, ⟨_, h2⟩, ?_⟩
  rw [h1, h2]
  exact fun h => Option.noConfusion h

/-- Witness for C12 (scenario S5): an inactive joint followed by the rod joint,
against the rod joint alone. -/
theorem C12_idle_joints_dropped_witness :
    ∃ a a2, assemble (plainWorld 1 1) rodBody 2 idleThenRod 2 zeroScratch = some a ∧
      assemble (plainWorld 1 1) rodBody 2 rodJoint 1 zeroScratch = some a2 ∧
      (List.range a.nj).map a.joint =
        ((List.range 2).map idleThenRod).filter (fun j => decide (0 < j.getInfo1.m)) ∧
      (∀ k, k < a.nj → a.info k = (a.joint k).getInfo1) ∧
      a.m = a2.m ∧
      (∀ fps, a.packed (plainWorld 1 1) fps = a2.packed (plainWorld 1 1) fps) ∧
      a.jb = a2.jb ∧
      stepperVelocities (plainWorld 1 1) rodBody 2 idleThenRod 2 1 zeroScratch =
        stepperVelocities (plainWorld 1 1) rodBody 2 rodJoint 1 1 zeroScratch :=
  C12_idle_joints_dropped (plainWorld 1 1) rodBody 2 idleThenRod rodJoint 2 1 1 zeroScratch
    (fun j hj => by
      have hj2 : j = 0 ∨ j = 1 := by omega
      rcases hj2 with rfl | rfl
      · show (0 : Int) ≤ 0 ∧ (0 : Int) ≤ 0 ∧ (0 : Int) ≤ 6
        decide
      · show (0 : Int) ≤ 1 ∧ (1 : Int) ≤ 1 ∧ (1 : Int) ≤ 6
        decide)
    rfl

theorem dot6_congr_right (fc J J2 : Nat → K) (fb jo : Nat)
    (h : ∀ t, t < 6 → J2 (jo + t) = J (jo + t)) : dot6 fc fb J2 jo = dot6 fc fb J jo := by
  simp only [dot6]
  rw [h 0 (by omega), h 1 (by omega), h 2 (by omega), h 3 (by omega), h 4 (by omega),
    h 5 (by omega)]

theorem dot6_congr_left (iMJ J J2 : Nat → K) (ib jo : Nat)
    (h : ∀ t, t < 6 → J2 (jo + t) = J (jo + t)) : dot6 iMJ ib J2 jo = dot6 iMJ ib J jo :=
  dot6_congr_right iMJ J J2 ib jo h

/-- The columns 6..11 of the rows without second body are not read: the arrays
`iMJ` and `Ad` do not depend on them. -/
theorem withJ_precomputed (p : SORInput K) (J2 : Nat → K)
    (hJ : ∀ idx, ¬ (idx / 12 < p.m ∧ p.jb (idx / 12 * 2 + 1) < 0 ∧ 6 ≤ idx % 12) →
      J2 idx = p.J idx) :
    (p.withJ J2).iMJ = p.iMJ ∧ (p.withJ J2).Ad = p.Ad := by
  have hlow : ∀ i t, t < 6 → J2 (i * 12 + t) = p.J (i * 12 + t) := by
    intro i t ht
    apply hJ
    have : (i * 12 + t) % 12 = t := by omega
    omega
  have hhigh : ∀ i t, 0 ≤ p.jb (i * 2 + 1) → t < 12 → J2 (i * 12 + t) = p.J (i * 12 + t) := by
    intro i t hb ht
    apply hJ
    have e : (i * 12 + t) / 12 = i := by omega
    rw [e]
    omega
  have hiMJ : (p.withJ J2).iMJ = p.iMJ := by
    funext idx
    have e : idx / 12 * 12 + idx % 12 = idx := by omega
    simp only [SORInput.iMJ, computeIMJ, SORInput.withJ, dMULTIPLY0_331]
    by_cases hm : idx / 12 < p.m
    · simp only [if_pos hm]
      by_cases h3 : idx % 12 < 3
      · simp only [if_pos h3]
        rw [hlow _ _ (by omega)]
      · simp only [if_neg h3]
        by_cases h6 : idx % 12 < 6
        · simp only [if_pos h6]
          have a0 := hlow (idx / 12) 3 (by omega)
          have a1 := hlow (idx / 12) 4 (by omega)
          have a2 := hlow (idx / 12) 5 (by omega)
          simp only [Nat.add_assoc, Nat.reduceAdd, Nat.add_zero, a0, a1, a2]
        · simp only [if_neg h6]
          by_cases hb : 0 ≤ p.jb (idx / 12 * 2 + 1)
          · simp only [if_pos hb]
            by_cases h9 : idx % 12 < 9
            · simp only [if_pos h9]
              rw [hhigh _ _ hb (by omega)]
            · simp only [if_neg h9]
              have a0 := hhigh (idx / 12) 9 hb (by omega)
              have a1 := hhigh (idx / 12) 10 hb (by omega)
              have a2 := hhigh (idx / 12) 11 hb (by omega)
              simp only [Nat.add_assoc, Nat.reduceAdd, Nat.add_zero, a0, a1, a2]
          · simp only [if_neg hb]
    · simp only [if_neg hm]
  refine ⟨hiMJ, ?_⟩
  funext i
  have hJe : (p.withJ J2).J = J2 := rfl
  have hjb : (p.withJ J2).jb = p.jb := rfl
  have hcfm : (p.withJ J2).cfm = p.cfm := rfl
  have hw : (p.withJ J2).sor_w = p.sor_w := rfl
  simp only [SORInput.Ad, computeAd, diagSum, hiMJ, hJe, hjb, hcfm, hw]
  rw [dot6_congr_left p.iMJ p.J J2 (i * 12) (i * 12) (fun t ht => hlow i t ht)]
  by_cases hb : 0 ≤ p.jb (i * 2 + 1)
  · rw [if_pos hb, if_pos hb,
      dot6_congr_left p.iMJ p.J J2 (i * 12 + 6) (i * 12 + 6)
        (fun t ht => by
          rw [Nat.add_assoc]
          exact hhigh i (6 + t) hb (by omega))]
  · rw [if_neg hb, if_neg hb]

theorem withJ_row (p : SORInput K) (J2 : Nat → K)
    (hJ : ∀ idx, ¬ (idx / 12 < p.m ∧ p.jb (idx / 12 * 2 + 1) < 0 ∧ 6 ≤ idx % 12) →
      J2 idx = p.J idx) (k : Nat) (s : SORState K) :
    (p.withJ J2).row k s = p.row k s := by
  obtain ⟨hiMJ, hAd⟩ := withJ_precomputed p J2 hJ
  have hJe : (p.withJ J2).J = J2 := rfl
  have hjb : (p.withJ J2).jb = p.jb := rfl
  have hm : (p.withJ J2).m = p.m := rfl
  have hd : rowDelta (p.withJ J2).Jscaled (p.withJ J2).bscaled (p.withJ J2).Adscaled
      p.jb k s = rowDelta p.Jscaled p.bscaled p.Adscaled p.jb k s := by
    have e1 : dot6 s.fc (6 * (p.jb (k * 2)).toNat) (p.withJ J2).Jscaled (k * 12) =
        dot6 s.fc (6 * (p.jb (k * 2)).toNat) p.Jscaled (k * 12) := by
      apply dot6_congr_right
      intro t ht
      have e : (k * 12 + t) / 12 = k := by omega
      have hx : J2 (k * 12 + t) = p.J (k * 12 + t) := by
        apply hJ
        have : (k * 12 + t) % 12 = t := by omega
        omega
      simp only [SORInput.Jscaled, scaleJ, hJe, hm, hAd, hx]
    have e2 : 0 ≤ p.jb (k * 2 + 1) →
        dot6 s.fc (6 * (p.jb (k * 2 + 1)).toNat) (p.withJ J2).Jscaled (k * 12 + 6) =
        dot6 s.fc (6 * (p.jb (k * 2 + 1)).toNat) p.Jscaled (k * 12 + 6) := by
      intro hb
      apply dot6_congr_right
      intro t ht
      have e : (k * 12 + 6 + t) / 12 = k := by omega
      have hx : J2 (k * 12 + 6 + t) = p.J (k * 12 + 6 + t) := by
        apply hJ
        rw [e]
        omega
      simp only [SORInput.Jscaled, scaleJ, hJe, hm, hAd, hx]
    have e3 : (p.withJ J2).bscaled = p.bscaled := by
      simp only [SORInput.bscaled, hAd, hm]
      rfl
    have e4 : (p.withJ J2).Adscaled = p.Adscaled := by
      simp only [SORInput.Adscaled, hAd, hm]
      rfl
    simp only [rowDelta, e1, e3, e4]
    by_cases hb : 0 ≤ p.jb (k * 2 + 1)
    · rw [if_pos hb, if_pos hb, e2 hb]
    · rw [if_neg hb, if_neg hb]
  have hlo : (p.withJ J2).lo = p.lo := rfl
  have hhi : (p.withJ J2).hi = p.hi := rfl
  simp only [SORInput.row, rowUpdate, hiMJ, hjb, hlo, hhi, hd]

theorem withJ_after (p : SORInput K) (J2 : Nat → K)
    (hJ : ∀ idx, ¬ (idx / 12 < p.m ∧ p.jb (idx / 12 * 2 + 1) < 0 ∧ 6 ≤ idx % 12) →
      J2 idx = p.J idx) (n : Nat) :
    (p.withJ J2).after n = p.after n := by
  induction n with
  | zero => rfl
  | succ n ih =>
    rw [after_succ, after_succ, sweep_eq_foldl, sweep_eq_foldl, ih]
    have ho : (p.withJ J2).order = p.order := rfl
    rw [ho]
    congr 1
    funext s k
    exact withJ_row p J2 hJ k s

/-- Claim C15. For the rows `i` with `jb[2i+1] = -1`, the `lambda` and `fc`
returned by `SOR_LCP` do not depend on columns 6..11 of `J[i]`: a run on an
array `J2` that differs from `J` only in those entries returns the same
`lambda` and `fc` (after every number of sweeps); and the update of such a row
changes `fc` inside the block of body `jb[2i]` only. -/
theorem C15_one_body_rows_ignore_second_block (p : SORInput K) (J2 : Nat → K)
    (hJ : ∀ idx, J2 idx ≠ p.J idx →
      idx / 12 < p.m ∧ p.jb (2 * (idx / 12) + 1) = -1 ∧ 6 ≤ idx % 12) :
    SOR_LCP (p.withJ J2) = SOR_LCP p ∧
    (∀ n, (p.withJ J2).after n = p.after n) ∧
    (∀ (i : Nat) (s : SORState K) (idx : Nat), p.jb (2 * i + 1) = -1 →
      ¬ (6 * (p.jb (2 * i)).toNat ≤ idx ∧ idx < 6 * (p.jb (2 * i)).toNat + 6) →
      (p.row i s).fc idx = s.fc idx) := by
  have hJ' : ∀ idx, ¬ (idx / 12 < p.m ∧ p.jb (idx / 12 * 2 + 1) < 0 ∧ 6 ≤ idx % 12) →
      J2 idx = p.J idx := by
    intro idx h
    by_contra hne
    obtain ⟨h1, h2, h3⟩ := hJ idx hne
    apply h
    rw [mul_comm]
    exact ⟨h1, by omega, h3⟩
  refine ⟨withJ_after p J2 hJ' _, withJ_after p J2 hJ', ?_⟩
  intro i s idx hb hidx
  have hneg : ¬ 0 ≤ p.jb (2 * i + 1) := by omega
  rw [row_fc_lockstep, if_neg hneg]
  simp only [addDelta, if_neg hidx]

/-- Witness for C15: `frictionExample` with column 6 of row 0 changed. -/
theorem C15_one_body_rows_ignore_second_block_witness :
    SOR_LCP (frictionExample.withJ (fun idx => if idx = 6 then 5 else frictionExample.J idx)) =
      SOR_LCP frictionExample :=
  (C15_one_body_rows_ignore_second_block frictionExample
    (fun idx => if idx = 6 then 5 else frictionExample.J idx)
    (fun idx hne => by
      have h6 : idx = 6 := by
        by_contra h
        simp only [if_neg h] at hne
        exact hne rfl
      subst h6
      exact ⟨by decide, by decide, by decide⟩)).1

theorem info2Prefix_succ (fps erp global_cfm : K) (joint : Nat → dxJoint K) (info : Nat → Info1)
    (ofs : Nat → Nat) (n : Nat) :
    info2Prefix fps erp global_cfm joint info ofs (n + 1) =
      info2Step fps erp joint info ofs (info2Prefix fps erp global_cfm joint info ofs n) n := by
  simp only [info2Prefix, List.range_succ, List.foldl_append, List.foldl_cons, List.foldl_nil]

theorem info2Step_findex_below (fps erp : K) (joint : Nat → dxJoint K) (info : Nat → Info1)
    (ofs : Nat → Nat) (a : Packed K) (i idx : Nat) (h : idx < ofs i) :
    (info2Step fps erp joint info ofs a i).findex idx = a.findex idx := by
  have h1 : ¬ ofs i ≤ idx := by omega
  have h2 : ¬ (ofs i ≤ idx ∧ idx < ofs i + (info i).m.toNat ∧ 0 ≤ a.findex idx) :=
    fun h => h1 h.1
  simp only [info2Step, writeFrom, if_neg h1, if_neg h2]

theorem info2Step_findex_in (fps erp : K) (joint : Nat → dxJoint K) (info : Nat → Info1)
    (ofs : Nat → Nat) (a : Packed K) (i j : Nat) (hj : j < (info i).m.toNat) :
    (info2Step fps erp joint info ofs a i).findex (ofs i + j) =
      if 0 ≤ ((joint i).getInfo2 (info2Block fps erp ofs a i)).findex j then
        ((joint i).getInfo2 (info2Block fps erp ofs a i)).findex j + (ofs i : Int)
      else ((joint i).getInfo2 (info2Block fps erp ofs a i)).findex j := by
  have h1 : ofs i ≤ ofs i + j := by omega
  have h2 : ofs i + j < ofs i + (info i).m.toNat := by omega
  have h3 : ofs i + j - ofs i = j := by omega
  simp only [info2Step, writeFrom, h3, h2, true_and, info2Block, h1, if_true]

/-- Later joints do not touch the rows below their own offset. -/
theorem info2Prefix_findex_stable (fps erp global_cfm : K) (joint : Nat → dxJoint K)
    (info : Nat → Info1) (ofs : Nat → Nat) (k n idx : Nat) (hkn : k < n)
    (hofs : ∀ i, k < i → i < n → idx < ofs i) :
    (info2Prefix fps erp global_cfm joint info ofs n).findex idx =
      (info2Prefix fps erp global_cfm joint info ofs (k + 1)).findex idx := by
  induction n with
  | zero => omega
  | succ n ih =>
    by_cases h : k < n
    · rw [info2Prefix_succ, info2Step_findex_below _ _ _ _ _ _ _ _ (hofs n h (by omega))]
      exact ih h (fun i h1 h2 => hofs i h1 (by omega))
    · have : k = n := by omega
      rw [this]

/-- The stored friction index of local row `j` of joint `k`: the value the
joint returned, plus `ofs[k]` when it is non-negative. -/
theorem stored_findex (world : dxWorld K) (body : Nat → dxBody K) (nb : Nat)
    (_joint : Nat → dxJoint K) (nj : Nat) (scratch : Scratch K) (a : Assembly K)
    (ha : assemble world body nb _joint nj scratch = some a) (fps : K) (k j : Nat)
    (hk : k < a.nj) (hj : j < (a.info k).m.toNat) :
    (a.packed world fps).findex (a.ofs k + j) =
      if 0 ≤ a.localFindex world fps k j then a.localFindex world fps k j + (a.ofs k : Int)
      else a.localFindex world fps k j := by
  obtain ⟨_, _, _, _, _, hofs⟩ := assemble_survivors world body nb _joint nj scratch a ha
  have hstable := info2Prefix_findex_stable fps world.global_erp world.global_cfm a.joint a.info
    a.ofs k a.nj (a.ofs k + j) hk (fun i h1 h2 => by
      rw [hofs k hk, hofs i h2]
      have := rowsBefore_mono a.info (k + 1) i (by omega)
      rw [rowsBefore_succ] at this
      omega)
  have e : a.packed world fps =
      info2Prefix fps world.global_erp world.global_cfm a.joint a.info a.ofs a.nj := rfl
  rw [e, hstable, info2Prefix_succ, info2Step_findex_in _ _ _ _ _ _ _ _ hj]
  rfl

theorem stepper_proceeds (world : dxWorld K) (body : Nat → dxBody K) (nb : Nat)
    (_joint : Nat → dxJoint K) (nj : Nat) (stepsize : K) (scratch : Scratch K)
    (dxStepBody : dxBody K → K → dxBody K) (a : Assembly K)
    (ha : assemble world body nb _joint nj scratch = some a) :
    ∃ lam v w, stepperLambda world body nb _joint nj stepsize scratch = some lam ∧
      stepperVelocities world body nb _joint nj stepsize scratch = some v ∧
      dxQuickStepper dxStepBody world body nb _joint nj stepsize scratch = some w := by
  have hv := stepperVelocities_eq world body nb _joint nj stepsize scratch a ha
  have hw : ∃ w, dxQuickStepper dxStepBody world body nb _joint nj stepsize scratch = some w := by
    simp only [dxQuickStepper, hv, Option.map_some']
    exact ⟨_, rfl⟩
  obtain ⟨w, hw⟩ := hw
  exact ⟨_, _, w, stepperLambda_of_assemble world body nb _joint nj stepsize scratch a ha, hv, hw⟩

/-- Claim C18, amended. The stepper does not check the friction indices that a
joint returns: whenever the `getInfo1` assertion holds, for every answer of the
`getInfo2` queries the stepper stores, for local row `j` of surviving joint
`k`, the returned index `f` as `f + ofs[k]` when `f >= 0` (a valid local row
or not) and as `f` when `f < 0`, and proceeds to solve and to update the
velocities without an assertion failure. -/
theorem C18_findex_not_checked (world : dxWorld K) (body : Nat → dxBody K) (nb : Nat)
    (_joint : Nat → dxJoint K) (nj : Nat) (stepsize : K) (scratch : Scratch K)
    (dxStepBody : dxBody K → K → dxBody K)
    (hin : ∀ j, j < nj → (_joint j).getInfo1.inRange) :
    ∃ a lam v w, assemble world body nb _joint nj scratch = some a ∧
      stepperLambda world body nb _joint nj stepsize scratch = some lam ∧
      stepperVelocities world body nb _joint nj stepsize scratch = some v ∧
      dxQuickStepper dxStepBody world body nb _joint nj stepsize scratch = some w ∧
      ∀ k j, k < a.nj → j < (a.info k).m.toNat →
        (a.packed world (1 / stepsize)).findex (a.ofs k + j) =
          if 0 ≤ a.localFindex world (1 / stepsize) k j then
            a.localFindex world (1 / stepsize) k j + (a.ofs k : Int)
          else a.localFindex world (1 / stepsize) k j := by
  cases hc : assemble world body nb _joint nj scratch with
  | none =>
    obtain ⟨j, hj, hbad⟩ := (assemble_eq_none_iff world body nb _joint nj scratch).mp hc
    exact absurd (hin j hj) hbad
  | some a =>
    obtain ⟨lam, v, w, h1, h2, h3⟩ :=
      stepper_proceeds world body nb _joint nj stepsize scratch dxStepBody a hc
    exact ⟨a, lam, v, w, rfl, h1, h2, h3,
      fun k j hk hj => stored_findex world body nb _joint nj scratch a hc _ k j hk hj⟩

/-- Claim C18 as stated fails: the joint `wildFindexJoint` has one row and
returns the friction index 5, which is not one of its rows; the stepper raises
no assertion failure, stores `findex[0] = 5` and returns velocities. -/
theorem C18_fails_for_wild_findex :
    (wildFindexJoint 0).getInfo1.m = 1 ∧
    ∃ a v, assemble (plainWorld 1 1) rodBody 1 wildFindexJoint 1 zeroScratch = some a ∧
      a.localFindex (plainWorld 1 1) (1 / 1) 0 0 = 5 ∧
      (a.packed (plainWorld 1 1) (1 / 1)).findex 0 = 5 ∧
      stepperVelocities (plainWorld 1 1) rodBody 1 wildFindexJoint 1 1 zeroScratch = some v ∧
      stepperVelocities (plainWorld 1 1) rodBody 1 wildFindexJoint 1 1 zeroScratch ≠ none := by
  have ha := assemble_one_joint (plainWorld 1 1) rodBody 1 wildFindexJoint zeroScratch
    (by decide)
  have hv := stepperVelocities_eq (plainWorld 1 1) rodBody 1 wildFindexJoint 1 1 zeroScratch _ ha
  have hl : (oneJointAssembly (plainWorld 1 1) rodBody 1 wildFindexJoint zeroScratch).localFindex
      (plainWorld 1 1) (1 / 1) 0 0 = 5 := by
    simp [Assembly.localFindex, oneJointAssembly, wildFindexJoint]
  have hs := stored_findex (plainWorld 1 1) rodBody 1 wildFindexJoint 1 zeroScratch _ ha (1 / 1)
    0 0 (by decide) (by decide)
  rw [hl] at hs
  have ho : (oneJointAssembly (plainWorld 1 1) rodBody 1 wildFindexJoint zeroScratch).ofs 0 = 0 := by
    simp [oneJointAssembly]
  rw [ho] at hs
  refine ⟨rfl, _, _, ha, hl, ?_, hv, ?_⟩
  · simpa using hs
  · rw [hv]
    exact fun h => Option.noConfusion h

/-- Witness for C18: the contact system. -/
theorem C18_findex_not_checked_witness :
    ∃ a lam v w, assemble (plainWorld 1 1) fallingBody 1 contactJoint 1 zeroScratch = some a ∧
      stepperLambda (plainWorld 1 1) fallingBody 1 contactJoint 1 1 zeroScratch = some lam ∧
      stepperVelocities (plainWorld 1 1) fallingBody 1 contactJoint 1 1 zeroScratch = some v ∧
      dxQuickStepper (fun bd _ => bd) (plainWorld 1 1) fallingBody 1 contactJoint 1 1 zeroScratch
        = some w ∧
      ∀ k j, k < a.nj → j < (a.info k).m.toNat →
        (a.packed (plainWorld 1 1) (1 / 1)).findex (a.ofs k + j) =
          if 0 ≤ a.localFindex (plainWorld 1 1) (1 / 1) k j then
            a.localFindex (plainWorld 1 1) (1 / 1) k j + (a.ofs k : Int)
          else a.localFindex (plainWorld 1 1) (1 / 1) k j :=
  C18_findex_not_checked (plainWorld 1 1) fallingBody 1 contactJoint 1 1 zeroScratch
    (fun bd _ => bd)
    (fun j _ => by
      show (0 : Int) ≤ 1 ∧ (1 : Int) ≤ 6 ∧ (0 : Int) ≤ 0 ∧ (0 : Int) ≤ 1
      decide)

theorem SOR_LCP_nonpos_iterations (p : SORInput K) (hn : p.num_iterations ≤ 0) :
    SOR_LCP p = p.init := by
  have h : p.num_iterations.toNat = 0 := by omega
  simp only [SOR_LCP, h]
  rfl

/-- The stepper has no assertion on its step size or iteration count. -/
theorem stepper_ignores_arguments (world : dxWorld K) (body : Nat → dxBody K) (nb : Nat)
    (_joint : Nat → dxJoint K) (nj : Nat) (stepsize : K) (scratch : Scratch K)
    (dxStepBody : dxBody K → K → dxBody K)
    (hin : ∀ j, j < nj → (_joint j).getInfo1.inRange) :
    ∃ a v w, assemble world body nb _joint nj scratch = some a ∧
      stepperVelocities world body nb _joint nj stepsize scratch = some v ∧
      v = velocityUpdate nb stepsize a.invI
        (if 0 < a.m then
          addConstraintForce nb stepsize
            (SOR_LCP (a.sorInput world nb (1 / stepsize) scratch)).fc a.body
        else a.body) ∧
      dxQuickStepper dxStepBody world body nb _joint nj stepsize scratch = some w ∧
      (world.qs.num_iterations < 0 →
        SOR_LCP (a.sorInput world nb (1 / stepsize) scratch) =
          (a.sorInput world nb (1 / stepsize) scratch).init ∧
        ∀ i j, i < nb → j < 3 →
          (v i).lvel j =
            (a.body i).lvel j + stepsize * (a.body i).invMass * (a.body i).facc j) := by
  cases hc : assemble world body nb _joint nj scratch with
  | none =>
    obtain ⟨j, hj, hbad⟩ := (assemble_eq_none_iff world body nb _joint nj scratch).mp hc
    exact absurd (hin j hj) hbad
  | some a =>
    obtain ⟨_, v, w, _, h2, h3⟩ :=
      stepper_proceeds world body nb _joint nj stepsize scratch dxStepBody a hc
    have hv := stepperVelocities_eq world body nb _joint nj stepsize scratch a hc
    have e : v = velocityUpdate nb stepsize a.invI
        (if 0 < a.m then
          addConstraintForce nb stepsize
            (SOR_LCP (a.sorInput world nb (1 / stepsize) scratch)).fc a.body
        else a.body) := Option.some.inj (h2.symm.trans hv)
    refine ⟨a, v, w, rfl, h2, e, h3, ?_⟩
    intro hneg
    have hinit := SOR_LCP_nonpos_iterations (a.sorInput world nb (1 / stepsize) scratch)
      (le_of_lt hneg)
    refine ⟨hinit, ?_⟩
    intro i j hi hj
    rw [e, velocityUpdate_lvel _ _ _ _ i j hi hj]
    by_cases hm : 0 < a.m
    · rw [if_pos hm]
      obtain ⟨e1, _, e3, e4, _⟩ := addConstraintForce_zero nb stepsize
        (SOR_LCP (a.sorInput world nb (1 / stepsize) scratch)).fc a.body
        (fun b hb j hj => by
          rw [hinit]
          exact init_fc_block _ b j hb hj) i
      rw [e1, e3, e4]
    · rw [if_neg hm]

/-- Claim C19, amended. The stepper has no assertion on its step size or on
`num_iterations`: called with a non-positive step size or with a negative
`num_iterations` on a joint list that passes the `getInfo1` assertion, it
computes the velocity update with the given step size, hands it to the body
integrator and returns; with a negative `num_iterations` the solver runs no
sweep, so `lambda` and `fc` stay zero and the update is the one of the
external forces. -/
theorem C19_arguments_not_checked (world : dxWorld K) (body : Nat → dxBody K) (nb : Nat)
    (_joint : Nat → dxJoint K) (nj : Nat) (stepsize : K) (scratch : Scratch K)
    (dxStepBody : dxBody K → K → dxBody K)
    (hin : ∀ j, j < nj → (_joint j).getInfo1.inRange)
    (_harg : stepsize ≤ 0 ∨ world.qs.num_iterations < 0) :
    ∃ a v w, assemble world body nb _joint nj scratch = some a ∧
      stepperVelocities world body nb _joint nj stepsize scratch = some v ∧
      v = velocityUpdate nb stepsize a.invI
        (if 0 < a.m then
          addConstraintForce nb stepsize
            (SOR_LCP (a.sorInput world nb (1 / stepsize) scratch)).fc a.body
        else a.body) ∧
      dxQuickStepper dxStepBody world body nb _joint nj stepsize scratch = some w ∧
      (world.qs.num_iterations < 0 →
        SOR_LCP (a.sorInput world nb (1 / stepsize) scratch) =
          (a.sorInput world nb (1 / stepsize) scratch).init ∧
        ∀ i j, i < nb → j < 3 →
          (v i).lvel j =
            (a.body i).lvel j + stepsize * (a.body i).invMass * (a.body i).facc j) :=
  stepper_ignores_arguments world body nb _joint nj stepsize scratch dxStepBody hin

theorem rodJoint_inRange : ∀ j, j < 1 → (rodJoint j).getInfo1.inRange := by
  intro j _
  show (0 : Int) ≤ 1 ∧ (1 : Int) ≤ 6 ∧ (0 : Int) ≤ 1 ∧ (1 : Int) ≤ 1
  decide

/-- Claim C19 as stated fails: the rod system of scenario S2 called with
`stepsize = -1` and `num_iterations = -1` raises no assertion failure; the
stepper returns, and body 0 keeps `lvel.x = 1`. -/
theorem C19_fails_for_negative_arguments :
    (-1 : ℚ) ≤ 0 ∧ (plainWorld (-1) 1).qs.num_iterations < 0 ∧
    ∃ v w, stepperVelocities (plainWorld (-1) 1) rodBody 2 rodJoint 1 (-1) zeroScratch = some v ∧
      dxQuickStepper (fun bd _ => bd) (plainWorld (-1) 1) rodBody 2 rodJoint 1 (-1) zeroScratch
        = some w ∧
      (v 0).lvel 0 = 1 ∧
      stepperVelocities (plainWorld (-1) 1) rodBody 2 rodJoint 1 (-1) zeroScratch ≠ none := by
  obtain ⟨a, v, w, ha, hv, _, hw, hneg⟩ := stepper_ignores_arguments (plainWorld (-1) 1) rodBody
    2 rodJoint 1 (-1) zeroScratch (fun bd _ => bd) rodJoint_inRange
  have hn : (plainWorld (-1) 1).qs.num_iterations < 0 := by decide
  refine ⟨by norm_num, hn, v, w, hv, hw, ?_, ?_⟩
  · obtain ⟨_, _, hbody, _⟩ := assemble_fields _ _ _ _ _ _ a ha
    obtain ⟨e1, e2, e3⟩ := assembled_body_linear 2 (plainWorld (-1) 1).gravity rodBody 0 0
      (by decide) (by decide)
    rw [(hneg hn).2 0 0 (by decide) (by decide), hbody, e1, e2, e3]
    norm_num [rodBody, unitBody, plainWorld]
  · rw [hv]
    exact fun h => Option.noConfusion h

/-- Witness for C19: the rod system with step size `-1` and `num_iterations = -1`. -/
theorem C19_arguments_not_checked_witness :
    ∃ a v w, assemble (plainWorld (-1) 1) rodBody 2 rodJoint 1 zeroScratch = some a ∧
      stepperVelocities (plainWorld (-1) 1) rodBody 2 rodJoint 1 (-1) zeroScratch = some v ∧
      v = velocityUpdate 2 (-1) a.invI
        (if 0 < a.m then
          addConstraintForce 2 (-1)
            (SOR_LCP (a.sorInput (plainWorld (-1) 1) 2 (1 / (-1)) zeroScratch)).fc a.body
        else a.body) ∧
      dxQuickStepper (fun bd _ => bd) (plainWorld (-1) 1) rodBody 2 rodJoint 1 (-1) zeroScratch
        = some w ∧
      ((plainWorld (-1) 1).qs.num_iterations < 0 →
        SOR_LCP (a.sorInput (plainWorld (-1) 1) 2 (1 / (-1)) zeroScratch) =
          (a.sorInput (plainWorld (-1) 1) 2 (1 / (-1)) zeroScratch).init ∧
        ∀ i j, i < 2 → j < 3 →
          (v i).lvel j =
            (a.body i).lvel j + (-1) * (a.body i).invMass * (a.body i).facc j) :=
  C19_arguments_not_checked (plainWorld (-1) 1) rodBody 2 rodJoint 1 (-1) zeroScratch
    (fun bd _ => bd) rodJoint_inRange (Or.inl (by norm_num))

theorem textbookAdd_eq_diagSum (p : SORInput K) (k : Nat) :
    textbookAdd p k = diagSum p.J p.iMJ p.jb k := by
  simp only [textbookAdd, diagSum, dot6, Finset.sum_range_succ, Finset.sum_range_zero]
  split_ifs <;> ring_nf

theorem textbookAd_eq_Ad (p : SORInput K) (k : Nat) : textbookAd p k = p.Ad k := by
  simp only [textbookAd, SORInput.Ad, computeAd, textbookAdd_eq_diagSum]

theorem textbookDelta_eq (p : SORInput K) (k : Nat) (s : SORState K) :
    textbookDelta p k s = p.Ad k * rowDelta p.J p.b p.cfm p.jb k s := by
  simp only [textbookDelta, textbookAd_eq_Ad, textbookJfc, rowDelta, dot6,
    Finset.sum_range_succ, Finset.sum_range_zero]
  split_ifs <;> ring_nf

theorem rowDelta_textbook (p : SORInput K) (k : Nat) (hk : k < p.m) (s : SORState K) :
    rowDelta p.Jscaled p.bscaled p.Adscaled p.jb k s = textbookDelta p k s := by
  rw [rowDelta_scaled p k hk, textbookDelta_eq]

theorem row_textbook (p : SORInput K) (k : Nat) (hk : k < p.m) (s : SORState K) :
    p.row k s = textbookRow p k s := by
  have hd := rowDelta_textbook p k hk s
  simp only [SORInput.row, rowUpdate, textbookRow, hd]
  congr 1
  · funext i
    simp only [Function.update_apply]
  · funext i
    by_cases h2 : 0 ≤ p.jb (k * 2 + 1)
    · rw [if_pos h2]
      simp only [addDelta, h2, true_and]
      by_cases hb1 : 6 * (p.jb (k * 2)).toNat ≤ i ∧ i < 6 * (p.jb (k * 2)).toNat + 6 <;>
        by_cases hb2 : 6 * (p.jb (k * 2 + 1)).toNat ≤ i ∧
          i < 6 * (p.jb (k * 2 + 1)).toNat + 6
      · rw [if_pos hb2, if_pos hb1, if_pos hb1, if_pos hb2]
      · rw [if_neg hb2, if_pos hb1, if_pos hb1, if_neg hb2, add_zero]
      · rw [if_pos hb2, if_neg hb1, if_neg hb1, if_pos hb2, add_zero]
      · rw [if_neg hb2, if_neg hb1, if_neg hb1, if_neg hb2, add_zero, add_zero]
    · rw [if_neg h2]
      simp only [addDelta, h2, false_and, if_false, add_zero]
      by_cases hb1 : 6 * (p.jb (k * 2)).toNat ≤ i ∧ i < 6 * (p.jb (k * 2)).toNat + 6
      · rw [if_pos hb1, if_pos hb1]
      · rw [if_neg hb1, if_neg hb1, add_zero]

theorem foldl_row_textbook (p : SORInput K) (L : List Nat) (hL : ∀ k ∈ L, k < p.m)
    (s : SORState K) :
    L.foldl (fun s k => p.row k s) s = L.foldl (fun s k => textbookRow p k s) s := by
  induction L generalizing s with
  | nil => rfl
  | cons a L ih =>
    rw [List.foldl_cons, List.foldl_cons, row_textbook p a (hL a (List.mem_cons_self a L)),
      ih (fun k hk => hL k (List.mem_cons_of_mem a hk))]

theorem after_textbook (p : SORInput K) (n : Nat) : p.after n = textbookAfter p n := by
  induction n with
  | zero => rfl
  | succ n ih =>
    rw [after_succ, sweep_eq_foldl, ih, textbookAfter]
    exact foldl_row_textbook p p.order (fun k hk => (mem_buildOrder _ _ k).mp hk) _

/-- Claim C20. In exact arithmetic with `A_dd[k] + cfm0[k]` nonzero, for every
row `k < m` the unclamped delta that `SOR_LCP` computes from its pre-scaled
arrays equals `A_d[k] * (rhs0[k] - cfm0[k]*lambda[k] - J0[k].fc)` with
`A_d[k] = w / (A_dd[k] + cfm0[k])` and `A_dd[k] = sum_j iMJ[k][j]*J0[k][j]`
over the attached bodies, on the values passed in on entry; the row update,
the state after every number of sweeps and the result of `SOR_LCP` are those
of the textbook projected-SOR update on the unscaled system. -/
theorem C20_prescaled_loop_is_textbook (p : SORInput K)
    (_hA : ∀ k, k < p.m → textbookAdd p k + p.cfm k ≠ 0) :
    (∀ k s, k < p.m →
      rowDelta p.Jscaled p.bscaled p.Adscaled p.jb k s =
        p.sor_w / (textbookAdd p k + p.cfm k) *
          (p.b k - p.cfm k * s.lambda k - textbookJfc p k s.fc)) ∧
    (∀ k s, k ∈ p.order → p.row k s = textbookRow p k s) ∧
    (∀ n, p.after n = textbookAfter p n) ∧
    SOR_LCP p = textbookSOR p :=
  ⟨fun k s hk => rowDelta_textbook p k hk s,
    fun k s hk => row_textbook p k ((mem_buildOrder _ _ k).mp hk) s,
    after_textbook p,
    after_textbook p _⟩

/-- Witness for C20 on `frictionExample`, whose two diagonal entries are 1. -/
theorem C20_prescaled_loop_is_textbook_witness :
    (∀ k, k < frictionExample.m → textbookAdd frictionExample k + frictionExample.cfm k ≠ 0) ∧
    (∀ k s, k < frictionExample.m →
      rowDelta frictionExample.Jscaled frictionExample.bscaled frictionExample.Adscaled
          frictionExample.jb k s =
        frictionExample.sor_w / (textbookAdd frictionExample k + frictionExample.cfm k) *
          (frictionExample.b k - frictionExample.cfm k * s.lambda k -
            textbookJfc frictionExample k s.fc)) ∧
    (∀ k s, k ∈ frictionExample.order →
      frictionExample.row k s = textbookRow frictionExample k s) ∧
    (∀ n, frictionExample.after n = textbookAfter frictionExample n) ∧
    SOR_LCP frictionExample = textbookSOR frictionExample :=
  have h : ∀ k, k < frictionExample.m →
      textbookAdd frictionExample k + frictionExample.cfm k ≠ 0 := by
    intro k hk
    rw [textbookAdd_eq_diagSum, frictionExample_diag k hk]
    norm_num [frictionExample]
  ⟨h, C20_prescaled_loop_is_textbook frictionExample h⟩

theorem diag_block1 (p : SORInput K) (i : Nat) (hi : i < p.m) :
    dot6 p.iMJ (i * 12) p.J (i * 12) =
      p.invMass (p.jb (i * 2)).toNat *
          (p.J (i * 12) ^ 2 + p.J (i * 12 + 1) ^ 2 + p.J (i * 12 + 2) ^ 2) +
        quadForm3 p.invI (12 * (p.jb (i * 2)).toNat) (fun c => p.J (i * 12 + 3 + c)) := by
  have h0 := iMJ_lin1 p i 0 hi (by omega)
  have h1 := iMJ_lin1 p i 1 hi (by omega)
  have h2 := iMJ_lin1 p i 2 hi (by omega)
  have h3 := iMJ_ang1 p i 0 hi (by omega)
  have h4 := iMJ_ang1 p i 1 hi (by omega)
  have h5 := iMJ_ang1 p i 2 hi (by omega)
  simp only [Nat.add_zero, Nat.reduceAdd] at h0 h3 h4 h5
  simp only [dot6, Nat.add_zero, h0, h1, h2, h3, h4, h5, dMULTIPLY0_331, quadForm3,
    Finset.sum_range_succ, Finset.sum_range_zero, Nat.mul_zero, Nat.mul_one, Nat.reduceMul,
    Nat.reduceAdd, zero_add, Nat.add_assoc]
  ring

theorem diag_block2 (p : SORInput K) (i : Nat) (hi : i < p.m) (hb : 0 ≤ p.jb (i * 2 + 1)) :
    dot6 p.iMJ (i * 12 + 6) p.J (i * 12 + 6) =
      p.invMass (p.jb (i * 2 + 1)).toNat *
          (p.J (i * 12 + 6) ^ 2 + p.J (i * 12 + 7) ^ 2 + p.J (i * 12 + 8) ^ 2) +
        quadForm3 p.invI (12 * (p.jb (i * 2 + 1)).toNat) (fun c => p.J (i * 12 + 9 + c)) := by
  have h0 := iMJ_lin2 p i 0 hi hb (by omega)
  have h1 := iMJ_lin2 p i 1 hi hb (by omega)
  have h2 := iMJ_lin2 p i 2 hi hb (by omega)
  have h3 := iMJ_ang2 p i 0 hi hb (by omega)
  have h4 := iMJ_ang2 p i 1 hi hb (by omega)
  have h5 := iMJ_ang2 p i 2 hi hb (by omega)
  simp only [Nat.add_zero, Nat.reduceAdd, Nat.add_assoc] at h0 h1 h2 h3 h4 h5
  simp only [dot6, Nat.add_zero, h0, h1, h2, h3, h4, h5, dMULTIPLY0_331, quadForm3,
    Finset.sum_range_succ, Finset.sum_range_zero, Nat.mul_zero, Nat.mul_one, Nat.reduceMul,
    Nat.reduceAdd, zero_add, Nat.add_assoc]
  ring

theorem diagSum_nonneg (p : SORInput K) (i : Nat) (hi : i < p.m)
    (hmass : ∀ b, b < p.nb → 0 < p.invMass b)
    (hpsd : ∀ b, b < p.nb → PosSemidef3 p.invI (12 * b))
    (hb1 : 0 ≤ p.jb (i * 2) ∧ p.jb (i * 2) < (p.nb : Int))
    (hb2 : p.jb (i * 2 + 1) < (p.nb : Int)) :
    0 ≤ diagSum p.J p.iMJ p.jb i ∧
      p.invMass (p.jb (i * 2)).toNat *
        (p.J (i * 12) ^ 2 + p.J (i * 12 + 1) ^ 2 + p.J (i * 12 + 2) ^ 2) ≤
          diagSum p.J p.iMJ p.jb i := by
  have n1 : (p.jb (i * 2)).toNat < p.nb := by omega
  have q1 := hpsd _ n1 (fun c => p.J (i * 12 + 3 + c))
  have m1 := hmass _ n1
  have s1 : 0 ≤ p.J (i * 12) ^ 2 + p.J (i * 12 + 1) ^ 2 + p.J (i * 12 + 2) ^ 2 := by positivity
  have e1 := diag_block1 p i hi
  by_cases hb : 0 ≤ p.jb (i * 2 + 1)
  · have n2 : (p.jb (i * 2 + 1)).toNat < p.nb := by omega
    have q2 := hpsd _ n2 (fun c => p.J (i * 12 + 9 + c))
    have m2 := hmass _ n2
    have s2 : 0 ≤ p.J (i * 12 + 6) ^ 2 + p.J (i * 12 + 7) ^ 2 + p.J (i * 12 + 8) ^ 2 := by
      positivity
    have e2 := diag_block2 p i hi hb
    have t1 := mul_nonneg m1.le s1
    have t2 := mul_nonneg m2.le s2
    simp only [diagSum, if_pos hb, e1, e2, zero_add]
    constructor <;> linarith
  · have t1 := mul_nonneg m1.le s1
    simp only [diagSum, if_neg hb, e1, zero_add]
    constructor <;> linarith

/-- Claim C23. If every body of the array has `invMass > 0` and a
positive-semidefinite global inverse inertia, the bodies of row `i` are in the
array, `cfm[i] >= 0` and `w > 0`, then `A_dd[i] = sum_j iMJ[i][j]*J[i][j]`
(over columns 0..5, and 6..11 when the row has a second body) is `>= 0`; and
whenever `cfm[i] > 0` or the body-1 linear block `J[i][0..3]` is nonzero,
`A_dd[i] + cfm[i] > 0`, so the divisor of `Ad[i] = w / (A_dd[i] + cfm[i])` is
not zero and `Ad[i] > 0`. -/
theorem C23_diagonal_positive (p : SORInput K) (i : Nat) (hi : i < p.m)
    (hmass : ∀ b, b < p.nb → 0 < p.invMass b)
    (hpsd : ∀ b, b < p.nb → PosSemidef3 p.invI (12 * b))
    (hb1 : 0 ≤ p.jb (i * 2) ∧ p.jb (i * 2) < (p.nb : Int))
    (hb2 : p.jb (i * 2 + 1) < (p.nb : Int))
    (hcfm : 0 ≤ p.cfm i) (hw : 0 < p.sor_w) :
    diagSum p.J p.iMJ p.jb i =
      (if 0 ≤ p.jb (i * 2 + 1) then
        ∑ j ∈ Finset.range 12, p.iMJ (i * 12 + j) * p.J (i * 12 + j)
      else ∑ j ∈ Finset.range 6, p.iMJ (i * 12 + j) * p.J (i * 12 + j)) ∧
    0 ≤ diagSum p.J p.iMJ p.jb i ∧
    p.Ad i = p.sor_w / (diagSum p.J p.iMJ p.jb i + p.cfm i) ∧
    ((0 < p.cfm i ∨ ∃ c, c < 3 ∧ p.J (i * 12 + c) ≠ 0) →
      0 < diagSum p.J p.iMJ p.jb i + p.cfm i ∧
      diagSum p.J p.iMJ p.jb i + p.cfm i ≠ 0 ∧
      0 < p.Ad i) := by
  obtain ⟨h0, hlow⟩ := diagSum_nonneg p i hi hmass hpsd hb1 hb2
  refine ⟨(textbookAdd_eq_diagSum p i).symm, h0, rfl, ?_⟩
  intro hc
  have hpos : 0 < diagSum p.J p.iMJ p.jb i + p.cfm i := by
    rcases hc with hc | ⟨c, hc3, hJ⟩
    · linarith
    · have n1 : (p.jb (i * 2)).toNat < p.nb := by omega
      have m1 := hmass _ n1
      have hsq : 0 < p.J (i * 12) ^ 2 + p.J (i * 12 + 1) ^ 2 + p.J (i * 12 + 2) ^ 2 := by
        have hc' : c = 0 ∨ c = 1 ∨ c = 2 := by omega
        rcases hc' with rfl | rfl | rfl
        · have := pow_pos (abs_pos.mpr hJ) 2
          rw [sq_abs] at this
          have a1 := sq_nonneg (p.J (i * 12 + 1))
          have a2 := sq_nonneg (p.J (i * 12 + 2))
          simp only [Nat.add_zero] at this
          linarith
        · have := pow_pos (abs_pos.mpr hJ) 2
          rw [sq_abs] at this
          have a1 := sq_nonneg (p.J (i * 12))
          have a2 := sq_nonneg (p.J (i * 12 + 2))
          linarith
        · have := pow_pos (abs_pos.mpr hJ) 2
          rw [sq_abs] at this
          have a1 := sq_nonneg (p.J (i * 12))
          have a2 := sq_nonneg (p.J (i * 12 + 1))
          linarith
      have := mul_pos m1 hsq
      linarith
  exact ⟨hpos, hpos.ne.symm, div_pos hw hpos⟩

theorem rodSolverInput_psd (b : Nat) : PosSemidef3 rodSolverInput.invI (12 * b) := by
  intro v
  have e : ∀ t, (12 * b + t) % 12 = t % 12 := by intro t; omega
  have h : quadForm3 rodSolverInput.invI (12 * b) v = v 0 ^ 2 + v 1 ^ 2 + v 2 ^ 2 := by
    simp only [quadForm3, Finset.sum_range_succ, Finset.sum_range_zero, rodSolverInput,
      Nat.add_assoc, e, identity3]
    norm_num
    ring
  rw [h]
  positivity

/-- Witness for C23 on `rodSolverInput`: unit masses, identity inverse inertia,
`J[0][0] = 1`. -/
theorem C23_diagonal_positive_witness :
    0 ≤ diagSum rodSolverInput.J rodSolverInput.iMJ rodSolverInput.jb 0 ∧
    0 < rodSolverInput.Ad 0 :=
  have h := C23_diagonal_positive rodSolverInput 0 (by decide)
    (fun _ _ => by norm_num [rodSolverInput]) (fun b _ => rodSolverInput_psd b)
    (by decide) (by decide) (by norm_num [rodSolverInput]) (by norm_num [rodSolverInput])
  ⟨h.2.1, (h.2.2.2 (Or.inr ⟨0, by decide, by norm_num [rodSolverInput]⟩)).2.2⟩

theorem info2Step_findex_above (fps erp : K) (joint : Nat → dxJoint K) (info : Nat → Info1)
    (ofs : Nat → Nat) (a : Packed K) (i idx : Nat) (h : ofs i + (info i).m.toNat ≤ idx) :
    (info2Step fps erp joint info ofs a i).findex idx =
      ((joint i).getInfo2 (info2Block fps erp ofs a i)).findex (idx - ofs i) := by
  have h1 : ofs i ≤ idx := by omega
  have h2 : ¬ idx < ofs i + (info i).m.toNat := by omega
  simp only [info2Step, writeFrom, info2Block, h1, h2, false_and, and_false, if_true, if_false]

/-- When no joint writes `findex` past its own rows, the rows of the joints
still to be queried hold the default -1. -/
theorem info2Prefix_findex_default (fps erp global_cfm : K) (joint : Nat → dxJoint K)
    (info : Nat → Info1) (ofs : Nat → Nat) (n0 : Nat)
    (hofs : ∀ k, k < n0 → ofs k = rowsBefore info k)
    (hframe : ∀ k, k < n0 → ∀ blk r, (info k).m.toNat ≤ r →
      ((joint k).getInfo2 blk).findex r = blk.findex r)
    (n : Nat) (hn : n ≤ n0) (idx : Nat) (hidx : rowsBefore info n ≤ idx) :
    (info2Prefix fps erp global_cfm joint info ofs n).findex idx = -1 := by
  induction n with
  | zero => rfl
  | succ n ih =>
    have hl : n < n0 := by omega
    rw [rowsBefore_succ] at hidx
    have ih2 := ih (by omega) (by omega)
    have ho := hofs n hl
    have h3 : ofs n + (idx - ofs n) = idx := by omega
    rw [info2Prefix_succ, info2Step_findex_above _ _ _ _ _ _ _ _ (by omega),
      hframe n hl _ _ (by omega)]
    simp only [info2Block, viewFrom, h3]
    exact ih2

/-- Claim C22. For each surviving joint `k` and local row `j < m[k]`, with `f`
the local friction index in the block of the joint when `getInfo2` returns:
if `f >= 0` the stored `findex[ofs[k]+j]` equals `f + ofs[k]`, otherwise it is
`f` and negative; when no joint writes `findex` past its own rows, the entry a
joint finds in its block is the default -1; and if every non-negative local
index is strictly below its own local row, every non-negative `findex[i]`,
`i < m`, satisfies `findex[i] < i` and lies in the row range
`[ofs[k], ofs[k]+m[k])` of the joint that owns row `i`. -/
theorem C22_global_findex (world : dxWorld K) (body : Nat → dxBody K) (nb : Nat)
    (_joint : Nat → dxJoint K) (nj : Nat) (scratch : Scratch K) (a : Assembly K)
    (ha : assemble world body nb _joint nj scratch = some a) (fps : K) :
    (∀ k j, k < a.nj → j < (a.info k).m.toNat →
      (0 ≤ a.localFindex world fps k j →
        (a.packed world fps).findex (a.ofs k + j) =
          a.localFindex world fps k j + (a.ofs k : Int)) ∧
      (a.localFindex world fps k j < 0 →
        (a.packed world fps).findex (a.ofs k + j) = a.localFindex world fps k j ∧
        (a.packed world fps).findex (a.ofs k + j) < 0)) ∧
    ((∀ k, k < a.nj → ∀ blk r, (a.info k).m.toNat ≤ r →
        ((a.joint k).getInfo2 blk).findex r = blk.findex r) →
      ∀ k j, k < a.nj → j < (a.info k).m.toNat →
        (info2Block fps world.global_erp a.ofs
          (info2Prefix fps world.global_erp world.global_cfm a.joint a.info a.ofs k) k).findex j
          = -1) ∧
    ((∀ k j, k < a.nj → j < (a.info k).m.toNat → 0 ≤ a.localFindex world fps k j →
        a.localFindex world fps k j < (j : Int)) →
      ∀ i, i < a.m → 0 ≤ (a.packed world fps).findex i →
        (a.packed world fps).findex i < (i : Int) ∧
        ∃ k, k < a.nj ∧ a.ofs k ≤ i ∧ i < a.ofs k + (a.info k).m.toNat ∧
          (a.ofs k : Int) ≤ (a.packed world fps).findex i ∧
          (a.packed world fps).findex i < ((a.ofs k + (a.info k).m.toNat : Nat) : Int)) := by
  obtain ⟨_, _, _, _, hm, hofs⟩ := assemble_survivors world body nb _joint nj scratch a ha
  have hst := stored_findex world body nb _joint nj scratch a ha fps
  refine ⟨?_, ?_, ?_⟩
  · intro k j hk hj
    have h := hst k j hk hj
    constructor
    · intro hf
      rw [h, if_pos hf]
    · intro hf
      have hn : ¬ 0 ≤ a.localFindex world fps k j := by omega
      rw [h, if_neg hn]
      exact ⟨rfl, hf⟩
  · intro hframe k j hk _
    have h := info2Prefix_findex_default fps world.global_erp world.global_cfm a.joint a.info
      a.ofs a.nj hofs hframe k (by omega) (a.ofs k + j) (by rw [hofs k hk]; omega)
    simpa only [info2Block, viewFrom] using h
  · intro hlt i hi hpos
    rw [hm] at hi
    obtain ⟨k, hk, h1, h2⟩ := row_owner_exists a.info a.nj i hi
    have ho := hofs k hk
    have hj : i - a.ofs k < (a.info k).m.toNat := by omega
    have e : a.ofs k + (i - a.ofs k) = i := by omega
    have h := hst k (i - a.ofs k) hk hj
    rw [e] at h
    by_cases hf : 0 ≤ a.localFindex world fps k (i - a.ofs k)
    · rw [if_pos hf] at h
      have hl := hlt k (i - a.ofs k) hk hj hf
      refine ⟨by rw [h]; omega, k, hk, by omega, by omega, by rw [h]; omega, by rw [h]; omega⟩
    · rw [if_neg hf] at h
      rw [h] at hpos
      exact absurd hpos hf

theorem contactThenFriction_inRange :
    ∀ j, j < 2 → (contactThenFriction j).getInfo1.inRange := by
  intro j hj
  have h : j = 0 ∨ j = 1 := by omega
  rcases h with rfl | rfl
  · show (0 : Int) ≤ 1 ∧ (1 : Int) ≤ 6 ∧ (0 : Int) ≤ 0 ∧ (0 : Int) ≤ 1
    decide
  · show (0 : Int) ≤ 2 ∧ (2 : Int) ≤ 6 ∧ (0 : Int) ≤ 0 ∧ (0 : Int) ≤ 2
    decide

/-- Witness for C22: a contact followed by a contact with friction; the
friction row is global row 2 and its stored index is the global row 1. -/
theorem C22_global_findex_witness :
    ∃ a, assemble (plainWorld 1 1) fallingBody 1 contactThenFriction 2 zeroScratch = some a ∧
      (a.packed (plainWorld 1 1) 1).findex 2 = 1 ∧
      ∀ k j, k < a.nj → j < (a.info k).m.toNat →
        (0 ≤ a.localFindex (plainWorld 1 1) 1 k j →
          (a.packed (plainWorld 1 1) 1).findex (a.ofs k + j) =
            a.localFindex (plainWorld 1 1) 1 k j + (a.ofs k : Int)) ∧
        (a.localFindex (plainWorld 1 1) 1 k j < 0 →
          (a.packed (plainWorld 1 1) 1).findex (a.ofs k + j) =
            a.localFindex (plainWorld 1 1) 1 k j ∧
          (a.packed (plainWorld 1 1) 1).findex (a.ofs k + j) < 0) := by
  cases hc : assemble (plainWorld 1 1) fallingBody 1 contactThenFriction 2 zeroScratch with
  | none =>
    obtain ⟨j, hj, hbad⟩ := (assemble_eq_none_iff _ _ _ _ _ _).mp hc
    exact absurd (contactThenFriction_inRange j hj) hbad
  | some a =>
    have hC := (C22_global_findex (plainWorld 1 1) fallingBody 1 contactThenFriction 2
      zeroScratch a hc 1).1
    refine ⟨a, rfl, ?_, hC⟩
    obtain ⟨_, hnj, _, hsur, _, hofs⟩ :=
      assemble_survivors (plainWorld 1 1) fallingBody 1 contactThenFriction 2 zeroScratch a hc
    have hs : survivors contactThenFriction 2 = [contactJoint 0, frictionJoint 0] := rfl
    rw [hs] at hnj hsur
    have hnj2 : a.nj = 2 := hnj
    obtain ⟨j0, i0⟩ := hsur 0 (by omega)
    obtain ⟨j1, i1⟩ := hsur 1 (by omega)
    have e0 : a.joint 0 = contactJoint 0 := (Option.some.inj j0).symm
    have e1 : a.joint 1 = frictionJoint 0 := (Option.some.inj j1).symm
    rw [e0] at i0
    rw [e1] at i1
    have m0 : (a.info 0).m.toNat = 1 := by rw [i0]; rfl
    have m1 : (a.info 1).m.toNat = 2 := by rw [i1]; rfl
    have o1 : a.ofs 1 = 1 := by
      rw [hofs 1 (by omega)]
      simp only [rowsBefore, Finset.sum_range_one, m0]
    have hf : a.localFindex (plainWorld 1 1) 1 1 1 = 0 := by
      simp only [Assembly.localFindex, e1, frictionJoint, Function.update_same]
    have h := (hC 1 1 (by omega) (by omega)).1 (by rw [hf])
    rw [hf, o1] at h
    exact h

theorem info2Step_cfm_below (fps erp : K) (joint : Nat → dxJoint K) (info : Nat → Info1)
    (ofs : Nat → Nat) (a : Packed K) (i idx : Nat) (h : idx < ofs i) :
    (info2Step fps erp joint info ofs a i).cfm idx = a.cfm idx := by
  have h1 : ¬ ofs i ≤ idx := by omega
  simp only [info2Step, writeFrom, if_neg h1]

theorem info2Step_cfm_from (fps erp : K) (joint : Nat → dxJoint K) (info : Nat → Info1)
    (ofs : Nat → Nat) (a : Packed K) (i idx : Nat) (h : ofs i ≤ idx) :
    (info2Step fps erp joint info ofs a i).cfm idx =
      ((joint i).getInfo2 (info2Block fps erp ofs a i)).cfm (idx - ofs i) := by
  simp only [info2Step, writeFrom, info2Block, if_pos h]

/-- Later joints do not touch the `cfm` rows below their own offset. -/
theorem info2Prefix_cfm_stable (fps erp global_cfm : K) (joint : Nat → dxJoint K)
    (info : Nat → Info1) (ofs : Nat → Nat) (k n idx : Nat) (hkn : k < n)
    (hofs : ∀ i, k < i → i < n → idx < ofs i) :
    (info2Prefix fps erp global_cfm joint info ofs n).cfm idx =
      (info2Prefix fps erp global_cfm joint info ofs (k + 1)).cfm idx := by
  induction n with
  | zero => omega
  | succ n ih =>
    by_cases h : k < n
    · rw [info2Prefix_succ, info2Step_cfm_below _ _ _ _ _ _ _ _ (hofs n h (by omega))]
      exact ih h (fun i h1 h2 => hofs i h1 (by omega))
    · have : k = n := by omega
      rw [this]

/-- The stored `cfm` of local row `j` of joint `k` is the value in the block of
the joint when its `getInfo2` returns. -/
theorem stored_cfm (world : dxWorld K) (body : Nat → dxBody K) (nb : Nat)
    (_joint : Nat → dxJoint K) (nj : Nat) (scratch : Scratch K) (a : Assembly K)
    (ha : assemble world body nb _joint nj scratch = some a) (fps : K) (k j : Nat)
    (hk : k < a.nj) (hj : j < (a.info k).m.toNat) :
    (a.packed world fps).cfm (a.ofs k + j) = a.localCfm world fps k j := by
  obtain ⟨_, _, _, _, _, hofs⟩ := assemble_survivors world body nb _joint nj scratch a ha
  have hstable := info2Prefix_cfm_stable fps world.global_erp world.global_cfm a.joint a.info
    a.ofs k a.nj (a.ofs k + j) hk (fun i h1 h2 => by
      rw [hofs k hk, hofs i h2]
      have := rowsBefore_mono a.info (k + 1) i (by omega)
      rw [rowsBefore_succ] at this
      omega)
  have e : a.packed world fps =
      info2Prefix fps world.global_erp world.global_cfm a.joint a.info a.ofs a.nj := rfl
  have e3 : a.ofs k + j - a.ofs k = j := by omega
  rw [e, hstable, info2Prefix_succ, info2Step_cfm_from _ _ _ _ _ _ _ _ (by omega), e3]
  rfl

/-- When no joint writes `cfm` past its own rows, the rows of the joints still
to be queried hold the default `global_cfm`. -/
theorem info2Prefix_cfm_default (fps erp global_cfm : K) (joint : Nat → dxJoint K)
    (info : Nat → Info1) (ofs : Nat → Nat) (n0 : Nat)
    (hofs : ∀ k, k < n0 → ofs k = rowsBefore info k)
    (hframe : ∀ k, k < n0 → ∀ blk r, (info k).m.toNat ≤ r →
      ((joint k).getInfo2 blk).cfm r = blk.cfm r)
    (n : Nat) (hn : n ≤ n0) (idx : Nat) (hidx : rowsBefore info n ≤ idx) :
    (info2Prefix fps erp global_cfm joint info ofs n).cfm idx = global_cfm := by
  induction n with
  | zero => rfl
  | succ n ih =>
    have hl : n < n0 := by omega
    rw [rowsBefore_succ] at hidx
    have ih2 := ih (by omega) (by omega)
    have ho := hofs n hl
    have h3 : ofs n + (idx - ofs n) = idx := by omega
    rw [info2Prefix_succ, info2Step_cfm_from _ _ _ _ _ _ _ _ (by omega),
      hframe n hl _ _ (by omega)]
    simp only [info2Block, viewFrom, h3]
    exact ih2

theorem assembled_body_rotation (nb : Nat) (gravity : Nat → K) (body : Nat → dxBody K)
    (i : Nat) :
    (addGravity nb gravity (addRotationalForce nb (setTags nb body)) i).R = (body i).R ∧
    (addGravity nb gravity (addRotationalForce nb (setTags nb body)) i).invI = (body i).invI ∧
    (setTags nb body i).R = (body i).R ∧ (setTags nb body i).invI = (body i).invI := by
  simp only [addGravity, addRotationalForce, setTags]
  split_ifs <;> simp

/-- The block of `invI` of a body is its global inverse inertia. -/
theorem assembled_invI (nb : Nat) (gravity : Nat → K) (body : Nat → dxBody K)
    (b r c : Nat) (hr : r < 3) (hc : c < 3) :
    computeInvI (setTags nb body) (b * 12 + 4 * r + c) =
      globalInvI (addGravity nb gravity (addRotationalForce nb (setTags nb body)) b)
        (4 * r + c) := by
  have e1 : (b * 12 + 4 * r + c) / 12 = b := by omega
  have e2 : (b * 12 + 4 * r + c) % 12 = 4 * r + c := by omega
  obtain ⟨h1, h2, h3, h4⟩ := assembled_body_rotation nb gravity body b
  simp only [computeInvI, e1, e2, globalInvI, h1, h2, h3, h4]

theorem tmp1_entry (body : Nat → dxBody K) (invI : Nat → K) (h : K) (b t : Nat) (ht : t < 6)
    (hinv : ∀ r c, r < 3 → c < 3 → invI (b * 12 + 4 * r + c) = globalInvI (body b) (4 * r + c)) :
    computeTmp1 body invI (1 / h) (b * 6 + t) = tmp1Block (body b) h t := by
  have e1 : (b * 6 + t) / 6 = b := by omega
  have e2 : (b * 6 + t) % 6 = t := by omega
  simp only [computeTmp1, tmp1Block, e1, e2]
  by_cases h3 : t < 3
  · rw [if_pos h3, if_pos h3]
    ring
  · rw [if_neg h3, if_neg h3]
    have g0 := hinv (t - 3) 0 (by omega) (by omega)
    have g1 := hinv (t - 3) 1 (by omega) (by omega)
    have g2 := hinv (t - 3) 2 (by omega) (by omega)
    simp only [Nat.add_zero] at g0
    simp only [dMULTIPLY0_331, Finset.sum_range_succ, Finset.sum_range_zero, g0, g1, g2,
      Nat.add_zero, Nat.zero_add, zero_add]
    ring

theorem rhs_formula (J c : Nat → K) (jb : Nat → Int) (body : Nat → dxBody K) (invI : Nat → K)
    (h : K) (i : Nat)
    (hinv : ∀ b r c, r < 3 → c < 3 →
      invI (b * 12 + 4 * r + c) = globalInvI (body b) (4 * r + c)) :
    computeRhs J c jb (computeTmp1 body invI (1 / h)) (1 / h) i =
      c i / h -
        (∑ j ∈ Finset.range 6, J (i * 12 + j) * tmp1Block (body (jb (i * 2)).toNat) h j) -
        (if 0 ≤ jb (i * 2 + 1) then
          ∑ j ∈ Finset.range 6,
            J (i * 12 + 6 + j) * tmp1Block (body (jb (i * 2 + 1)).toNat) h j
        else 0) := by
  have t1 : ∀ t, t < 6 → computeTmp1 body invI (1 / h) ((jb (i * 2)).toNat * 6 + t) =
      tmp1Block (body (jb (i * 2)).toNat) h t :=
    fun t ht => tmp1_entry body invI h _ t ht (hinv _)
  have t2 : ∀ t, t < 6 → computeTmp1 body invI (1 / h) ((jb (i * 2 + 1)).toNat * 6 + t) =
      tmp1Block (body (jb (i * 2 + 1)).toNat) h t :=
    fun t ht => tmp1_entry body invI h _ t ht (hinv _)
  have t10 := t1 0 (by omega)
  have t20 := t2 0 (by omega)
  simp only [Nat.add_zero] at t10 t20
  simp only [computeRhs, dot6, t10, t1 1 (by omega), t1 2 (by omega),
    t1 3 (by omega), t1 4 (by omega), t1 5 (by omega), t20, t2 1 (by omega),
    t2 2 (by omega), t2 3 (by omega), t2 4 (by omega), t2 5 (by omega),
    Finset.sum_range_succ, Finset.sum_range_zero, Nat.add_zero]
  split_ifs <;> ring

/-- Claim C21. For every row `i < m` (its bodies in the body array) the
right-hand side the stepper passes to `SOR_LCP` is
`rhs[i] = c[i]/h - sum_{j<6} J[i][j]*tmp1[b1][j] - (if b2 >= 0)
sum_{j<6} J[i][6+j]*tmp1[b2][j]`, with
`tmp1[b] = [facc*inv_mass + lvel/h ; inv_I_global*tacc + avel/h]` of the body as
it stands after the gravity and rotational-force loops, and the `cfm` passed
is the packed value times `1/h`; the packed `cfm` of local row `j` of joint
`k` is the value in the block of the joint when `getInfo2` returns, and that
block holds the default `global_cfm` on entry when no joint writes `cfm` past
its own rows. -/
theorem C21_rhs_and_cfm (world : dxWorld K) (body : Nat → dxBody K) (nb : Nat)
    (_joint : Nat → dxJoint K) (nj : Nat) (stepsize : K) (scratch : Scratch K) (a : Assembly K)
    (ha : assemble world body nb _joint nj scratch = some a)
    (_hjb : ∀ i, i < a.m →
      0 ≤ a.jb (i * 2) ∧ a.jb (i * 2) < (nb : Int) ∧ a.jb (i * 2 + 1) < (nb : Int)) :
    a.body = addGravity nb world.gravity (addRotationalForce nb (setTags nb body)) ∧
    (∀ i, i < a.m →
      (a.sorInput world nb (1 / stepsize) scratch).b i =
        (a.packed world (1 / stepsize)).c i / stepsize -
          (∑ j ∈ Finset.range 6, (a.packed world (1 / stepsize)).J (i * 12 + j) *
            tmp1Block (a.body (a.jb (i * 2)).toNat) stepsize j) -
          (if 0 ≤ a.jb (i * 2 + 1) then
            ∑ j ∈ Finset.range 6, (a.packed world (1 / stepsize)).J (i * 12 + 6 + j) *
              tmp1Block (a.body (a.jb (i * 2 + 1)).toNat) stepsize j
          else 0) ∧
      (a.sorInput world nb (1 / stepsize) scratch).cfm i =
        (a.packed world (1 / stepsize)).cfm i * (1 / stepsize)) ∧
    (∀ k j, k < a.nj → j < (a.info k).m.toNat →
      (a.packed world (1 / stepsize)).cfm (a.ofs k + j) =
        a.localCfm world (1 / stepsize) k j) ∧
    ((∀ k, k < a.nj → ∀ blk r, (a.info k).m.toNat ≤ r →
        ((a.joint k).getInfo2 blk).cfm r = blk.cfm r) →
      ∀ k j, k < a.nj → j < (a.info k).m.toNat →
        (info2Block (1 / stepsize) world.global_erp a.ofs
          (info2Prefix (1 / stepsize) world.global_erp world.global_cfm a.joint a.info a.ofs k)
            k).cfm j = world.global_cfm) := by
  obtain ⟨_, _, hbody, hinvI, _⟩ := assemble_fields world body nb _joint nj scratch a ha
  obtain ⟨_, _, _, _, _, hofs⟩ := assemble_survivors world body nb _joint nj scratch a ha
  refine ⟨hbody, ?_, ?_, ?_⟩
  · intro i hi
    constructor
    · show computeRhs _ _ _ (computeTmp1 a.body a.invI (1 / stepsize)) (1 / stepsize) i = _
      exact rhs_formula _ _ _ a.body a.invI stepsize i (fun b r c hr hc => by
        rw [hinvI, hbody]
        exact assembled_invI nb world.gravity body b r c hr hc)
    · show scaleCfm a.m _ (1 / stepsize) i = _
      simp only [scaleCfm, if_pos hi]
  · intro k j hk hj
    exact stored_cfm world body nb _joint nj scratch a ha _ k j hk hj
  · intro hframe k j hk _
    have h := info2Prefix_cfm_default (1 / stepsize) world.global_erp world.global_cfm a.joint
      a.info a.ofs a.nj hofs hframe k (by omega) (a.ofs k + j) (by rw [hofs k hk]; omega)
    simpa only [info2Block, viewFrom] using h

/-- Witness for C21: the rod system of scenario S2 with step size 1; the
right-hand side of its row is `0/1 - (1*1 + (-1)*0) = -1`. -/
theorem C21_rhs_and_cfm_witness :
    ((oneJointAssembly (plainWorld 1 1) rodBody 2 rodJoint zeroScratch).sorInput
        (plainWorld 1 1) 2 (1 / 1) zeroScratch).b 0 = -1 ∧
    ∀ i, i < (oneJointAssembly (plainWorld 1 1) rodBody 2 rodJoint zeroScratch).m →
      ((oneJointAssembly (plainWorld 1 1) rodBody 2 rodJoint zeroScratch).sorInput
          (plainWorld 1 1) 2 (1 / 1) zeroScratch).cfm i =
        ((oneJointAssembly (plainWorld 1 1) rodBody 2 rodJoint zeroScratch).packed
          (plainWorld 1 1) (1 / 1)).cfm i * (1 / 1) := by
  have h := C21_rhs_and_cfm (plainWorld 1 1) rodBody 2 rodJoint 1 1 zeroScratch
    (oneJointAssembly (plainWorld 1 1) rodBody 2 rodJoint zeroScratch)
    (assemble_one_joint _ _ _ _ _ (by decide))
    (by
      intro i hi
      have hm : (oneJointAssembly (plainWorld 1 1) rodBody 2 rodJoint zeroScratch).m = 1 := rfl
      have h0 : i = 0 := by omega
      subst h0
      obtain ⟨e0, e1⟩ := rod_jb 1
      simp only [Nat.zero_mul, Nat.zero_add]
      rw [e0, e1]
      decide)
  refine ⟨?_, fun i hi => (h.2.1 i hi).2⟩
  have hb := (h.2.1 0 (by decide)).1
  obtain ⟨e0, e1⟩ := rod_jb 1
  obtain ⟨a1, a2, a3⟩ := assembled_body_linear 2 (plainWorld 1 1).gravity rodBody 0 0
    (by decide) (by decide)
  obtain ⟨b1, b2, b3⟩ := assembled_body_linear 2 (plainWorld 1 1).gravity rodBody 1 0
    (by decide) (by decide)
  rw [hb, (rod_packed 1 1).1, (rod_packed 1 1).2.1, h.1]
  simp only [Nat.zero_mul, Nat.zero_add, e0, e1, Finset.sum_range_succ, Finset.sum_range_zero]
  have t0 : tmp1Block (addGravity 2 (plainWorld 1 1).gravity
      (addRotationalForce 2 (setTags 2 rodBody)) (0 : Int).toNat) 1 0 = 1 := by
    show tmp1Block (addGravity 2 (plainWorld 1 1).gravity
      (addRotationalForce 2 (setTags 2 rodBody)) 0) 1 0 = 1
    simp only [tmp1Block, a1, a2, a3]
    norm_num [rodBody, unitBody, plainWorld]
  have t1 : tmp1Block (addGravity 2 (plainWorld 1 1).gravity
      (addRotationalForce 2 (setTags 2 rodBody)) (1 : Int).toNat) 1 0 = 0 := by
    show tmp1Block (addGravity 2 (plainWorld 1 1).gravity
      (addRotationalForce 2 (setTags 2 rodBody)) 1) 1 0 = 0
    simp only [tmp1Block, b1, b2, b3]
    norm_num [rodBody, unitBody, plainWorld]
  rw [t0, t1]
  norm_num

theorem zeroRow_iMJ (idx : Nat) :
    IEEE.computeIMJ IEEE.zeroRow.m IEEE.zeroRow.J IEEE.zeroRow.jb IEEE.zeroRow.invMass
      IEEE.zeroRow.invI IEEE.zeroRow.iMJ0 idx = .fin 0 := by
  simp only [IEEE.computeIMJ, IEEE.zeroRow, IEEE.dMULTIPLY0_331, IEEE.mul, IEEE.add]
  split_ifs <;> simp

theorem ieee_add_nan_left (x : IEEE.dReal K) : IEEE.add .nan x = .nan := by
  cases x <;> rfl

theorem ieee_add_nan_right (x : IEEE.dReal K) : IEEE.add x .nan = .nan := by
  cases x <;> rfl

theorem ieee_sub_nan_left (x : IEEE.dReal K) : IEEE.sub .nan x = .nan := by
  simp only [IEEE.sub, ieee_add_nan_left]

theorem ieee_sub_nan_right (x : IEEE.dReal K) : IEEE.sub x .nan = .nan := by
  simp only [IEEE.sub, IEEE.neg, ieee_add_nan_right]

theorem ieee_lt_nan_left (x : IEEE.dReal K) : IEEE.lt .nan x = false := by
  cases x <;> rfl

theorem ieee_lt_nan_right (x : IEEE.dReal K) : IEEE.lt x .nan = false := by
  cases x <;> rfl

theorem ieee_le_nan_left (x : IEEE.dReal K) : IEEE.le .nan x = false := by
  cases x <;> rfl

theorem ieee_le_nan_right (x : IEEE.dReal K) : IEEE.le x .nan = false := by
  cases x <;> rfl

/-- A row whose product `lambda[index]*Ad[index]` is a NaN passes both tests
of the clamp and stores a NaN in `lambda[index]`. -/
theorem ieee_row_nan (J iMJ b Ad : Nat → IEEE.dReal K) (jb : Nat → Int)
    (lo hi : Nat → IEEE.dReal K) (index : Nat) (s : IEEE.SORState K)
    (h : IEEE.mul (s.lambda index) (Ad index) = .nan) :
    (IEEE.rowUpdate J iMJ b Ad jb lo hi index s).lambda index = .nan := by
  have hd : IEEE.rowDelta J b Ad jb index s = .nan := by
    simp only [IEEE.rowDelta, h, ieee_sub_nan_right, ieee_sub_nan_left]
    split_ifs <;> rfl
  simp only [IEEE.rowUpdate, hd, IEEE.clampLambda, ieee_add_nan_right, ieee_lt_nan_left,
    ieee_lt_nan_right, Function.update_same]
  simp

theorem zeroRow_Ad (i : Nat) :
    IEEE.computeAd IEEE.zeroRow.sor_w IEEE.zeroRow.J
      (IEEE.computeIMJ IEEE.zeroRow.m IEEE.zeroRow.J IEEE.zeroRow.jb IEEE.zeroRow.invMass
        IEEE.zeroRow.invI IEEE.zeroRow.iMJ0) IEEE.zeroRow.jb IEEE.zeroRow.cfm i = .pinf := by
  have hj : ¬ (0 : Int) ≤ IEEE.zeroRow.jb (i * 2 + 1) := by
    have e : (i * 2 + 1) % 2 = 1 := by omega
    simp [IEEE.zeroRow, e]
  have hJ : ∀ j, IEEE.zeroRow.J j = .fin 0 := fun _ => rfl
  have hc : IEEE.zeroRow.cfm i = .fin 0 := rfl
  have hw : IEEE.zeroRow.sor_w = .fin 1 := rfl
  simp only [IEEE.computeAd, IEEE.diagSum, if_neg hj, IEEE.acc6, zeroRow_iMJ, hJ, hc, hw,
    List.range_succ, List.range_zero, List.nil_append, List.cons_append, List.foldl_cons,
    List.foldl_nil, IEEE.mul, IEEE.add, IEEE.div]
  norm_num

theorem zeroRowExample_divisor :
    diagSum zeroRowExample.J zeroRowExample.iMJ zeroRowExample.jb 0 + zeroRowExample.cfm 0 = 0 := by
  norm_num [diagSum, dot6, SORInput.iMJ, computeIMJ, dMULTIPLY0_331, zeroRowExample]

/-- Claim C2 as stated fails on floating-point values: for the row
`IEEE.zeroRow` (`J = 0`, `cfm = 0`, `lo = 0 <= hi = 1`, one iteration) the
divisor of line 155 is zero, `Ad[0]` is `+inf`, the scaled `Ad[0]` and the
new `lambda[0]` are NaN, both tests of the clamp are false, and `SOR_LCP`
returns `lambda[0] = NaN`, for which neither `lo[0] <= lambda[0]` nor
`lambda[0] <= hi[0]` holds. -/
theorem C2_fails_for_zero_divisor :
    IEEE.le (IEEE.zeroRow.lo 0) (IEEE.zeroRow.hi 0) = true ∧
    1 ≤ IEEE.zeroRow.num_iterations ∧
    diagSum zeroRowExample.J zeroRowExample.iMJ zeroRowExample.jb 0 + zeroRowExample.cfm 0 = 0 ∧
    (IEEE.SOR_LCP IEEE.zeroRow).lambda 0 = IEEE.dReal.nan ∧
    IEEE.le (IEEE.zeroRow.lo 0) ((IEEE.SOR_LCP IEEE.zeroRow).lambda 0) = false ∧
    IEEE.le ((IEEE.SOR_LCP IEEE.zeroRow).lambda 0) (IEEE.zeroRow.hi 0) = false := by
  have hl : (IEEE.SOR_LCP IEEE.zeroRow).lambda 0 = IEEE.dReal.nan := by
    have hn : IEEE.zeroRow.num_iterations.toNat = 1 := rfl
    have hm : IEEE.zeroRow.m = 1 := rfl
    have ho : buildOrder 1 IEEE.zeroRow.findex = [0] := by decide
    simp only [IEEE.SOR_LCP, hn, hm, ho, IEEE.iterations, IEEE.sweep, List.range_succ,
      List.range_zero, List.nil_append, List.foldl_cons, List.foldl_nil,
      List.getD_cons_zero]
    apply ieee_row_nan
    have h1 := zeroRow_Ad 0
    rw [hm] at h1
    simp only [IEEE.scaleAd, IEEE.dSetZero, Nat.zero_lt_one, if_true, h1]
    simp [IEEE.zeroRow, IEEE.mul]
  refine ⟨?_, by decide, zeroRowExample_divisor, hl, ?_, ?_⟩
  · simp [IEEE.zeroRow, IEEE.le]
  · rw [hl, ieee_le_nan_right]
  · rw [hl, ieee_le_nan_left]

end QuickStep
